import Mathlib

/-
Verification of the skiplist engine in src/skiplist.c (scottvokes/skiplist style
code base).  The C code is shallowly embedded: nodes live in an append-only
arena (a list of nodes); a pointer is either the index of a node in the arena
or the sentinel (modelled as none); freeing memory is a no-op (freed nodes are
simply never referenced again).  Keys are modelled as integers together with
the standard three-way comparator, values as naturals where 0 models the C
NULL pointer.  Loops of the C code become fuelled recursions returning an
Option; under the representation invariant the fuel is proven sufficient, so
none never arises on well-formed states.  Allocation (SKIPLIST_MALLOC) may
fail: it is driven by an oracle indexed by the allocation count, matching the
configurable allocator of the spec.  The pseudo-random source used by
SKIPLIST_GEN_HEIGHT (random/srandom, external per the spec) is modelled as a
stream of draws consumed one per height generation.
-/

namespace Skiplist

/-- Pointer: arena index, or none for the address of the static SENTINEL node. -/
abbrev Ptr := Option Nat

/-- Model of struct skiplist_node: height, key, value and the forward-pointer
array next (of length h).  Keys are Int (opaque user keys under a total
comparator), values are Nat with 0 modelling the C NULL pointer. -/
structure Node where
  h : Nat
  k : Int
  v : Nat
  next : List Ptr
deriving Repr, DecidableEq

/-- Model of struct skiplist, plus the process-wide RNG position.  The arena
holds every node ever allocated (including replaced heads); headIdx is the
current head.  count mirrors sl count; rngIdx is how many random() draws
have been consumed so far. -/
structure SLR where
  arena : List Node
  headIdx : Nat
  count : Nat
  rngIdx : Nat
deriving Repr, DecidableEq

/-- Default node used for out-of-range arena reads (never reached on
well-formed states). -/
def dfltNode : Node := { h := 0, k := 0, v := 0, next := [] }

def nodeAt (a : List Node) (i : Nat) : Node := a.getD i dfltNode

def keyAt (a : List Node) (i : Nat) : Int := (nodeAt a i).k

def valAt (a : List Node) (i : Nat) : Nat := (nodeAt a i).v

def hAt (a : List Node) (i : Nat) : Nat := (nodeAt a i).h

/-- Read node i's forward pointer at the given level (n->next[lvl]). -/
def nextAt (a : List Node) (i lvl : Nat) : Ptr := (nodeAt a i).next.getD lvl none

/-- Height of the current head (head->h). -/
def headH (st : SLR) : Nat := hAt st.arena st.headIdx

/-- SKIPLIST_CMP for integer keys: the standard three-way comparator. -/
def cmpI (x y : Int) : Int := if x < y then -1 else if y < x then 1 else 0

/-- Write node i's forward pointer at the given level (n->next[lvl] = p). -/
def updNext (a : List Node) (i lvl : Nat) (p : Ptr) : List Node :=
  a.set i { nodeAt a i with next := (nodeAt a i).next.set lvl p }

/-- Allocation oracle driven N_alloc: appends a fresh node whose forward
pointers are all initialized to the sentinel, returning its index.  The
oracle is consulted at the current allocation count (the arena size);
false models SKIPLIST_MALLOC returning NULL. -/
def N_alloc (alloc : Nat → Bool) (a : List Node) (height : Nat) (key : Int) (value : Nat) :
    Option (Nat × List Node) :=
  if alloc a.length then
    some (a.length, a ++ [{ h := height, k := key, v := value, next := List.replicate height none }])
  else none

/-- Modelled from the spec: SKIPLIST_MAX_HEIGHT comes from skiplist_config.h,
which is not part of src/; the spec only fixes it as a positive
compile-time constant (the maximum tower height).  We fix the value 15. -/
def SKIPLIST_MAX_HEIGHT : Nat := 15

/-- Loop of SKIPLIST_GEN_HEIGHT: for (int bit=0; r & (2 << bit); bit++) h++.
The fuel argument only bounds the iteration count; it is chosen large
enough that the loop always exits at the same point as the C loop. -/
def gen_height_go (r : Nat) : Nat → Nat → Nat → Nat
  | 0, _, h => h
  | fuel+1, bit, h => if r &&& (2 <<< bit) ≠ 0 then gen_height_go r fuel (bit+1) (h+1) else h

/-- SKIPLIST_GEN_HEIGHT applied to one draw r of the pseudo-random source:
h starts at 1, counts the run of set bits of r starting at bit 1, and is
capped at SKIPLIST_MAX_HEIGHT. -/
def SKIPLIST_GEN_HEIGHT (r : Nat) : Nat :=
  let h := gen_height_go r (r + 2) 0 1
  if h > SKIPLIST_MAX_HEIGHT then SKIPLIST_MAX_HEIGHT else h

/-- Modelled from the spec: one step of the seedable pseudo-random source
(random(3)/srandom(3), an external collaborator per the spec).  Any
deterministic generator works; we use a standard linear congruential step. -/
def lcgStep (x : Nat) : Nat := (1103515245 * x + 12345) % 2147483648

/-- Modelled from the spec: the stream of random() draws produced after
srandom(seed).  A fixed seed yields a fully reproducible stream,
independent of anything else. -/
def randomSeq (seed : Nat) : Nat → Nat := fun i => lcgStep^[i + 1] seed

/-- skiplist_set_seed: srandom(seed) resets the process-wide source; the
process RNG state is modelled as the pair (stream of pending draws,
position), so seeding installs (randomSeq seed, position 0). -/
def skiplist_set_seed (seed : Nat) : (Nat → Nat) × Nat := (randomSeq seed, 0)

/-- Fuel used by the traversal loops: strictly more steps than any loop of
the C code can take on a well-formed structure (at most one descend per
level plus at most one advance per node per level). -/
def opFuel (st : SLR) : Nat := (st.arena.length + 2) * (headH st + 2)

/-- Loop of init_prevs.  cur is the current node (head or arena index), lvl
the current level, acc the prevs recorded so far (levels below lvl come
first).  Descending at level 0 ends the do-while (lvl becomes -1 in C).
Returns the prevs array, level 0 first; none means fuel ran out, which is
proven impossible on well-formed states. -/
def init_prevs_go (a : List Node) (key : Int) : Nat → Nat → Nat → List Nat → Option (List Nat)
  | 0, _, _, _ => none
  | fuel+1, cur, lvl, acc =>
    match nextAt a cur lvl with
    | none =>
      -- IS_SENTINEL(next): res = 1, overshot, record prevs[lvl] and descend
      if lvl = 0 then some (cur :: acc) else init_prevs_go a key fuel cur (lvl - 1) (cur :: acc)
    | some j =>
      if cmpI (keyAt a j) key < 0 then
        -- res < 0: advance
        init_prevs_go a key fuel j lvl acc
      else
        -- res >= 0: overshot, record prevs[lvl] and descend
        if lvl = 0 then some (cur :: acc) else init_prevs_go a key fuel cur (lvl - 1) (cur :: acc)

/-- init_prevs(sl, key, head, head->h, prevs): the per-level predecessors of
the position for key, starting at the top level of the head. -/
def init_prevs (st : SLR) (key : Int) : Option (List Nat) :=
  init_prevs_go st.arena key (opFuel st) st.headIdx (headH st - 1) []

/-- grow_head(sl, nn): allocate a head of nn's height, copy the old head's
forward pointers below the old height, point the new top levels at nn,
install it and free the old head.  none models the allocation failing
(grow_head returning -1). -/
def grow_head (alloc : Nat → Bool) (st : SLR) (nnIdx : Nat) : Option SLR :=
  let a := st.arena
  let oldh := headH st
  let nh := hAt a nnIdx
  match N_alloc alloc a nh 0 0 with
  | none => none
  | some (newIdx, a1) =>
    -- DO(old_head->h, new_head->next[i] = old_head->next[i]) followed by
    -- for (i = old_head->h; i < new_head->h; i++) new_head->next[i] = nn
    let nxt := (List.range nh).map (fun i => if i < oldh then nextAt a st.headIdx i else some nnIdx)
    let a2 := a1.set newIdx { nodeAt a1 newIdx with next := nxt }
    some { st with arena := a2, headIdx := newIdx }

/-- Splice loop of add_or_set: for each level i below minH,
nn->next[i] = prevs[i]->next[i]; prevs[i]->next[i] = nn. -/
def splice (a : List Node) (prevs : List Nat) (nnIdx minH : Nat) : List Node :=
  (List.range minH).foldl
    (fun acc i =>
      let acc1 := updNext acc nnIdx i (nextAt acc (prevs.getD i 0) i)
      updNext acc1 (prevs.getD i 0) i (some nnIdx))
    a

/-- add_or_set(sl, try_replace, key, value, old).  Returns (return code,
final contents of *old, new state).  oldIn is the value *old held before
the call: the source leaves *old unwritten when the level-0 successor of
the insertion point is the sentinel.  The outer none is fuel exhaustion
(impossible on well-formed states). -/
def add_or_set (g : Nat → Nat) (alloc : Nat → Bool) (try_replace : Bool)
    (key : Int) (value : Nat) (oldIn : Nat) (st : SLR) : Option (Int × Nat × SLR) :=
  let a := st.arena
  let cur_height := headH st
  match init_prevs st key with
  | none => none
  | some prevs =>
    let next0 := nextAt a (prevs.getD 0 0) 0
    let repl : Option Nat :=
      if try_replace then
        match next0 with
        | some j => if cmpI (keyAt a j) key = 0 then some j else none
        | none => none
      else none
    match repl with
    | some j =>
      -- key exists: *old = next->v; next->v = value; return 0
      some (0, valAt a j, { st with arena := a.set j { nodeAt a j with v := value } })
    | none =>
      let oldOut : Nat :=
        if try_replace then
          match next0 with
          | some _ => 0      -- not found, non-sentinel successor: *old = NULL
          | none => oldIn    -- sentinel successor: the source never writes *old
        else oldIn
      let new_height := SKIPLIST_GEN_HEIGHT (g st.rngIdx)
      let st0 := { st with rngIdx := st.rngIdx + 1 }
      match N_alloc alloc st0.arena new_height key value with
      | none => some (-1, oldOut, st0)
      | some (nnIdx, a1) =>
        let st1 := { st0 with arena := a1 }
        if new_height > cur_height then
          match grow_head alloc st1 nnIdx with
          | none => some (-1, oldOut, st1)
          | some st2 =>
            -- re-point prevs that referred to the freed old head
            let prevs2 := prevs.map (fun p => if p = st.headIdx then st2.headIdx else p)
            let a3 := splice st2.arena prevs2 nnIdx (min new_height cur_height)
            some (0, oldOut, { st2 with arena := a3, count := st2.count + 1 })
        else
          let a3 := splice st1.arena prevs nnIdx (min new_height cur_height)
          some (0, oldOut, { st1 with arena := a3, count := st1.count + 1 })

/-- skiplist_add(sl, key, value): add_or_set with try_replace 0, old NULL. -/
def skiplist_add (g : Nat → Nat) (alloc : Nat → Bool) (key : Int) (value : Nat) (st : SLR) :
    Option (Int × SLR) :=
  (add_or_set g alloc false key value 0 st).map (fun r => (r.1, r.2.2))

/-- skiplist_set(sl, key, value, old): add_or_set with try_replace 1. -/
def skiplist_set (g : Nat → Nat) (alloc : Nat → Bool) (key : Int) (value : Nat) (oldIn : Nat)
    (st : SLR) : Option (Int × Nat × SLR) :=
  add_or_set g alloc true key value oldIn st

/-- Loop of the delete-all branch of delete_one_or_all.  Walks the run of
nodes with the given key at level 0, maintaining the nexts frontier, the
tallest doomed height tdh, the count, and the visitor invocations
(cb(key, doomed->v, udata), in order). -/
def delete_all_go (a : List Node) (key : Int) :
    Nat → Nat → List Ptr → Nat → Nat → List (Int × Nat) →
    Option (List Ptr × Nat × Nat × List (Int × Nat))
  | 0, _, _, _, _, _ => none
  | fuel+1, doomed, nexts, tdh, count, visited =>
    let next := nextAt a doomed 0
    let tdh1 := max tdh (hAt a doomed)
    let nexts1 := (List.range (hAt a doomed)).foldl
        (fun acc i => acc.set i (nextAt a doomed i)) nexts
    let visited1 := visited ++ [(key, valAt a doomed)]
    let count1 := count - 1
    match next with
    | none => some (nexts1, tdh1, count1, visited1)
    | some j =>
      if cmpI (keyAt a j) key = 0 then
        delete_all_go a key fuel j nexts1 tdh1 count1 visited1
      else some (nexts1, tdh1, count1, visited1)

/-- delete_one_or_all(sl, key, udata, cb).  has_cb false is skiplist_delete
(returns the removed value, NULL i.e. 0 when absent); has_cb true is
skiplist_delete_all (returns NULL, plus the list of visitor invocations).
The outer none is fuel exhaustion (impossible on well-formed states). -/
def delete_one_or_all (has_cb : Bool) (key : Int) (st : SLR) :
    Option (Nat × List (Int × Nat) × SLR) :=
  let a := st.arena
  let cur_height := headH st
  match init_prevs st key with
  | none => none
  | some prevs =>
    match nextAt a (prevs.getD 0 0) 0 with
    | none => some (0, [], st)
    | some d0 =>
      if cmpI (keyAt a d0) key = 0 then
        if has_cb then
          let nexts0 := List.replicate cur_height (none : Ptr)
          match delete_all_go a key (opFuel st) d0 nexts0 0 st.count [] with
          | none => none
          | some (nexts, tdh, count1, visited) =>
            -- DO(tdh, prevs[i]->next[i] = nexts[i])
            let a1 := (List.range tdh).foldl
                (fun acc i => updNext acc (prevs.getD i 0) i (nexts.getD i none)) a
            some (0, visited, { st with arena := a1, count := count1 })
        else
          -- DO(doomed->h, prevs[i]->next[i] = doomed->next[i])
          let a1 := (List.range (hAt a d0)).foldl
              (fun acc i => updNext acc (prevs.getD i 0) i (nextAt acc d0 i)) a
          some (valAt a d0, [], { st with arena := a1, count := st.count - 1 })
      else some (0, [], st)

/-- skiplist_delete(sl, key): removed value (0 models NULL) and new state. -/
def skiplist_delete (key : Int) (st : SLR) : Option (Nat × SLR) :=
  (delete_one_or_all false key st).map (fun r => (r.1, r.2.2))

/-- skiplist_delete_all(sl, key, udata, cb): visitor invocations and state. -/
def skiplist_delete_all (key : Int) (st : SLR) : Option (List (Int × Nat) × SLR) :=
  (delete_one_or_all true key st).map (fun r => (r.2.1, r.2.2))

/-- Loop of get_first_eq_node: advance while next->k < key; on overshoot at
level 0 return the match (the FIRST equal node) or not-found; otherwise
descend.  Inner Option is the result (none = not found). -/
def get_first_go (a : List Node) (key : Int) : Nat → Nat → Nat → Option (Option Nat)
  | 0, _, _ => none
  | fuel+1, cur, lvl =>
    match nextAt a cur lvl with
    | none => if lvl = 0 then some none else get_first_go a key fuel cur (lvl - 1)
    | some j =>
      if cmpI (keyAt a j) key < 0 then get_first_go a key fuel j lvl
      else if lvl = 0 then (if cmpI (keyAt a j) key = 0 then some (some j) else some none)
      else get_first_go a key fuel cur (lvl - 1)

/-- get_first_eq_node(sl, key). -/
def get_first_eq_node (st : SLR) (key : Int) : Option (Option Nat) :=
  get_first_go st.arena key (opFuel st) st.headIdx (headH st - 1)

/-- skiplist_get(sl, key): the found node's value, or NULL (0) if absent. -/
def skiplist_get (st : SLR) (key : Int) : Option Nat :=
  (get_first_eq_node st key).map (fun r => match r with | some j => valAt st.arena j | none => 0)

/-- skiplist_member(sl, key): v != NULL for the value returned by get. -/
def skiplist_member (st : SLR) (key : Int) : Option Bool :=
  (skiplist_get st key).map (fun v => decide (v ≠ 0))

/-- skiplist_first(sl, key, value): the level-0 successor of the head; none
models the -1 empty signal. -/
def skiplist_first (st : SLR) : Option (Int × Nat) :=
  match nextAt st.arena st.headIdx 0 with
  | none => none
  | some j => some (keyAt st.arena j, valAt st.arena j)

/-- Loop of skiplist_last: advance along the level while next is not the
sentinel, else descend; after level 0 the walker holds the last node. -/
def last_go (a : List Node) : Nat → Nat → Nat → Option Nat
  | 0, _, _ => none
  | fuel+1, cur, lvl =>
    match nextAt a cur lvl with
    | none => if lvl = 0 then some cur else last_go a fuel cur (lvl - 1)
    | some j => last_go a fuel j lvl

/-- skiplist_last(sl, key, value).  Inner none models the -1 empty signal
(taken when the TOP level of the head is empty); outer none is fuel
exhaustion. -/
def skiplist_last (st : SLR) : Option (Option (Int × Nat)) :=
  let a := st.arena
  let lvl := headH st - 1
  match nextAt a st.headIdx lvl with
  | none => some none
  | some c0 =>
    match last_go a (opFuel st) c0 lvl with
    | none => none
    | some z => some (some (keyAt a z, valAt a z))

/-- skiplist_pop_first(sl, key, value): unlink the level-0 successor of the
head from every level it participates in.  none models the -1 empty
signal. -/
def skiplist_pop_first (st : SLR) : Option (Int × Nat) × SLR :=
  let a := st.arena
  match nextAt a st.headIdx 0 with
  | none => (none, st)
  | some j =>
    let height := hAt a j
    let st1 := { st with count := st.count - 1 }
    -- DO(height, head->next[i] = first->next[i])
    let a1 := (List.range height).foldl
        (fun acc i => updNext acc st.headIdx i (nextAt acc j i)) a
    (some (keyAt a j, valAt a j), { st1 with arena := a1 })

/-- Loop of skiplist_pop_last: record, per level, the node from which the
last node at that level can be skipped (successor is sentinel, or
successor of successor is sentinel), descending the same way as last. -/
def pop_last_go (a : List Node) : Nat → Nat → Nat → List Nat → Option (List Nat)
  | 0, _, _, _ => none
  | fuel+1, cur, lvl, acc =>
    match nextAt a cur lvl with
    | none =>
      if lvl = 0 then some (cur :: acc) else pop_last_go a fuel cur (lvl - 1) (cur :: acc)
    | some j =>
      match nextAt a j lvl with
      | none =>
        if lvl = 0 then some (cur :: acc) else pop_last_go a fuel cur (lvl - 1) (cur :: acc)
      | some _ => pop_last_go a fuel j lvl acc

/-- skiplist_pop_last(sl, key, value).  Inner none models the -1 empty
signal (count == 0); outer none is fuel exhaustion or a violated
assertion (impossible on well-formed states). -/
def skiplist_pop_last (st : SLR) : Option (Option (Int × Nat) × SLR) :=
  let a := st.arena
  if st.count = 0 then some (none, st)
  else
    match pop_last_go a (opFuel st) st.headIdx (headH st - 1) [] with
    | none => none
    | some prevs =>
      match nextAt a (prevs.getD 0 0) 0 with
      | none => none
      | some z =>
        -- DO(cur->h, prevs[i]->next[i] = &SENTINEL)
        let a1 := (List.range (hAt a z)).foldl
            (fun acc i => updNext acc (prevs.getD i 0) i none) a
        some (some (keyAt a z, valAt a z), { st with arena := a1, count := st.count - 1 })

/-- skiplist_count(sl). -/
def skiplist_count (st : SLR) : Nat := st.count

/-- skiplist_empty(sl): count == 0. -/
def skiplist_empty (st : SLR) : Bool := decide (skiplist_count st = 0)

/-- walk_and_apply(cur, udata, cb) with a visitor that records every
(key, value) pair and always returns 0 (a full iteration): the list of
pairs visited along level 0.  none is fuel exhaustion. -/
def walk_and_apply (a : List Node) : Nat → Ptr → Option (List (Int × Nat))
  | _, none => some []
  | 0, some _ => none
  | fuel+1, some j => (walk_and_apply a fuel (nextAt a j 0)).map
      (fun l => (keyAt a j, valAt a j) :: l)

/-- skiplist_iter(sl, udata, cb) under the recording visitor: the full
ascending iteration from head->next[0]. -/
def skiplist_iter_list (st : SLR) : Option (List (Int × Nat)) :=
  walk_and_apply st.arena (opFuel st) (nextAt st.arena st.headIdx 0)

/-- Loop of skiplist_clear: free every level-0 node, invoking the visitor
and counting. -/
def clear_go (a : List Node) : Nat → Ptr → Nat → List (Int × Nat) →
    Option (Nat × List (Int × Nat))
  | _, none, ct, vis => some (ct, vis)
  | 0, some _, _, _ => none
  | fuel+1, some j, ct, vis =>
    clear_go a fuel (nextAt a j 0) (ct + 1) (vis ++ [(keyAt a j, valAt a j)])

/-- skiplist_clear(sl, udata, cb): returns the number cleared and the
visitor invocations; every head forward pointer is reset to the sentinel.
Note that the source does NOT reset sl->count. -/
def skiplist_clear (st : SLR) : Option (Nat × List (Int × Nat) × SLR) :=
  match clear_go st.arena (opFuel st) (nextAt st.arena st.headIdx 0) 0 [] with
  | none => none
  | some (ct, vis) =>
    let a1 := (List.range (headH st)).foldl (fun acc i => updNext acc st.headIdx i none) st.arena
    some (ct, vis, { st with arena := a1 })

/-- skiplist_new(): head of height 1 with its forward pointer at the
sentinel, count 0.  (The successful-allocation case; the claims all start
from a freshly created skiplist.) -/
def skiplist_new : SLR :=
  { arena := [{ h := 1, k := 0, v := 0, next := [none] }], headIdx := 0, count := 0, rngIdx := 0 }

/-- Public mutating operations of claim C1. -/
inductive Op where
  | add (k : Int) (v : Nat)
  | set (k : Int) (v : Nat)
  | del (k : Int)
  | delAll (k : Int)
  | popFirst
  | popLast
deriving Repr, DecidableEq

/-- Run one public mutating operation, keeping only the state. -/
def execOp (g : Nat → Nat) (alloc : Nat → Bool) : Op → SLR → Option SLR
  | .add k v, st => (add_or_set g alloc false k v 0 st).map (fun r => r.2.2)
  | .set k v, st => (add_or_set g alloc true k v 0 st).map (fun r => r.2.2)
  | .del k, st => (delete_one_or_all false k st).map (fun r => r.2.2)
  | .delAll k, st => (delete_one_or_all true k st).map (fun r => r.2.2)
  | .popFirst, st => some (skiplist_pop_first st).2
  | .popLast, st => (skiplist_pop_last st).map (fun r => r.2)

/-- Run a sequence of public mutating operations. -/
def execs (g : Nat → Nat) (alloc : Nat → Bool) : List Op → SLR → Option SLR
  | [], st => some st
  | op :: ops, st => (execOp g alloc op st).bind (execs g alloc ops)

/-- Run a sequence of inserts (skiplist_add), keeping only the state. -/
def runAdds (g : Nat → Nat) (alloc : Nat → Bool) (kvs : List (Int × Nat)) (st : SLR) :
    Option SLR :=
  execs g alloc (kvs.map (fun e => Op.add e.1 e.2)) st

/-- Heights of every node ever allocated, in allocation order. -/
def heightsOf (st : SLR) : List Nat := st.arena.map Node.h

/-- Structural skeleton of a state: the per-node heights in allocation
order, the installed head, the count and the RNG cursor.  The tower shape
is a function of the skeleton alone, never of keys or values. -/
def Skel (st : SLR) : List Nat × Nat × Nat × Nat :=
  (heightsOf st, st.headIdx, st.count, st.rngIdx)

/-- Skeleton effect of one successful skiplist_add: one node of the drawn
height is appended (plus a replacement head of the same height when the
head grows), count and the RNG cursor advance.  Keys and values do not
appear. -/
def addSkelStep (g : Nat → Nat) (sk : List Nat × Nat × Nat × Nat) :
    List Nat × Nat × Nat × Nat :=
  if SKIPLIST_GEN_HEIGHT (g sk.2.2.2) > sk.1.getD sk.2.1 0 then
    (sk.1 ++ [SKIPLIST_GEN_HEIGHT (g sk.2.2.2), SKIPLIST_GEN_HEIGHT (g sk.2.2.2)],
      sk.1.length + 1, sk.2.2.1 + 1, sk.2.2.2 + 1)
  else
    (sk.1 ++ [SKIPLIST_GEN_HEIGHT (g sk.2.2.2)], sk.2.1, sk.2.2.1 + 1, sk.2.2.2 + 1)

/-- Nodes of the level-lvl chain: the level-0 nodes whose height exceeds lvl. -/
def levelChain (a : List Node) (L : List Nat) (lvl : Nat) : List Nat :=
  L.filter (fun i => decide (lvl < hAt a i))

/-- Seg a lvl p c q: starting from pointer p, following next[lvl] visits
exactly the nodes of c in order and ends at pointer q. -/
def Seg (a : List Node) (lvl : Nat) : Ptr → List Nat → Ptr → Prop
  | p, [], q => p = q
  | p, i :: rest, q => p = some i ∧ Seg a lvl (nextAt a i lvl) rest q

/-- IsChain: the pointer p heads a level-lvl list of exactly the nodes c,
terminated by the sentinel. -/
def IsChain (a : List Node) (lvl : Nat) (p : Ptr) (c : List Nat) : Prop :=
  Seg a lvl p c none

instance Seg.dec (a : List Node) (lvl : Nat) :
    ∀ (c : List Nat) (p q : Ptr), Decidable (Seg a lvl p c q)
  | [], p, q => decidable_of_iff (p = q) Iff.rfl
  | i :: rest, p, q =>
    haveI := Seg.dec a lvl rest (nextAt a i lvl) q
    decidable_of_iff (p = some i ∧ Seg a lvl (nextAt a i lvl) rest q) Iff.rfl

instance IsChain.dec (a : List Node) (lvl : Nat) (p : Ptr) (c : List Nat) :
    Decidable (IsChain a lvl p c) :=
  Seg.dec a lvl c p none

/-- Representation invariant: L is the list of arena indices of the stored
nodes in level-0 order.  It captures the invariants I1 to I4 of the spec,
count consistency, and the structural facts (index bounds, tower lengths,
distinctness) that make the pointer structure a well-formed skiplist. -/
structure Wf (st : SLR) (L : List Nat) : Prop where
  head_lt : st.headIdx < st.arena.length
  head_pos : 1 ≤ headH st
  head_len : (nodeAt st.arena st.headIdx).next.length = headH st
  mem_lt : ∀ i ∈ L, i < st.arena.length
  ne_head : ∀ i ∈ L, i ≠ st.headIdx
  nodup : L.Nodup
  h_pos : ∀ i ∈ L, 1 ≤ hAt st.arena i
  h_le : ∀ i ∈ L, hAt st.arena i ≤ headH st
  next_len : ∀ i ∈ L, (nodeAt st.arena i).next.length = hAt st.arena i
  sorted : (L.map (keyAt st.arena)).Sorted (· ≤ ·)
  chains : ∀ lvl, lvl < headH st →
    IsChain st.arena lvl (nextAt st.arena st.headIdx lvl) (levelChain st.arena L lvl)
  count_eq : st.count = L.length

instance Wf.dec (st : SLR) (L : List Nat) : Decidable (Wf st L) :=
  decidable_of_iff (st.headIdx < st.arena.length ∧ 1 ≤ headH st ∧
      (nodeAt st.arena st.headIdx).next.length = headH st ∧
      (∀ i ∈ L, i < st.arena.length) ∧ (∀ i ∈ L, i ≠ st.headIdx) ∧ L.Nodup ∧
      (∀ i ∈ L, 1 ≤ hAt st.arena i) ∧ (∀ i ∈ L, hAt st.arena i ≤ headH st) ∧
      (∀ i ∈ L, (nodeAt st.arena i).next.length = hAt st.arena i) ∧
      (L.map (keyAt st.arena)).Sorted (· ≤ ·) ∧
      (∀ lvl, lvl < headH st →
        IsChain st.arena lvl (nextAt st.arena st.headIdx lvl) (levelChain st.arena L lvl)) ∧
      st.count = L.length)
    ⟨fun h => ⟨h.1, h.2.1, h.2.2.1, h.2.2.2.1, h.2.2.2.2.1, h.2.2.2.2.2.1, h.2.2.2.2.2.2.1,
        h.2.2.2.2.2.2.2.1, h.2.2.2.2.2.2.2.2.1, h.2.2.2.2.2.2.2.2.2.1,
        h.2.2.2.2.2.2.2.2.2.2.1, h.2.2.2.2.2.2.2.2.2.2.2⟩,
      fun h => ⟨h.head_lt, h.head_pos, h.head_len, h.mem_lt, h.ne_head, h.nodup, h.h_pos,
        h.h_le, h.next_len, h.sorted, h.chains, h.count_eq⟩⟩

/-- Entries (key, value) of the stored nodes, in level-0 order. -/
def entriesOf (a : List Node) (L : List Nat) : List (Int × Nat) :=
  L.map (fun i => (keyAt a i, valAt a i))

/-- Top-level-populated invariant: on a non-empty structure the head's top
level has at least one node.  It holds after any sequence of inserts
(head growth points the new top levels at the incoming node) and is what
makes skiplist_last find the last node. -/
def TopOk (st : SLR) (L : List Nat) : Prop :=
  (L = [] → headH st = 1) ∧ (L ≠ [] → levelChain st.arena L (headH st - 1) ≠ [])

/-- Spec formula of claim C7 taken literally: the number of consecutive set
low-order bits of the draw, counted from the least significant bit. -/
def specConsecutiveLowBits (r : Nat) : Nat :=
  if h : r % 2 = 1 then 1 + specConsecutiveLowBits (r / 2) else 0
decreasing_by
  exact Nat.div_lt_self (by omega) (by omega)

/-- First stored entry with the given key, in level-0 order. -/
def firstMatch (es : List (Int × Nat)) (key : Int) : Option (Int × Nat) :=
  es.find? (fun e => e.1 == key)

/-- Value that skiplist_get reports, described on the entries: the value of
the first stored node with the key, or 0 (NULL) when there is none or the
stored value itself is NULL. -/
def specGetVal (es : List (Int × Nat)) (key : Int) : Nat :=
  match firstMatch es key with
  | some e => e.2
  | none => 0

/-- Abstract effect of an insert on the entries: the new entry goes in front
of the first entry whose key is greater or EQUAL (see init_prevs: the
descent happens on res >= 0), so new duplicates precede existing ones. -/
def addE (key : Int) (value : Nat) (es : List (Int × Nat)) : List (Int × Nat) :=
  es.takeWhile (fun e => decide (e.1 < key)) ++ (key, value) :: es.dropWhile (fun e => decide (e.1 < key))

/-- Predecessor of the position for the key at one level: the last node of
the level-lvl chain restricted to A (the nodes before the position), the
head when that restriction is empty. -/
def prevSpec (a : List Node) (hd : Nat) (A : List Nat) (lvl : Nat) : Nat :=
  (levelChain a A lvl).getLastD hd

/-- Expected result of init_prevs: the per-level predecessors for levels 0
up to lvl. -/
def prevSpecList (a : List Node) (hd : Nat) (A : List Nat) (lvl : Nat) : List Nat :=
  (List.range (lvl + 1)).map (fun l => prevSpec a hd A l)

/-- Predecessor of the LAST node at one level (used by pop_last): the
second-to-last element of head :: chain. -/
def popPrevSpec (a : List Node) (hd : Nat) (L : List Nat) (lvl : Nat) : Nat :=
  ((hd :: levelChain a L lvl).dropLast).getLastD hd

/-- Expected result of the pop_last walk for levels 0 up to lvl. -/
def popPrevSpecList (a : List Node) (hd : Nat) (L : List Nat) (lvl : Nat) : List Nat :=
  (List.range (lvl + 1)).map (fun l => popPrevSpec a hd L l)

end Skiplist

namespace Skiplist

/-! Basic facts about arena reads and writes. -/

theorem nodeAt_append {a b : List Node} {i : Nat} (h : i < a.length) :
    nodeAt (a ++ b) i = nodeAt a i := by
  unfold nodeAt
  rw [List.getD_eq_getElem?_getD, List.getD_eq_getElem?_getD, List.getElem?_append]
  simp [h]

theorem keyAt_append {a b : List Node} {i : Nat} (h : i < a.length) :
    keyAt (a ++ b) i = keyAt a i := by unfold keyAt; rw [nodeAt_append h]

theorem valAt_append {a b : List Node} {i : Nat} (h : i < a.length) :
    valAt (a ++ b) i = valAt a i := by unfold valAt; rw [nodeAt_append h]

theorem hAt_append {a b : List Node} {i : Nat} (h : i < a.length) :
    hAt (a ++ b) i = hAt a i := by unfold hAt; rw [nodeAt_append h]

theorem nextAt_append {a b : List Node} {i lvl : Nat} (h : i < a.length) :
    nextAt (a ++ b) i lvl = nextAt a i lvl := by unfold nextAt; rw [nodeAt_append h]

theorem nodeAt_append_right {a b : List Node} {i : Nat} (h : i = a.length) (hb : 0 < b.length) :
    nodeAt (a ++ b) i = nodeAt b 0 := by
  unfold nodeAt
  rw [List.getD_eq_getElem?_getD, List.getD_eq_getElem?_getD, List.getElem?_append]
  simp [h]

theorem nodeAt_set_ne {a : List Node} {j i : Nat} {n : Node} (h : j ≠ i) :
    nodeAt (a.set j n) i = nodeAt a i := by
  unfold nodeAt
  rw [List.getD_eq_getElem?_getD, List.getD_eq_getElem?_getD, List.getElem?_set_ne h]

theorem nodeAt_set_self {a : List Node} {j : Nat} {n : Node} (h : j < a.length) :
    nodeAt (a.set j n) j = n := by
  unfold nodeAt
  rw [List.getD_eq_getElem?_getD, List.getElem?_set_self h]
  rfl

theorem nodeAt_updNext (a : List Node) (j lvl : Nat) (p : Ptr) (i : Nat) :
    nodeAt (updNext a j lvl p) i =
      if i = j ∧ j < a.length then
        { nodeAt a j with next := (nodeAt a j).next.set lvl p }
      else nodeAt a i := by
  unfold updNext
  by_cases hij : i = j
  · subst hij
    by_cases hj : i < a.length
    · rw [nodeAt_set_self hj, if_pos ⟨rfl, hj⟩]
    · rw [List.set_eq_of_length_le (by omega), if_neg (by omega)]
  · rw [nodeAt_set_ne (by omega), if_neg (by simp [hij])]

theorem length_updNext (a : List Node) (j lvl : Nat) (p : Ptr) :
    (updNext a j lvl p).length = a.length := by
  unfold updNext; simp

theorem hAt_updNext (a : List Node) (j lvl : Nat) (p : Ptr) (i : Nat) :
    hAt (updNext a j lvl p) i = hAt a i := by
  unfold hAt; rw [nodeAt_updNext]
  by_cases h : i = j ∧ j < a.length
  · obtain ⟨rfl, hj⟩ := h
    rw [if_pos ⟨rfl, hj⟩]
  · rw [if_neg h]

theorem keyAt_updNext (a : List Node) (j lvl : Nat) (p : Ptr) (i : Nat) :
    keyAt (updNext a j lvl p) i = keyAt a i := by
  unfold keyAt; rw [nodeAt_updNext]
  by_cases h : i = j ∧ j < a.length
  · obtain ⟨rfl, hj⟩ := h
    rw [if_pos ⟨rfl, hj⟩]
  · rw [if_neg h]

theorem valAt_updNext (a : List Node) (j lvl : Nat) (p : Ptr) (i : Nat) :
    valAt (updNext a j lvl p) i = valAt a i := by
  unfold valAt; rw [nodeAt_updNext]
  by_cases h : i = j ∧ j < a.length
  · obtain ⟨rfl, hj⟩ := h
    rw [if_pos ⟨rfl, hj⟩]
  · rw [if_neg h]

theorem nextLen_updNext (a : List Node) (j lvl : Nat) (p : Ptr) (i : Nat) :
    (nodeAt (updNext a j lvl p) i).next.length = (nodeAt a i).next.length := by
  rw [nodeAt_updNext]
  by_cases h : i = j ∧ j < a.length
  · obtain ⟨rfl, hj⟩ := h
    rw [if_pos ⟨rfl, hj⟩]
    simp
  · rw [if_neg h]

theorem nextAt_updNext_ne {a : List Node} {j lvl i l : Nat} {p : Ptr}
    (hne : i ≠ j ∨ l ≠ lvl) :
    nextAt (updNext a j lvl p) i l = nextAt a i l := by
  unfold nextAt; rw [nodeAt_updNext]
  by_cases h : i = j ∧ j < a.length
  · have hll : l ≠ lvl := by
      rcases hne with h1 | h1
      · exact absurd h.1 h1
      · exact h1
    rw [if_pos h]
    show ((nodeAt a j).next.set lvl p).getD l none = (nodeAt a i).next.getD l none
    rw [List.getD_eq_getElem?_getD, List.getD_eq_getElem?_getD,
      List.getElem?_set_ne (by omega), h.1]
  · rw [if_neg h]

theorem nextAt_updNext_self {a : List Node} {j lvl : Nat} {p : Ptr}
    (hj : j < a.length) (hlvl : lvl < (nodeAt a j).next.length) :
    nextAt (updNext a j lvl p) j lvl = p := by
  unfold nextAt; rw [nodeAt_updNext, if_pos ⟨rfl, hj⟩]
  show ((nodeAt a j).next.set lvl p).getD lvl none = p
  rw [List.getD_eq_getElem?_getD, List.getElem?_set_self (by simpa using hlvl)]
  rfl

/-! Facts about the three-way comparator. -/

theorem cmpI_lt_iff {x y : Int} : cmpI x y < 0 ↔ x < y := by
  unfold cmpI
  split
  · simp; omega
  · split <;> simp <;> omega

theorem cmpI_eq_iff {x y : Int} : cmpI x y = 0 ↔ x = y := by
  unfold cmpI
  split
  · simp; omega
  · split <;> simp <;> omega

/-! Facts about chains. -/

theorem Seg_append {a : List Node} {lvl : Nat} {u v : List Nat} {p q : Ptr} :
    Seg a lvl p (u ++ v) q ↔ ∃ m, Seg a lvl p u m ∧ Seg a lvl m v q := by
  induction u generalizing p with
  | nil =>
    constructor
    · intro h; exact ⟨p, rfl, h⟩
    · rintro ⟨m, rfl, h⟩; exact h
  | cons i rest ih =>
    constructor
    · rintro ⟨rfl, h⟩
      rcases ih.1 h with ⟨m, h1, h2⟩
      exact ⟨m, ⟨rfl, h1⟩, h2⟩
    · rintro ⟨m, ⟨rfl, h1⟩, h2⟩
      exact ⟨rfl, ih.2 ⟨m, h1, h2⟩⟩

theorem Seg_congr {a a2 : List Node} {lvl : Nat} {c : List Nat} {p q : Ptr}
    (hsame : ∀ i ∈ c, nextAt a2 i lvl = nextAt a i lvl) :
    Seg a lvl p c q → Seg a2 lvl p c q := by
  induction c generalizing p with
  | nil => exact id
  | cons i rest ih =>
    rintro ⟨rfl, hs⟩
    refine ⟨rfl, ?_⟩
    rw [hsame i (List.mem_cons_self i rest)]
    exact ih (fun j hj => hsame j (List.mem_cons_of_mem _ hj)) hs

theorem Seg_next_split {a : List Node} {lvl : Nat} {u ys : List Nat} {x : Nat} {p : Ptr}
    (hs : Seg a lvl p (u ++ x :: ys) none) :
    nextAt a x lvl = ys.head? := by
  rcases Seg_append.1 hs with ⟨m, _, hm, htail⟩
  cases ys with
  | nil => exact htail
  | cons y t => exact htail.1

/-! Generic list utilities. -/

theorem length_le_of_nodup_lt {L : List Nat} {n : Nat} (hnd : L.Nodup)
    (hlt : ∀ i ∈ L, i < n) : L.length ≤ n := by
  have h1 : L.toFinset.card = L.length := List.toFinset_card_of_nodup hnd
  have h2 : L.toFinset ⊆ Finset.range n := by
    intro i hi
    exact Finset.mem_range.2 (hlt i (List.mem_toFinset.1 hi))
  have := Finset.card_le_card h2
  rw [Finset.card_range] at this
  omega

theorem getLast?_cons_eq (hd : Nat) (l : List Nat) :
    (hd :: l).getLast? = some (l.getLastD hd) := by
  induction l generalizing hd with
  | nil => rfl
  | cons x t ih =>
    rw [List.getLast?_cons_cons, ih x, List.getLastD_cons]

theorem getLastD_mem {l : List Nat} {d : Nat} (h : l ≠ []) : l.getLastD d ∈ l := by
  induction l generalizing d with
  | nil => exact absurd rfl h
  | cons x t ih =>
    rw [List.getLastD_cons]
    cases t with
    | nil => simp [List.getLastD]
    | cons y u => exact List.mem_cons_of_mem x (ih (by simp))

theorem eq_getLastD_of_concat {hd cur : Nat} {l pre : List Nat}
    (h : hd :: l = pre ++ [cur]) : cur = l.getLastD hd := by
  have h1 : (hd :: l).getLast? = some cur := by rw [h]; exact List.getLast?_concat pre
  rw [getLast?_cons_eq] at h1
  exact (Option.some_inj.1 h1).symm

theorem mem_of_split_tail {hd r cur : Nat} {l pre rem2 : List Nat}
    (h : hd :: l = pre ++ cur :: r :: rem2) : r ∈ l := by
  cases pre with
  | nil =>
    rw [List.nil_append] at h
    obtain ⟨h1, h2⟩ := List.cons.inj h
    rw [h2]
    exact List.mem_cons_self _ _
  | cons p0 pre2 =>
    rw [List.cons_append] at h
    obtain ⟨h1, h2⟩ := List.cons.inj h
    rw [h2]
    refine List.mem_append.2 (Or.inr ?_)
    exact List.mem_cons_of_mem _ (List.mem_cons_self _ _)

theorem length_split_le {hd cur : Nat} {l pre rem : List Nat}
    (h : hd :: l = pre ++ cur :: rem) : rem.length ≤ l.length := by
  have := congrArg List.length h
  simp at this
  omega

/-! Facts about levelChain. -/

theorem levelChain_append (a : List Node) (A B : List Nat) (lvl : Nat) :
    levelChain a (A ++ B) lvl = levelChain a A lvl ++ levelChain a B lvl :=
  List.filter_append _ _

theorem mem_levelChain {a : List Node} {L : List Nat} {lvl i : Nat} :
    i ∈ levelChain a L lvl ↔ i ∈ L ∧ lvl < hAt a i := by
  unfold levelChain
  rw [List.mem_filter]
  simp

theorem levelChain_mono {a : List Node} {L : List Nat} {lvl l2 i : Nat}
    (h : i ∈ levelChain a L lvl) (hl : l2 ≤ lvl) : i ∈ levelChain a L l2 := by
  rw [mem_levelChain] at h ⊢
  exact ⟨h.1, by omega⟩

theorem levelChain_length_le (a : List Node) (L : List Nat) (lvl : Nat) :
    (levelChain a L lvl).length ≤ L.length :=
  List.length_filter_le _ L

theorem levelChain_zero {a : List Node} {L : List Nat}
    (hpos : ∀ i ∈ L, 1 ≤ hAt a i) : levelChain a L 0 = L := by
  unfold levelChain
  refine List.filter_eq_self.mpr ?_
  intro i hi
  simpa using hpos i hi

theorem levelChain_congr {a a2 : List Node} {L : List Nat} {lvl : Nat}
    (h : ∀ i ∈ L, hAt a2 i = hAt a i) :
    levelChain a2 L lvl = levelChain a L lvl := by
  unfold levelChain
  refine List.filter_congr ?_
  intro i hi
  rw [h i hi]

/-! Key bounds of the takeWhile/dropWhile split used by the traversals. -/

theorem takeWhile_key_lt {a : List Node} {L : List Nat} {k : Int} {i : Nat}
    (h : i ∈ L.takeWhile (fun i => decide (keyAt a i < k))) : keyAt a i < k := by
  simpa using List.mem_takeWhile_imp h

theorem dropWhile_key_ge {a : List Node} {L : List Nat} {k : Int}
    (hs : (L.map (keyAt a)).Sorted (· ≤ ·)) :
    ∀ i ∈ L.dropWhile (fun i => decide (keyAt a i < k)), k ≤ keyAt a i := by
  induction L with
  | nil => simp
  | cons x xs ih =>
    rw [List.map_cons, List.sorted_cons] at hs
    by_cases hx : keyAt a x < k
    · rw [List.dropWhile_cons_of_pos (by simpa using hx)]
      exact ih hs.2
    · rw [List.dropWhile_cons_of_neg (by simpa using hx)]
      intro i hi
      rcases List.mem_cons.1 hi with rfl | hi
      · omega
      · have hxi : keyAt a x ≤ keyAt a i := hs.1 _ (List.mem_map_of_mem (keyAt a) hi)
        omega

/-! Correctness of the init_prevs traversal. -/

theorem Seg_nil {a : List Node} {lvl : Nat} {p q : Ptr} : Seg a lvl p [] q ↔ p = q := Iff.rfl

theorem Seg_cons {a : List Node} {lvl : Nat} {i : Nat} {c : List Nat} {p q : Ptr} :
    Seg a lvl p (i :: c) q ↔ p = some i ∧ Seg a lvl (nextAt a i lvl) c q := Iff.rfl

/-- One level of the init_prevs walk: from any point cur of the search path
(head followed by the level-lvl nodes with keys below the key), the walk
advances to the last such node, records it, and descends. -/
theorem init_prevs_go_level (a : List Node) (k : Int) (hd : Nat) (A B : List Nat) (lvl : Nat)
    (hAkey : ∀ i ∈ A, keyAt a i < k)
    (hBkey : ∀ i ∈ B, k ≤ keyAt a i)
    (hchain : Seg a lvl (some hd) (hd :: (levelChain a A lvl ++ levelChain a B lvl)) none) :
    ∀ rem pre cur fuel acc,
      hd :: levelChain a A lvl = pre ++ cur :: rem →
      rem.length + 1 ≤ fuel →
      init_prevs_go a k fuel cur lvl acc =
        if lvl = 0 then some (prevSpec a hd A lvl :: acc)
        else init_prevs_go a k (fuel - 1 - rem.length) (prevSpec a hd A lvl) (lvl - 1)
          (prevSpec a hd A lvl :: acc) := by
  intro rem
  induction rem with
  | nil =>
    intro pre cur fuel acc hsplit hfuel
    obtain ⟨f, rfl⟩ : ∃ f, fuel = f + 1 := ⟨fuel - 1, by omega⟩
    have hcur : cur = prevSpec a hd A lvl := by
      unfold prevSpec
      exact eq_getLastD_of_concat hsplit
    have hfull : hd :: (levelChain a A lvl ++ levelChain a B lvl)
        = pre ++ cur :: levelChain a B lvl := by
      have h0 : hd :: (levelChain a A lvl ++ levelChain a B lvl)
          = (hd :: levelChain a A lvl) ++ levelChain a B lvl := rfl
      rw [h0, hsplit]
      simp
    have hchain2 : Seg a lvl (some hd) (pre ++ cur :: levelChain a B lvl) none := by
      rw [← hfull]; exact hchain
    have hnext : nextAt a cur lvl = (levelChain a B lvl).head? := Seg_next_split hchain2
    cases hB : levelChain a B lvl with
    | nil =>
      have hnone : nextAt a cur lvl = none := by rw [hnext, hB]; rfl
      rw [hcur] at hnone
      rw [hcur]
      simp only [init_prevs_go, hnone]
      have harith : f + 1 - 1 - List.length ([] : List Nat) = f := by simp
      rw [harith]
    | cons j t =>
      have hsome : nextAt a cur lvl = some j := by rw [hnext, hB]; rfl
      have hjB : j ∈ B := by
        have hj0 : j ∈ levelChain a B lvl := by rw [hB]; exact List.mem_cons_self _ _
        exact (mem_levelChain.1 hj0).1
      have hge : ¬ cmpI (keyAt a j) k < 0 := by
        rw [cmpI_lt_iff]
        have := hBkey j hjB
        omega
      rw [hcur] at hsome
      rw [hcur]
      simp only [init_prevs_go, hsome]
      rw [if_neg hge]
      have harith : f + 1 - 1 - List.length ([] : List Nat) = f := by simp
      rw [harith]
  | cons r rem2 ih =>
    intro pre cur fuel acc hsplit hfuel
    obtain ⟨f, rfl⟩ : ∃ f, fuel = f + 1 := ⟨fuel - 1, by omega⟩
    have hfull : hd :: (levelChain a A lvl ++ levelChain a B lvl)
        = pre ++ cur :: ((r :: rem2) ++ levelChain a B lvl) := by
      have h0 : hd :: (levelChain a A lvl ++ levelChain a B lvl)
          = (hd :: levelChain a A lvl) ++ levelChain a B lvl := rfl
      rw [h0, hsplit]
      simp
    have hchain2 : Seg a lvl (some hd) (pre ++ cur :: ((r :: rem2) ++ levelChain a B lvl)) none := by
      rw [← hfull]; exact hchain
    have hnext0 := Seg_next_split hchain2
    have hnext : nextAt a cur lvl = some r := by rw [hnext0]; rfl
    have hrA : r ∈ levelChain a A lvl := mem_of_split_tail hsplit
    have hrkey : keyAt a r < k := hAkey r (mem_levelChain.1 hrA).1
    have hlt : cmpI (keyAt a r) k < 0 := cmpI_lt_iff.2 hrkey
    simp only [init_prevs_go, hnext]
    rw [if_pos hlt]
    have hsplit2 : hd :: levelChain a A lvl = (pre ++ [cur]) ++ r :: rem2 := by
      rw [hsplit]
      simp
    rw [ih (pre ++ [cur]) r f acc hsplit2 (by simp at hfuel ⊢; omega)]
    have harith : f + 1 - 1 - (r :: rem2).length = f - 1 - rem2.length := by
      simp
      omega
    rw [harith]

/-- The full descending init_prevs walk from any level: it returns the
per-level predecessors for that level and all the levels below it. -/
theorem init_prevs_go_tower (a : List Node) (k : Int) (hd : Nat) (A B : List Nat) (H : Nat)
    (hAkey : ∀ i ∈ A, keyAt a i < k)
    (hBkey : ∀ i ∈ B, k ≤ keyAt a i)
    (hchains : ∀ lvl, lvl < H →
      Seg a lvl (some hd) (hd :: (levelChain a A lvl ++ levelChain a B lvl)) none) :
    ∀ lvl, lvl < H →
    ∀ pre cur rem fuel acc,
      hd :: levelChain a A lvl = pre ++ cur :: rem →
      (lvl + 1) * (A.length + 2) ≤ fuel →
      init_prevs_go a k fuel cur lvl acc = some (prevSpecList a hd A lvl ++ acc) := by
  intro lvl
  induction lvl with
  | zero =>
    intro hH pre cur rem fuel acc hsplit hfuel
    have hrem : rem.length ≤ A.length :=
      le_trans (length_split_le hsplit) (levelChain_length_le a A 0)
    rw [init_prevs_go_level a k hd A B 0 hAkey hBkey (hchains 0 hH) rem pre cur fuel acc hsplit
      (by omega)]
    rw [if_pos rfl]
    unfold prevSpecList
    simp [List.range_succ]
  | succ l ihl =>
    intro hH pre cur rem fuel acc hsplit hfuel
    have hrem : rem.length ≤ A.length :=
      le_trans (length_split_le hsplit) (levelChain_length_le a A (l + 1))
    have hmul : (l + 1 + 1) * (A.length + 2) = (l + 1) * (A.length + 2) + (A.length + 2) := by
      ring
    rw [init_prevs_go_level a k hd A B (l + 1) hAkey hBkey (hchains (l + 1) hH) rem pre cur fuel
      acc hsplit (by omega)]
    rw [if_neg (by omega)]
    simp only [Nat.add_sub_cancel]
    have hmem : prevSpec a hd A (l + 1) ∈ hd :: levelChain a A l := by
      by_cases hCA : levelChain a A (l + 1) = []
      · unfold prevSpec
        rw [hCA]
        exact List.mem_cons_self _ _
      · have hmem0 : prevSpec a hd A (l + 1) ∈ levelChain a A (l + 1) := getLastD_mem hCA
        exact List.mem_cons_of_mem _ (levelChain_mono hmem0 (Nat.le_succ l))
    obtain ⟨s, t, hst⟩ := List.append_of_mem hmem
    rw [ihl (by omega) s _ t _ _ hst (by omega)]
    have hlist : prevSpecList a hd A (l + 1) ++ acc
        = prevSpecList a hd A l ++ (prevSpec a hd A (l + 1) :: acc) := by
      unfold prevSpecList
      rw [List.range_succ, List.map_append]
      simp
    rw [hlist]

/-- Correctness of init_prevs: on a well-formed skiplist it returns, for
every level of the head, the last node whose key is less than the key
(the head when there is none). -/
theorem init_prevs_spec {st : SLR} {L : List Nat} (hWf : Wf st L) (k : Int) :
    init_prevs st k =
      some (prevSpecList st.arena st.headIdx
        (L.takeWhile (fun i => decide (keyAt st.arena i < k))) (headH st - 1)) := by
  have hAB : L = L.takeWhile (fun i => decide (keyAt st.arena i < k)) ++
      L.dropWhile (fun i => decide (keyAt st.arena i < k)) :=
    (List.takeWhile_append_dropWhile _ _).symm
  have hAkey : ∀ i ∈ L.takeWhile (fun i => decide (keyAt st.arena i < k)),
      keyAt st.arena i < k := fun i hi => takeWhile_key_lt hi
  have hBkey : ∀ i ∈ L.dropWhile (fun i => decide (keyAt st.arena i < k)),
      k ≤ keyAt st.arena i := dropWhile_key_ge hWf.sorted
  have hchains : ∀ lvl, lvl < headH st →
      Seg st.arena lvl (some st.headIdx)
        (st.headIdx :: (levelChain st.arena (L.takeWhile (fun i => decide (keyAt st.arena i < k))) lvl ++
          levelChain st.arena (L.dropWhile (fun i => decide (keyAt st.arena i < k))) lvl)) none := by
    intro lvl hlvl
    have hc := hWf.chains lvl hlvl
    rw [Seg_cons]
    refine ⟨rfl, ?_⟩
    rw [← levelChain_append, ← hAB]
    exact hc
  have hlenA : (L.takeWhile (fun i => decide (keyAt st.arena i < k))).length ≤
      st.arena.length := by
    have h1 : (L.takeWhile (fun i => decide (keyAt st.arena i < k))).length ≤ L.length :=
      (List.takeWhile_sublist _).length_le
    have h2 := length_le_of_nodup_lt hWf.nodup hWf.mem_lt
    omega
  have hfuel : (headH st - 1 + 1) *
      ((L.takeWhile (fun i => decide (keyAt st.arena i < k))).length + 2) ≤ opFuel st := by
    have h1 : headH st - 1 + 1 = headH st := by have := hWf.head_pos; omega
    rw [h1]
    unfold opFuel
    calc headH st * ((L.takeWhile (fun i => decide (keyAt st.arena i < k))).length + 2)
        ≤ (headH st + 2) * (st.arena.length + 2) := Nat.mul_le_mul (by omega) (by omega)
      _ = (st.arena.length + 2) * (headH st + 2) := Nat.mul_comm _ _
  have := init_prevs_go_tower st.arena k st.headIdx
    (L.takeWhile (fun i => decide (keyAt st.arena i < k)))
    (L.dropWhile (fun i => decide (keyAt st.arena i < k)))
    (headH st) hAkey hBkey hchains (headH st - 1) (by have := hWf.head_pos; omega)
    [] st.headIdx _ (opFuel st) [] rfl hfuel
  unfold init_prevs
  rw [this]
  simp

end Skiplist

namespace Skiplist

/-! Correctness of the level-0 walk (iteration). -/

theorem walk_and_apply_spec (a : List Node) :
    ∀ (c : List Nat) (p : Ptr) (fuel : Nat), IsChain a 0 p c → c.length + 1 ≤ fuel →
      walk_and_apply a fuel p = some (c.map (fun i => (keyAt a i, valAt a i))) := by
  intro c
  induction c with
  | nil =>
    intro p fuel hc hf
    have hp : p = none := hc
    rw [hp]
    simp [walk_and_apply]
  | cons j c ih =>
    intro p fuel hc hf
    obtain ⟨hp, hrest⟩ := hc
    obtain ⟨f, rfl⟩ : ∃ f, fuel = f + 1 := ⟨fuel - 1, by omega⟩
    rw [hp]
    simp only [walk_and_apply]
    rw [ih (nextAt a j 0) f hrest (by simp at hf ⊢; omega)]
    rfl

theorem length_le_opFuel {st : SLR} {L : List Nat} (hWf : Wf st L) :
    L.length + 1 ≤ opFuel st := by
  have h1 := length_le_of_nodup_lt hWf.nodup hWf.mem_lt
  have h2 : st.arena.length + 2 ≤ (st.arena.length + 2) * (headH st + 2) :=
    Nat.le_mul_of_pos_right _ (by omega)
  unfold opFuel
  omega

/-- skiplist_iter visits exactly the stored entries, in level-0 order. -/
theorem skiplist_iter_spec {st : SLR} {L : List Nat} (hWf : Wf st L) :
    skiplist_iter_list st = some (entriesOf st.arena L) := by
  unfold skiplist_iter_list
  have hc := hWf.chains 0 hWf.head_pos
  rw [levelChain_zero hWf.h_pos] at hc
  exact walk_and_apply_spec st.arena L _ _ hc (length_le_opFuel hWf)

end Skiplist

namespace Skiplist

/-! Correctness of the get_first_eq_node traversal. -/

/-- One level of the get_first_eq_node walk: identical descent to
init_prevs, except that level 0 resolves the lookup against the level-0
successor (the first node whose key is not below the search key). -/
theorem get_first_go_level (a : List Node) (k : Int) (hd : Nat) (A B : List Nat) (lvl : Nat)
    (hAkey : ∀ i ∈ A, keyAt a i < k)
    (hBkey : ∀ i ∈ B, k ≤ keyAt a i)
    (hchain : Seg a lvl (some hd) (hd :: (levelChain a A lvl ++ levelChain a B lvl)) none) :
    ∀ rem pre cur fuel,
      hd :: levelChain a A lvl = pre ++ cur :: rem →
      rem.length + 1 ≤ fuel →
      get_first_go a k fuel cur lvl =
        if lvl = 0 then
          (match (levelChain a B lvl).head? with
           | some j => if cmpI (keyAt a j) k = 0 then some (some j) else some none
           | none => some none)
        else get_first_go a k (fuel - 1 - rem.length) (prevSpec a hd A lvl) (lvl - 1) := by
  intro rem
  induction rem with
  | nil =>
    intro pre cur fuel hsplit hfuel
    obtain ⟨f, rfl⟩ : ∃ f, fuel = f + 1 := ⟨fuel - 1, by omega⟩
    have hcur : cur = prevSpec a hd A lvl := by
      unfold prevSpec
      exact eq_getLastD_of_concat hsplit
    have hfull : hd :: (levelChain a A lvl ++ levelChain a B lvl)
        = pre ++ cur :: levelChain a B lvl := by
      have h0 : hd :: (levelChain a A lvl ++ levelChain a B lvl)
          = (hd :: levelChain a A lvl) ++ levelChain a B lvl := rfl
      rw [h0, hsplit]
      simp
    have hchain2 : Seg a lvl (some hd) (pre ++ cur :: levelChain a B lvl) none := by
      rw [← hfull]; exact hchain
    have hnext : nextAt a cur lvl = (levelChain a B lvl).head? := Seg_next_split hchain2
    cases hB : levelChain a B lvl with
    | nil =>
      have hnone : nextAt a cur lvl = none := by rw [hnext, hB]; rfl
      rw [hcur] at hnone
      rw [hcur]
      simp only [get_first_go, hnone]
      have harith : f + 1 - 1 - List.length ([] : List Nat) = f := by simp
      rw [harith]
      split <;> rfl
    | cons j t =>
      have hsome : nextAt a cur lvl = some j := by rw [hnext, hB]; rfl
      have hjB : j ∈ B := by
        have hj0 : j ∈ levelChain a B lvl := by rw [hB]; exact List.mem_cons_self _ _
        exact (mem_levelChain.1 hj0).1
      have hge : ¬ cmpI (keyAt a j) k < 0 := by
        rw [cmpI_lt_iff]
        have := hBkey j hjB
        omega
      rw [hcur] at hsome
      rw [hcur]
      simp only [get_first_go, hsome]
      rw [if_neg hge]
      have harith : f + 1 - 1 - List.length ([] : List Nat) = f := by simp
      rw [harith]
      split <;> rfl
  | cons r rem2 ih =>
    intro pre cur fuel hsplit hfuel
    obtain ⟨f, rfl⟩ : ∃ f, fuel = f + 1 := ⟨fuel - 1, by omega⟩
    have hfull : hd :: (levelChain a A lvl ++ levelChain a B lvl)
        = pre ++ cur :: ((r :: rem2) ++ levelChain a B lvl) := by
      have h0 : hd :: (levelChain a A lvl ++ levelChain a B lvl)
          = (hd :: levelChain a A lvl) ++ levelChain a B lvl := rfl
      rw [h0, hsplit]
      simp
    have hchain2 : Seg a lvl (some hd) (pre ++ cur :: ((r :: rem2) ++ levelChain a B lvl)) none := by
      rw [← hfull]; exact hchain
    have hnext0 := Seg_next_split hchain2
    have hnext : nextAt a cur lvl = some r := by rw [hnext0]; rfl
    have hrA : r ∈ levelChain a A lvl := mem_of_split_tail hsplit
    have hrkey : keyAt a r < k := hAkey r (mem_levelChain.1 hrA).1
    have hlt : cmpI (keyAt a r) k < 0 := cmpI_lt_iff.2 hrkey
    simp only [get_first_go, hnext]
    rw [if_pos hlt]
    have hsplit2 : hd :: levelChain a A lvl = (pre ++ [cur]) ++ r :: rem2 := by
      rw [hsplit]
      simp
    rw [ih (pre ++ [cur]) r f hsplit2 (by simp at hfuel ⊢; omega)]
    have harith : f + 1 - 1 - (r :: rem2).length = f - 1 - rem2.length := by
      simp
      omega
    rw [harith]

/-- The full descending get_first_eq_node walk. -/
theorem get_first_go_tower (a : List Node) (k : Int) (hd : Nat) (A B : List Nat) (H : Nat)
    (hAkey : ∀ i ∈ A, keyAt a i < k)
    (hBkey : ∀ i ∈ B, k ≤ keyAt a i)
    (hchains : ∀ lvl, lvl < H →
      Seg a lvl (some hd) (hd :: (levelChain a A lvl ++ levelChain a B lvl)) none) :
    ∀ lvl, lvl < H →
    ∀ pre cur rem fuel,
      hd :: levelChain a A lvl = pre ++ cur :: rem →
      (lvl + 1) * (A.length + 2) ≤ fuel →
      get_first_go a k fuel cur lvl =
        (match (levelChain a B 0).head? with
         | some j => if cmpI (keyAt a j) k = 0 then some (some j) else some none
         | none => some none) := by
  intro lvl
  induction lvl with
  | zero =>
    intro hH pre cur rem fuel hsplit hfuel
    have hrem : rem.length ≤ A.length :=
      le_trans (length_split_le hsplit) (levelChain_length_le a A 0)
    rw [get_first_go_level a k hd A B 0 hAkey hBkey (hchains 0 hH) rem pre cur fuel hsplit
      (by omega)]
    rw [if_pos rfl]
  | succ l ihl =>
    intro hH pre cur rem fuel hsplit hfuel
    have hrem : rem.length ≤ A.length :=
      le_trans (length_split_le hsplit) (levelChain_length_le a A (l + 1))
    have hmul : (l + 1 + 1) * (A.length + 2) = (l + 1) * (A.length + 2) + (A.length + 2) := by
      ring
    rw [get_first_go_level a k hd A B (l + 1) hAkey hBkey (hchains (l + 1) hH) rem pre cur fuel
      hsplit (by omega)]
    rw [if_neg (by omega)]
    simp only [Nat.add_sub_cancel]
    have hmem : prevSpec a hd A (l + 1) ∈ hd :: levelChain a A l := by
      by_cases hCA : levelChain a A (l + 1) = []
      · unfold prevSpec
        rw [hCA]
        exact List.mem_cons_self _ _
      · have hmem0 : prevSpec a hd A (l + 1) ∈ levelChain a A (l + 1) := getLastD_mem hCA
        exact List.mem_cons_of_mem _ (levelChain_mono hmem0 (Nat.le_succ l))
    obtain ⟨s, t, hst⟩ := List.append_of_mem hmem
    exact ihl (by omega) s _ t _ hst (by omega)

/-- Correctness of get_first_eq_node: the result is the head of the run of
nodes whose key is not below the search key, if its key matches. -/
theorem get_first_eq_node_spec {st : SLR} {L : List Nat} (hWf : Wf st L) (k : Int) :
    get_first_eq_node st k = some
      (match (L.dropWhile (fun i => decide (keyAt st.arena i < k))).head? with
       | some j => if cmpI (keyAt st.arena j) k = 0 then some j else none
       | none => none) := by
  have hAB : L = L.takeWhile (fun i => decide (keyAt st.arena i < k)) ++
      L.dropWhile (fun i => decide (keyAt st.arena i < k)) :=
    (List.takeWhile_append_dropWhile _ _).symm
  have hAkey : ∀ i ∈ L.takeWhile (fun i => decide (keyAt st.arena i < k)),
      keyAt st.arena i < k := fun i hi => takeWhile_key_lt hi
  have hBkey : ∀ i ∈ L.dropWhile (fun i => decide (keyAt st.arena i < k)),
      k ≤ keyAt st.arena i := dropWhile_key_ge hWf.sorted
  have hchains : ∀ lvl, lvl < headH st →
      Seg st.arena lvl (some st.headIdx)
        (st.headIdx :: (levelChain st.arena (L.takeWhile (fun i => decide (keyAt st.arena i < k))) lvl ++
          levelChain st.arena (L.dropWhile (fun i => decide (keyAt st.arena i < k))) lvl)) none := by
    intro lvl hlvl
    have hc := hWf.chains lvl hlvl
    rw [Seg_cons]
    refine ⟨rfl, ?_⟩
    rw [← levelChain_append, ← hAB]
    exact hc
  have hlenA : (L.takeWhile (fun i => decide (keyAt st.arena i < k))).length ≤
      st.arena.length := by
    have h1 : (L.takeWhile (fun i => decide (keyAt st.arena i < k))).length ≤ L.length :=
      (List.takeWhile_sublist _).length_le
    have h2 := length_le_of_nodup_lt hWf.nodup hWf.mem_lt
    omega
  have hfuel : (headH st - 1 + 1) *
      ((L.takeWhile (fun i => decide (keyAt st.arena i < k))).length + 2) ≤ opFuel st := by
    have h1 : headH st - 1 + 1 = headH st := by have := hWf.head_pos; omega
    rw [h1]
    unfold opFuel
    calc headH st * ((L.takeWhile (fun i => decide (keyAt st.arena i < k))).length + 2)
        ≤ (headH st + 2) * (st.arena.length + 2) := Nat.mul_le_mul (by omega) (by omega)
      _ = (st.arena.length + 2) * (headH st + 2) := Nat.mul_comm _ _
  have hB0 : levelChain st.arena (L.dropWhile (fun i => decide (keyAt st.arena i < k))) 0 =
      L.dropWhile (fun i => decide (keyAt st.arena i < k)) := by
    refine levelChain_zero ?_
    intro i hi
    have : i ∈ L := by rw [hAB]; exact List.mem_append.2 (Or.inr hi)
    exact hWf.h_pos i this
  have := get_first_go_tower st.arena k st.headIdx
    (L.takeWhile (fun i => decide (keyAt st.arena i < k)))
    (L.dropWhile (fun i => decide (keyAt st.arena i < k)))
    (headH st) hAkey hBkey hchains (headH st - 1) (by have := hWf.head_pos; omega)
    [] st.headIdx _ (opFuel st) rfl hfuel
  unfold get_first_eq_node
  rw [this, hB0]
  cases hd2 : (List.dropWhile (fun i => decide (keyAt st.arena i < k)) L).head? with
  | none => rfl
  | some j =>
    by_cases hc : cmpI (keyAt st.arena j) k = 0
    · simp only [if_pos hc]
    · simp only [if_neg hc]

end Skiplist

namespace Skiplist

/-! skiplist_get and skiplist_member on well-formed states. -/

theorem firstMatch_eq_head_dropWhile {a : List Node} {L : List Nat} {k : Int}
    (hs : (L.map (keyAt a)).Sorted (· ≤ ·)) :
    firstMatch (entriesOf a L) k =
      match (L.dropWhile (fun i => decide (keyAt a i < k))).head? with
      | some j => if cmpI (keyAt a j) k = 0 then some (keyAt a j, valAt a j) else none
      | none => none := by
  induction L with
  | nil => rfl
  | cons x xs ih =>
    rw [List.map_cons, List.sorted_cons] at hs
    by_cases hx : keyAt a x < k
    · rw [List.dropWhile_cons_of_pos (by simpa using hx)]
      have hfalse : ((keyAt a x, valAt a x).1 == k) = false := by
        simp
        omega
      unfold firstMatch entriesOf
      rw [List.map_cons]
      simp only [List.find?_cons, hfalse]
      exact ih hs.2
    · rw [List.dropWhile_cons_of_neg (by simpa using hx)]
      simp only [List.head?_cons]
      by_cases heq : keyAt a x = k
      · have htrue : ((keyAt a x, valAt a x).1 == k) = true := by simpa using heq
        unfold firstMatch entriesOf
        rw [List.map_cons]
        simp only [List.find?_cons, htrue]
        rw [if_pos (cmpI_eq_iff.2 heq)]
      · have hgt : k < keyAt a x := by omega
        have hnone : firstMatch (entriesOf a (x :: xs)) k = none := by
          unfold firstMatch
          rw [List.find?_eq_none]
          intro e he
          unfold entriesOf at he
          rw [List.map_cons] at he
          rcases List.mem_cons.1 he with rfl | he
          · simp
            omega
          · obtain ⟨i, hi, rfl⟩ := List.mem_map.1 he
            have hxi : keyAt a x ≤ keyAt a i := hs.1 _ (List.mem_map_of_mem (keyAt a) hi)
            simp
            omega
        rw [hnone, if_neg (by rw [cmpI_eq_iff]; omega)]

theorem skiplist_get_spec {st : SLR} {L : List Nat} (hWf : Wf st L) (k : Int) :
    skiplist_get st k = some (specGetVal (entriesOf st.arena L) k) := by
  unfold skiplist_get
  rw [get_first_eq_node_spec hWf k]
  unfold specGetVal
  rw [firstMatch_eq_head_dropWhile hWf.sorted]
  cases hd2 : (List.dropWhile (fun i => decide (keyAt st.arena i < k)) L).head? with
  | none => rfl
  | some j =>
    by_cases hc : cmpI (keyAt st.arena j) k = 0
    · simp only [if_pos hc]
      rfl
    · simp only [if_neg hc]
      rfl

theorem skiplist_member_spec {st : SLR} {L : List Nat} (hWf : Wf st L) (k : Int) :
    skiplist_member st k = some (decide (specGetVal (entriesOf st.arena L) k ≠ 0)) := by
  unfold skiplist_member
  rw [skiplist_get_spec hWf k]
  rfl

end Skiplist

namespace Skiplist

/-! Pointwise effect of the splice loop of add_or_set. -/

theorem splice_succ (b : List Node) (prevs : List Nat) (nnIdx m : Nat) :
    splice b prevs nnIdx (m + 1) =
      updNext (updNext (splice b prevs nnIdx m) nnIdx m
        (nextAt (splice b prevs nnIdx m) (prevs.getD m 0) m)) (prevs.getD m 0) m (some nnIdx) := by
  unfold splice
  rw [List.range_succ, List.foldl_append]
  rfl

theorem splice_facts (b : List Node) (prevs : List Nat) (nnIdx : Nat) (m : Nat)
    (hnn : nnIdx < b.length)
    (hpl_lt : ∀ i, i < m → prevs.getD i 0 < b.length)
    (hpl_ne : ∀ i, i < m → prevs.getD i 0 ≠ nnIdx)
    (hnn_len : m ≤ (nodeAt b nnIdx).next.length)
    (hpl_len : ∀ i, i < m → i < (nodeAt b (prevs.getD i 0)).next.length) :
    (splice b prevs nnIdx m).length = b.length ∧
    (∀ x, hAt (splice b prevs nnIdx m) x = hAt b x ∧
      keyAt (splice b prevs nnIdx m) x = keyAt b x ∧
      valAt (splice b prevs nnIdx m) x = valAt b x ∧
      (nodeAt (splice b prevs nnIdx m) x).next.length = (nodeAt b x).next.length) ∧
    (∀ l x, m ≤ l → nextAt (splice b prevs nnIdx m) x l = nextAt b x l) ∧
    (∀ l x, l < m → x ≠ nnIdx → x ≠ prevs.getD l 0 →
      nextAt (splice b prevs nnIdx m) x l = nextAt b x l) ∧
    (∀ l, l < m → nextAt (splice b prevs nnIdx m) nnIdx l = nextAt b (prevs.getD l 0) l) ∧
    (∀ l, l < m → nextAt (splice b prevs nnIdx m) (prevs.getD l 0) l = some nnIdx) := by
  induction m with
  | zero =>
    refine ⟨rfl, fun x => ⟨rfl, rfl, rfl, rfl⟩, fun l x _ => rfl, ?_, ?_, ?_⟩
    · intro l x h; omega
    · intro l h; omega
    · intro l h; omega
  | succ m ih =>
    obtain ⟨ihlen, ihfld, ihhi, ihoth, ihnn, ihpl⟩ :=
      ih (fun i hi => hpl_lt i (by omega)) (fun i hi => hpl_ne i (by omega)) (by omega)
        (fun i hi => hpl_len i (by omega))
    have hread : nextAt (splice b prevs nnIdx m) (prevs.getD m 0) m
        = nextAt b (prevs.getD m 0) m := ihhi m _ (le_refl m)
    rw [splice_succ]
    rw [hread]
    constructor
    · rw [length_updNext, length_updNext, ihlen]
    constructor
    · intro x
      rw [hAt_updNext, hAt_updNext, keyAt_updNext, keyAt_updNext, valAt_updNext, valAt_updNext,
        nextLen_updNext, nextLen_updNext]
      exact ihfld x
    constructor
    · intro l x hl
      rw [nextAt_updNext_ne (Or.inr (by omega)), nextAt_updNext_ne (Or.inr (by omega))]
      exact ihhi l x (by omega)
    constructor
    · intro l x hl hxnn hxpl
      by_cases hlm : l = m
      · subst hlm
        rw [nextAt_updNext_ne (Or.inl hxpl), nextAt_updNext_ne (Or.inl hxnn)]
        exact ihhi l x (le_refl l)
      · rw [nextAt_updNext_ne (Or.inr (by omega)), nextAt_updNext_ne (Or.inr (by omega))]
        exact ihoth l x (by omega) hxnn hxpl
    constructor
    · intro l hl
      by_cases hlm : l = m
      · subst hlm
        rw [nextAt_updNext_ne (Or.inl (fun h => (hpl_ne l (by omega)) h.symm))]
        rw [nextAt_updNext_self (by rw [ihlen]; exact hnn)
          (by rw [(ihfld nnIdx).2.2.2]; omega)]
      · rw [nextAt_updNext_ne (Or.inr (by omega)), nextAt_updNext_ne (Or.inr (by omega))]
        exact ihnn l (by omega)
    · intro l hl
      by_cases hlm : l = m
      · subst hlm
        rw [nextAt_updNext_self
          (by rw [length_updNext, ihlen]; exact hpl_lt l (by omega))
          (by rw [nextLen_updNext, (ihfld (prevs.getD l 0)).2.2.2]; exact hpl_len l (by omega))]
      · rw [nextAt_updNext_ne (Or.inr (by omega)), nextAt_updNext_ne (Or.inr (by omega))]
        exact ihpl l (by omega)

end Skiplist

namespace Skiplist

/-! Assembling a spliced chain. -/

theorem getLastD_concat (l : List Nat) (x d : Nat) : (l ++ [x]).getLastD d = x := by
  rw [List.getLastD_eq_getLast?, List.getLast?_concat]
  rfl

/-- Inserting nnIdx after the last node of chA (the head hd2 when chA is
empty): if the only changed level-lvl pointers are the insertion writes,
the chain gains exactly the new node between chA and chB. -/
theorem Seg_insert_middle (aPre a3 : List Node) (lvl : Nat) (hd2 nnIdx : Nat)
    (chA chB : List Nat)
    (hnodup : (hd2 :: (chA ++ chB)).Nodup)
    (hnn : nnIdx ∉ hd2 :: (chA ++ chB))
    (hSeg : Seg aPre lvl (nextAt aPre hd2 lvl) (chA ++ chB) none)
    (hw_pl : nextAt a3 (chA.getLastD hd2) lvl = some nnIdx)
    (hw_nn : nextAt a3 nnIdx lvl = nextAt aPre (chA.getLastD hd2) lvl)
    (hunch : ∀ x, x ≠ chA.getLastD hd2 → x ≠ nnIdx → nextAt a3 x lvl = nextAt aPre x lvl) :
    Seg a3 lvl (nextAt a3 hd2 lvl) (chA ++ nnIdx :: chB) none := by
  have hhd_nAB : hd2 ∉ chA ++ chB := (List.nodup_cons.1 hnodup).1
  have hABnd : (chA ++ chB).Nodup := (List.nodup_cons.1 hnodup).2
  have hdisj : ∀ y ∈ chA, y ∉ chB := by
    intro y hy hyB
    exact (List.disjoint_of_nodup_append hABnd) hy hyB
  have hnn_hd : nnIdx ≠ hd2 := by
    intro he
    exact hnn (he ▸ List.mem_cons_self _ _)
  have hnn_A : ∀ y ∈ chA, nnIdx ≠ y := by
    intro y hy he
    exact hnn (List.mem_cons_of_mem _ (List.mem_append.2 (Or.inl (he ▸ hy))))
  have hnn_B : ∀ y ∈ chB, nnIdx ≠ y := by
    intro y hy he
    exact hnn (List.mem_cons_of_mem _ (List.mem_append.2 (Or.inr (he ▸ hy))))
  rcases List.eq_nil_or_concat chA with hA | ⟨u, x, hA⟩
  · subst hA
    rw [List.nil_append] at hSeg hhd_nAB ⊢
    have hpl : (([] : List Nat)).getLastD hd2 = hd2 := rfl
    rw [hpl] at hw_pl hw_nn hunch
    rw [hw_pl]
    refine ⟨rfl, ?_⟩
    rw [hw_nn]
    refine Seg_congr ?_ hSeg
    intro i hi
    refine hunch i ?_ ?_
    · exact fun he => hhd_nAB (he ▸ hi)
    · exact fun he => (hnn_B i hi) he.symm
  · subst hA
    simp only [List.concat_eq_append] at hnodup hnn hSeg hw_pl hw_nn hunch hhd_nAB hABnd hdisj hnn_A ⊢
    have hpl : ((u ++ [x])).getLastD hd2 = x := getLastD_concat u x hd2
    rw [hpl] at hw_pl hw_nn hunch
    have hxu : x ∉ u := by
      have := (List.disjoint_of_nodup_append ((List.nodup_append.1 hABnd).1))
      intro hxu
      exact this hxu (List.mem_cons_self _ _)
    have hxB : x ∉ chB := hdisj x (List.mem_append.2 (Or.inr (List.mem_cons_self _ _)))
    have hxhd : hd2 ≠ x := by
      intro he
      exact hhd_nAB (List.mem_append.2 (Or.inl (List.mem_append.2
        (Or.inr (he ▸ List.mem_cons_self _ _)))))
    rw [List.append_assoc] at hSeg
    obtain ⟨m2, hSegU, hSegX⟩ := Seg_append.1 hSeg
    obtain ⟨hm2, hSegTail⟩ := hSegX
    have hstart : nextAt a3 hd2 lvl = nextAt aPre hd2 lvl := by
      refine hunch hd2 hxhd hnn_hd.symm
    rw [List.append_assoc]
    refine Seg_append.2 ⟨some x, ?_, ?_⟩
    · rw [hstart, ← hm2]
      refine Seg_congr ?_ hSegU
      intro i hi
      refine hunch i ?_ ?_
      · intro he
        exact hxu (he ▸ hi)
      · exact fun he => (hnn_A i (List.mem_append.2 (Or.inl hi))) he.symm
    · refine ⟨rfl, ?_⟩
      show Seg a3 lvl (nextAt a3 x lvl) (nnIdx :: chB) none
      refine ⟨hw_pl, ?_⟩
      rw [hw_nn]
      refine Seg_congr ?_ hSegTail
      intro i hi
      refine hunch i ?_ ?_
      · intro he
        exact hxB (he ▸ hi)
      · exact fun he => (hnn_B i hi) he.symm

/-! Small facts about the generated height and the prevs list. -/

theorem gen_height_go_ge (r : Nat) : ∀ fuel bit h, h ≤ gen_height_go r fuel bit h := by
  intro fuel
  induction fuel with
  | zero => intro bit h; exact le_refl h
  | succ f ih =>
    intro bit h
    simp only [gen_height_go]
    split
    · exact le_trans (by omega) (ih (bit + 1) (h + 1))
    · exact le_refl h

theorem SKIPLIST_GEN_HEIGHT_pos (r : Nat) : 1 ≤ SKIPLIST_GEN_HEIGHT r := by
  have hge := gen_height_go_ge r (r + 2) 0 1
  show 1 ≤ (if gen_height_go r (r + 2) 0 1 > SKIPLIST_MAX_HEIGHT then SKIPLIST_MAX_HEIGHT
    else gen_height_go r (r + 2) 0 1)
  split
  · unfold SKIPLIST_MAX_HEIGHT
    omega
  · omega

theorem SKIPLIST_GEN_HEIGHT_le (r : Nat) : SKIPLIST_GEN_HEIGHT r ≤ SKIPLIST_MAX_HEIGHT := by
  show (if gen_height_go r (r + 2) 0 1 > SKIPLIST_MAX_HEIGHT then SKIPLIST_MAX_HEIGHT
    else gen_height_go r (r + 2) 0 1) ≤ SKIPLIST_MAX_HEIGHT
  split
  · exact le_refl _
  · omega

theorem prevSpecList_getD {a : List Node} {hd : Nat} {A : List Nat} {m i : Nat} (h : i ≤ m) :
    (prevSpecList a hd A m).getD i 0 = prevSpec a hd A i := by
  unfold prevSpecList
  rw [List.getD_eq_getElem?_getD, List.getElem?_map, List.getElem?_range (by omega)]
  rfl

theorem prevSpecList_length (a : List Node) (hd : Nat) (A : List Nat) (m : Nat) :
    (prevSpecList a hd A m).length = m + 1 := by
  unfold prevSpecList
  simp

theorem prevSpec_cases (a : List Node) (hd : Nat) (A : List Nat) (lvl : Nat) :
    prevSpec a hd A lvl = hd ∨ prevSpec a hd A lvl ∈ levelChain a A lvl := by
  by_cases hCA : levelChain a A lvl = []
  · left
    unfold prevSpec
    rw [hCA]
    rfl
  · right
    exact getLastD_mem hCA

end Skiplist

namespace Skiplist

/-! Facts about the predecessors returned by init_prevs on a well-formed
skiplist, and transfer of chains to extended arenas. -/

theorem Seg_append_arena {a b : List Node} {lvl : Nat} {c : List Nat} {p q : Ptr}
    (hmem : ∀ i ∈ c, i < a.length) (hs : Seg a lvl p c q) : Seg (a ++ b) lvl p c q :=
  Seg_congr (fun i hi => nextAt_append (hmem i hi)) hs

theorem cons_eq_dropLast_getLastD (hd : Nat) (l : List Nat) :
    hd :: l = (hd :: l).dropLast ++ [l.getLastD hd] := by
  induction l generalizing hd with
  | nil => rfl
  | cons x t ih =>
    rw [List.getLastD_cons]
    have h2 := ih x
    calc hd :: x :: t = hd :: ((x :: t).dropLast ++ [t.getLastD x]) := by rw [← h2]
      _ = (hd :: x :: t).dropLast ++ [t.getLastD x] := by
          rw [List.dropLast_cons₂]
          rfl

/-- The successor of the per-level predecessor is the head of the level
chain of the nodes at or past the search position. -/
theorem prevSpec_next (a : List Node) (hd : Nat) (A B : List Nat) (lvl : Nat)
    (hchain : Seg a lvl (some hd) (hd :: (levelChain a A lvl ++ levelChain a B lvl)) none) :
    nextAt a (prevSpec a hd A lvl) lvl = (levelChain a B lvl).head? := by
  have hfull : hd :: (levelChain a A lvl ++ levelChain a B lvl)
      = (hd :: levelChain a A lvl).dropLast ++ prevSpec a hd A lvl :: levelChain a B lvl := by
    have h0 : hd :: (levelChain a A lvl ++ levelChain a B lvl)
        = (hd :: levelChain a A lvl) ++ levelChain a B lvl := rfl
    rw [h0]
    conv_lhs => rw [cons_eq_dropLast_getLastD hd (levelChain a A lvl)]
    rw [List.append_assoc]
    rfl
  rw [hfull] at hchain
  exact Seg_next_split hchain

theorem chain_nodup {st : SLR} {L : List Nat} (hWf : Wf st L) (M : List Nat)
    (hsub : List.Sublist M L) (lvl : Nat) :
    (st.headIdx :: levelChain st.arena M lvl).Nodup := by
  rw [List.nodup_cons]
  constructor
  · intro hmem
    have hM : st.headIdx ∈ M := (List.filter_sublist M).subset hmem
    exact hWf.ne_head _ (hsub.subset hM) rfl
  · exact (hWf.nodup.sublist hsub).sublist (List.filter_sublist M)

theorem prevSpec_mem_cases {st : SLR} {L : List Nat} (hWf : Wf st L) {A : List Nat}
    (hsub : ∀ i ∈ A, i ∈ L) (lvl : Nat) :
    prevSpec st.arena st.headIdx A lvl = st.headIdx ∨
      (prevSpec st.arena st.headIdx A lvl ∈ L ∧
        lvl < hAt st.arena (prevSpec st.arena st.headIdx A lvl)) := by
  rcases prevSpec_cases st.arena st.headIdx A lvl with h | h
  · exact Or.inl h
  · right
    rw [mem_levelChain] at h
    exact ⟨hsub _ h.1, h.2⟩

theorem prevSpec_lt {st : SLR} {L : List Nat} (hWf : Wf st L) {A : List Nat}
    (hsub : ∀ i ∈ A, i ∈ L) (lvl : Nat) :
    prevSpec st.arena st.headIdx A lvl < st.arena.length := by
  rcases prevSpec_mem_cases hWf hsub lvl with h | h
  · rw [h]; exact hWf.head_lt
  · exact hWf.mem_lt _ h.1

theorem prevSpec_nextlen {st : SLR} {L : List Nat} (hWf : Wf st L) {A : List Nat}
    (hsub : ∀ i ∈ A, i ∈ L) {lvl : Nat} (hlvl : lvl < headH st) :
    lvl < (nodeAt st.arena (prevSpec st.arena st.headIdx A lvl)).next.length := by
  rcases prevSpec_mem_cases hWf hsub lvl with h | h
  · rw [h, hWf.head_len]; exact hlvl
  · rw [hWf.next_len _ h.1]; exact h.2

/-- Entries of the takeWhile part are the takeWhile of the entries. -/
theorem entriesOf_takeWhile (a : List Node) (L : List Nat) (k : Int) :
    entriesOf a (L.takeWhile (fun i => decide (keyAt a i < k)))
      = (entriesOf a L).takeWhile (fun e => decide (e.1 < k)) := by
  unfold entriesOf
  rw [List.takeWhile_map]
  rfl

theorem entriesOf_dropWhile (a : List Node) (L : List Nat) (k : Int) :
    entriesOf a (L.dropWhile (fun i => decide (keyAt a i < k)))
      = (entriesOf a L).dropWhile (fun e => decide (e.1 < k)) := by
  unfold entriesOf
  rw [List.dropWhile_map]
  rfl

end Skiplist

namespace Skiplist

/-! Generic facts used to re-establish the invariant after an insertion. -/

theorem set_append_last (l : List Node) (x y : Node) :
    (l ++ [x]).set l.length y = l ++ [y] := by
  induction l with
  | nil => rfl
  | cons z t ih =>
    show z :: ((t ++ [x]).set t.length y) = z :: (t ++ [y])
    rw [ih]

theorem grow_head_eval (alloc : Nat → Bool) (halloc : ∀ n, alloc n = true) (st1 : SLR)
    (nnIdx : Nat) :
    grow_head alloc st1 nnIdx = some { st1 with
      arena := st1.arena ++
        [⟨hAt st1.arena nnIdx, 0, 0,
          (List.range (hAt st1.arena nnIdx)).map
            (fun i => if i < headH st1 then nextAt st1.arena st1.headIdx i else some nnIdx)⟩],
      headIdx := st1.arena.length } := by
  unfold grow_head N_alloc
  simp only [halloc, if_true]
  rw [nodeAt_append_right rfl (by simp)]
  rw [set_append_last]
  rfl

theorem sorted_insert_middle {aF a : List Node} {A B : List Nat} {k : Int} {nnIdx : Nat}
    (hkeep : ∀ i, i ∈ A ∨ i ∈ B → keyAt aF i = keyAt a i)
    (hnnk : keyAt aF nnIdx = k)
    (hAkey : ∀ i ∈ A, keyAt a i < k) (hBkey : ∀ i ∈ B, k ≤ keyAt a i)
    (hsorted : ((A ++ B).map (keyAt a)).Sorted (· ≤ ·)) :
    ((A ++ nnIdx :: B).map (keyAt aF)).Sorted (· ≤ ·) := by
  rw [List.map_append] at hsorted ⊢
  rw [List.map_cons]
  obtain ⟨hsA, hsB, hcross⟩ := List.pairwise_append.1 hsorted
  refine List.pairwise_append.2 ?_
  have hmapA : ∀ i ∈ A, keyAt aF i = keyAt a i := fun i hi => hkeep i (Or.inl hi)
  have hmapB : ∀ i ∈ B, keyAt aF i = keyAt a i := fun i hi => hkeep i (Or.inr hi)
  have heqA : A.map (keyAt aF) = A.map (keyAt a) := List.map_congr_left hmapA
  have heqB : B.map (keyAt aF) = B.map (keyAt a) := List.map_congr_left hmapB
  refine ⟨by rw [heqA]; exact hsA, ?_, ?_⟩
  · refine List.pairwise_cons.2 ⟨?_, ?_⟩
    · intro b hb
      rw [heqB] at hb
      obtain ⟨i, hi, rfl⟩ := List.mem_map.1 hb
      rw [hnnk]
      exact hBkey i hi
    · rw [heqB]; exact hsB
  · intro x hx y hy
    rw [heqA] at hx
    obtain ⟨i, hi, rfl⟩ := List.mem_map.1 hx
    rcases List.mem_cons.1 hy with rfl | hy
    · rw [hnnk]
      exact le_of_lt (hAkey i hi)
    · rw [heqB] at hy
      obtain ⟨j, hj, rfl⟩ := List.mem_map.1 hy
      exact le_trans (le_of_lt (hAkey i hi)) (hBkey j hj)

theorem entries_insert_middle {aF a : List Node} {A B : List Nat} {k : Int} {v : Nat}
    {nnIdx : Nat}
    (hkeep : ∀ i, i ∈ A ∨ i ∈ B → keyAt aF i = keyAt a i ∧ valAt aF i = valAt a i)
    (hnnk : keyAt aF nnIdx = k) (hnnv : valAt aF nnIdx = v) :
    entriesOf aF (A ++ nnIdx :: B) = entriesOf a A ++ (k, v) :: entriesOf a B := by
  unfold entriesOf
  rw [List.map_append, List.map_cons, hnnk, hnnv]
  congr 1
  · refine List.map_congr_left ?_
    intro i hi
    rw [(hkeep i (Or.inl hi)).1, (hkeep i (Or.inl hi)).2]
  · congr 1
    refine List.map_congr_left ?_
    intro i hi
    rw [(hkeep i (Or.inr hi)).1, (hkeep i (Or.inr hi)).2]

theorem levelChain_middle (aF : List Node) (A B : List Nat) (x lvl : Nat) :
    levelChain aF (A ++ x :: B) lvl
      = levelChain aF A lvl ++
        (if lvl < hAt aF x then x :: levelChain aF B lvl else levelChain aF B lvl) := by
  unfold levelChain
  rw [List.filter_append, List.filter_cons]
  by_cases h : lvl < hAt aF x
  · rw [if_pos h, if_pos (by simpa using h)]
  · rw [if_neg h, if_neg (by simpa using h)]

end Skiplist

namespace Skiplist

theorem headH_mk (a2 : List Node) (hd c r : Nat) :
    headH { arena := a2, headIdx := hd, count := c, rngIdx := r } = hAt a2 hd := rfl

theorem getD_map_lt (f : Nat → Nat) {l : List Nat} {i : Nat} (h : i < l.length) :
    (l.map f).getD i 0 = f (l.getD i 0) := by
  rw [List.getD_eq_getElem?_getD, List.getD_eq_getElem?_getD, List.getElem?_map,
    List.getElem?_eq_getElem h]
  rfl

theorem getLastD_irrel {l : List Nat} (h : l ≠ []) (d1 d2 : Nat) :
    l.getLastD d1 = l.getLastD d2 := by
  cases l with
  | nil => exact absurd rfl h
  | cons a t => rw [List.getLastD_cons, List.getLastD_cons]

set_option maxHeartbeats 1000000

theorem add_or_set_insert (g : Nat → Nat) (alloc : Nat → Bool) (try_replace : Bool)
    (k : Int) (v oldIn : Nat) (st : SLR) (L A B : List Nat) (hWf : Wf st L)
    (halloc : ∀ n, alloc n = true)
    (hAeq : A = L.takeWhile (fun i => decide (keyAt st.arena i < k)))
    (hBeq : B = L.dropWhile (fun i => decide (keyAt st.arena i < k)))
    (hnomatch : try_replace = true → ∀ j, B.head? = some j → cmpI (keyAt st.arena j) k ≠ 0) :
    ∃ oldOut stF,
      add_or_set g alloc try_replace k v oldIn st = some (0, oldOut, stF) ∧
      Wf stF (A ++ st.arena.length :: B) ∧
      entriesOf stF.arena (A ++ st.arena.length :: B)
        = entriesOf st.arena A ++ (k, v) :: entriesOf st.arena B ∧
      stF.count = st.count + 1 ∧
      stF.rngIdx = st.rngIdx + 1 ∧
      (TopOk st L → TopOk stF (A ++ st.arena.length :: B)) := by
  have hLAB : L = A ++ B := by
    rw [hAeq, hBeq]
    exact (List.takeWhile_append_dropWhile _ _).symm
  have hAkey : ∀ i ∈ A, keyAt st.arena i < k := by
    rw [hAeq]; exact fun i hi => takeWhile_key_lt hi
  have hBkey : ∀ i ∈ B, k ≤ keyAt st.arena i := by
    rw [hBeq]; exact dropWhile_key_ge hWf.sorted
  have hAsub : ∀ i ∈ A, i ∈ L := by
    intro i hi; rw [hLAB]; exact List.mem_append.2 (Or.inl hi)
  have hBsub : ∀ i ∈ B, i ∈ L := by
    intro i hi; rw [hLAB]; exact List.mem_append.2 (Or.inr hi)
  have hh1 : 1 ≤ headH st := hWf.head_pos
  have hchainsAB : ∀ lvl, lvl < headH st →
      Seg st.arena lvl (some st.headIdx)
        (st.headIdx :: (levelChain st.arena A lvl ++ levelChain st.arena B lvl)) none := by
    intro lvl hlvl
    refine ⟨rfl, ?_⟩
    rw [← levelChain_append, ← hLAB]
    exact hWf.chains lvl hlvl
  have hprevs := init_prevs_spec hWf k
  rw [← hAeq] at hprevs
  have hgetD : ∀ lvl, lvl < headH st →
      (prevSpecList st.arena st.headIdx A (headH st - 1)).getD lvl 0
        = prevSpec st.arena st.headIdx A lvl := by
    intro lvl hlvl
    exact prevSpecList_getD (by omega)
  have hnextPl : ∀ lvl, lvl < headH st →
      nextAt st.arena (prevSpec st.arena st.headIdx A lvl) lvl
        = (levelChain st.arena B lvl).head? :=
    fun lvl hlvl => prevSpec_next _ _ _ _ _ (hchainsAB lvl hlvl)
  have hB0 : levelChain st.arena B 0 = B :=
    levelChain_zero (fun i hi => hWf.h_pos i (hBsub i hi))
  have hnext0 : nextAt st.arena (prevSpec st.arena st.headIdx A 0) 0 = B.head? := by
    rw [hnextPl 0 hh1, hB0]
  have hnodupL2 : (A ++ st.arena.length :: B).Nodup := by
    rw [List.nodup_middle, List.nodup_cons]
    constructor
    · intro hmem
      rw [← hLAB] at hmem
      exact absurd (hWf.mem_lt _ hmem) (by omega)
    · rw [← hLAB]; exact hWf.nodup
  have hchainNodup : ∀ lvl,
      (st.headIdx :: (levelChain st.arena A lvl ++ levelChain st.arena B lvl)).Nodup := by
    intro lvl
    rw [← levelChain_append, ← hLAB]
    exact chain_nodup hWf L (List.Sublist.refl L) lvl
  unfold add_or_set
  rw [hprevs]
  simp only [hgetD 0 hh1, hnext0, N_alloc, halloc, if_true]
  split
  next j0 hrepl2 =>
    exfalso
    cases htr : try_replace
    · rw [htr] at hrepl2
      simp at hrepl2
    · rw [htr] at hrepl2
      rw [if_pos rfl] at hrepl2
      cases hBh : B.head? with
      | none =>
        rw [hBh] at hrepl2
        simp at hrepl2
      | some j2 =>
        rw [hBh] at hrepl2
        simp only [] at hrepl2
        rw [if_neg (hnomatch htr j2 hBh)] at hrepl2
        exact Option.noConfusion hrepl2
  next hrepl2 =>
    by_cases hgrow : SKIPLIST_GEN_HEIGHT (g st.rngIdx) > headH st
    case pos =>
      simp only [if_pos hgrow]
      rw [grow_head_eval alloc halloc]
      have hlen1 : (st.arena ++
          [(⟨SKIPLIST_GEN_HEIGHT (g st.rngIdx), k, v,
            List.replicate (SKIPLIST_GEN_HEIGHT (g st.rngIdx)) none⟩ : Node)]).length
          = st.arena.length + 1 := by simp
      have hnnb : nodeAt (st.arena ++
          [(⟨SKIPLIST_GEN_HEIGHT (g st.rngIdx), k, v,
            List.replicate (SKIPLIST_GEN_HEIGHT (g st.rngIdx)) none⟩ : Node)]) st.arena.length
          = ⟨SKIPLIST_GEN_HEIGHT (g st.rngIdx), k, v,
            List.replicate (SKIPLIST_GEN_HEIGHT (g st.rngIdx)) none⟩ := by
        rw [nodeAt_append_right rfl (by simp)]
        rfl
      have hq1 : hAt (st.arena ++
          [(⟨SKIPLIST_GEN_HEIGHT (g st.rngIdx), k, v,
            List.replicate (SKIPLIST_GEN_HEIGHT (g st.rngIdx)) none⟩ : Node)]) st.arena.length
          = SKIPLIST_GEN_HEIGHT (g st.rngIdx) := by
        unfold hAt
        rw [hnnb]
      have hq2 : hAt (st.arena ++
          [(⟨SKIPLIST_GEN_HEIGHT (g st.rngIdx), k, v,
            List.replicate (SKIPLIST_GEN_HEIGHT (g st.rngIdx)) none⟩ : Node)]) st.headIdx
          = headH st := by
        unfold headH
        exact hAt_append hWf.head_lt
      have hq3 : ∀ i, nextAt (st.arena ++
          [(⟨SKIPLIST_GEN_HEIGHT (g st.rngIdx), k, v,
            List.replicate (SKIPLIST_GEN_HEIGHT (g st.rngIdx)) none⟩ : Node)]) st.headIdx i
          = nextAt st.arena st.headIdx i := fun i => nextAt_append hWf.head_lt
      have hback : hAt st.arena st.headIdx = headH st := rfl
      have hminG : SKIPLIST_GEN_HEIGHT (g st.rngIdx) ⊓ headH st = headH st :=
        min_eq_right (le_of_lt hgrow)
      dsimp only
      simp only [headH_mk, hAt_append hWf.head_lt, hback, hq1, hq3, hlen1, hminG]
      set NH := SKIPLIST_GEN_HEIGHT (g st.rngIdx) with hNHdef
      have hNH1 : 1 ≤ NH := SKIPLIST_GEN_HEIGHT_pos _
      set nnN : Node := ⟨NH, k, v, List.replicate NH none⟩ with hnnNdef
      set cfgN : Node := ⟨NH, 0, 0,
        (List.range NH).map
          (fun i => if i < headH st then nextAt st.arena st.headIdx i
            else some st.arena.length)⟩ with hcfgdef
      set a2 := st.arena ++ [nnN] ++ [cfgN] with ha2def
      set pl2 := (prevSpecList st.arena st.headIdx A (headH st - 1)).map
        (fun p => if p = st.headIdx then st.arena.length + 1 else p) with hpl2def
      have hlen01 : (st.arena ++ [nnN]).length = st.arena.length + 1 := by simp
      have hlen2 : a2.length = st.arena.length + 2 := by rw [ha2def]; simp
      have hnode_old : ∀ x, x < st.arena.length → nodeAt a2 x = nodeAt st.arena x := by
        intro x hx
        rw [ha2def, nodeAt_append (by rw [hlen01]; omega), nodeAt_append hx]
      have hnode_nn : nodeAt a2 st.arena.length = nnN := by
        rw [ha2def, nodeAt_append (by rw [hlen01]; omega),
          nodeAt_append_right rfl (by simp)]
        rfl
      have hnode_cfg : nodeAt a2 (st.arena.length + 1) = cfgN := by
        rw [ha2def, nodeAt_append_right (by rw [hlen01]) (by simp)]
        rfl
      have hnext_nn : ∀ lvl, nextAt a2 st.arena.length lvl = none := by
        intro lvl
        show (nodeAt a2 st.arena.length).next.getD lvl none = none
        rw [hnode_nn]
        show (List.replicate NH (none : Ptr)).getD lvl none = none
        rw [List.getD_eq_getElem?_getD, List.getElem?_replicate]
        split <;> rfl
      have hnext_cfg : ∀ lvl, lvl < NH →
          nextAt a2 (st.arena.length + 1) lvl
            = if lvl < headH st then nextAt st.arena st.headIdx lvl
              else some st.arena.length := by
        intro lvl hlvl
        show (nodeAt a2 (st.arena.length + 1)).next.getD lvl none = _
        rw [hnode_cfg]
        show ((List.range NH).map
          (fun i => if i < headH st then nextAt st.arena st.headIdx i
            else some st.arena.length)).getD lvl none = _
        rw [List.getD_eq_getElem?_getD, List.getElem?_map, List.getElem?_range hlvl]
        rfl
      have hplen0 : (prevSpecList st.arena st.headIdx A (headH st - 1)).length = headH st := by
        unfold prevSpecList
        rw [List.length_map, List.length_range]
        omega
      have hifSpec : ∀ i, i < headH st →
          pl2.getD i 0 = (if prevSpec st.arena st.headIdx A i = st.headIdx
            then st.arena.length + 1 else prevSpec st.arena st.headIdx A i) := by
        intro i hi
        rw [hpl2def, getD_map_lt _ (by rw [hplen0]; exact hi), hgetD i hi]
      have hpsA : ∀ i, i < headH st →
          pl2.getD i 0 = (levelChain st.arena A i).getLastD (st.arena.length + 1) := by
        intro i hi
        rw [hifSpec i hi]
        by_cases hnil : levelChain st.arena A i = []
        · have hps : prevSpec st.arena st.headIdx A i = st.headIdx := by
            unfold prevSpec
            rw [hnil]
            rfl
          rw [hps, if_pos rfl, hnil]
          rfl
        · have hmem : prevSpec st.arena st.headIdx A i ∈ levelChain st.arena A i := by
            show (levelChain st.arena A i).getLastD st.headIdx ∈ levelChain st.arena A i
            exact getLastD_mem hnil
          have hne : prevSpec st.arena st.headIdx A i ≠ st.headIdx := by
            intro he
            exact hWf.ne_head _ (hAsub _ (mem_levelChain.1 hmem).1) he
          rw [if_neg hne]
          show (levelChain st.arena A i).getLastD st.headIdx
            = (levelChain st.arena A i).getLastD (st.arena.length + 1)
          exact getLastD_irrel hnil _ _
      obtain ⟨hsplen, hspfld, hsphi, hspoth, hspnn, hsppl⟩ :=
        splice_facts a2 pl2 st.arena.length (headH st)
          (by rw [hlen2]; omega)
          (fun i hi => by
            rw [hifSpec i hi, hlen2]
            have := prevSpec_lt hWf hAsub i
            split <;> omega)
          (fun i hi => by
            rw [hifSpec i hi]
            have := prevSpec_lt hWf hAsub i
            split <;> omega)
          (by
            rw [hnode_nn]
            show headH st ≤ (List.replicate NH (none : Ptr)).length
            rw [List.length_replicate]
            omega)
          (fun i hi => by
            rw [hifSpec i hi]
            by_cases hc : prevSpec st.arena st.headIdx A i = st.headIdx
            · rw [if_pos hc, hnode_cfg]
              show i < ((List.range NH).map
                (fun j => if j < headH st then nextAt st.arena st.headIdx j
                  else some st.arena.length)).length
              rw [List.length_map, List.length_range]
              omega
            · rw [if_neg hc, hnode_old _ (prevSpec_lt hWf hAsub i)]
              exact prevSpec_nextlen hWf hAsub hi)
      set aF := splice a2 pl2 st.arena.length (headH st) with haFdef
      have hlenF : aF.length = st.arena.length + 2 := by rw [hsplen]; exact hlen2
      have hOld : ∀ x, x < st.arena.length →
          hAt aF x = hAt st.arena x ∧ keyAt aF x = keyAt st.arena x ∧
          valAt aF x = valAt st.arena x ∧
          (nodeAt aF x).next.length = (nodeAt st.arena x).next.length := by
        intro x hx
        obtain ⟨f1, f2, f3, f4⟩ := hspfld x
        refine ⟨?_, ?_, ?_, ?_⟩
        · rw [f1]; unfold hAt; rw [hnode_old x hx]
        · rw [f2]; unfold keyAt; rw [hnode_old x hx]
        · rw [f3]; unfold valAt; rw [hnode_old x hx]
        · rw [f4, hnode_old x hx]
      have hNNf : hAt aF st.arena.length = NH ∧ keyAt aF st.arena.length = k ∧
          valAt aF st.arena.length = v ∧
          (nodeAt aF st.arena.length).next.length = NH := by
        obtain ⟨f1, f2, f3, f4⟩ := hspfld st.arena.length
        refine ⟨?_, ?_, ?_, ?_⟩
        · rw [f1]; unfold hAt; rw [hnode_nn]
        · rw [f2]; unfold keyAt; rw [hnode_nn]
        · rw [f3]; unfold valAt; rw [hnode_nn]
        · rw [f4, hnode_nn]
          show (List.replicate NH (none : Ptr)).length = NH
          rw [List.length_replicate]
      have hCfgf : hAt aF (st.arena.length + 1) = NH ∧
          (nodeAt aF (st.arena.length + 1)).next.length = NH := by
        obtain ⟨f1, _, _, f4⟩ := hspfld (st.arena.length + 1)
        constructor
        · rw [f1]; unfold hAt; rw [hnode_cfg]
        · rw [f4, hnode_cfg]
          show ((List.range NH).map
            (fun j => if j < headH st then nextAt st.arena st.headIdx j
              else some st.arena.length)).length = NH
          rw [List.length_map, List.length_range]
      refine ⟨_, _, rfl, ?_, ?_, rfl, rfl, ?_⟩
      case refine_1 =>
        refine ⟨?_, ?_, ?_, ?_, ?_, ?_, ?_, ?_, ?_, ?_, ?_, ?_⟩
        · show st.arena.length + 1 < aF.length
          rw [hlenF]
          omega
        · show 1 ≤ hAt aF (st.arena.length + 1)
          rw [hCfgf.1]
          exact hNH1
        · show (nodeAt aF (st.arena.length + 1)).next.length = hAt aF (st.arena.length + 1)
          rw [hCfgf.1, hCfgf.2]
        · intro i hi
          show i < aF.length
          rw [hlenF]
          rcases List.mem_append.1 hi with hi | hi
          · have := hWf.mem_lt i (hAsub i hi); omega
          · rcases List.mem_cons.1 hi with rfl | hi
            · omega
            · have := hWf.mem_lt i (hBsub i hi); omega
        · intro i hi
          show i ≠ st.arena.length + 1
          rcases List.mem_append.1 hi with hi | hi
          · have := hWf.mem_lt i (hAsub i hi); omega
          · rcases List.mem_cons.1 hi with rfl | hi
            · omega
            · have := hWf.mem_lt i (hBsub i hi); omega
        · exact hnodupL2
        · intro i hi
          rcases List.mem_append.1 hi with hi | hi
          · rw [(hOld i (hWf.mem_lt i (hAsub i hi))).1]
            exact hWf.h_pos i (hAsub i hi)
          · rcases List.mem_cons.1 hi with rfl | hi
            · rw [hNNf.1]
              exact hNH1
            · rw [(hOld i (hWf.mem_lt i (hBsub i hi))).1]
              exact hWf.h_pos i (hBsub i hi)
        · intro i hi
          show hAt aF i ≤ hAt aF (st.arena.length + 1)
          rw [hCfgf.1]
          rcases List.mem_append.1 hi with hi | hi
          · rw [(hOld i (hWf.mem_lt i (hAsub i hi))).1]
            have := hWf.h_le i (hAsub i hi)
            omega
          · rcases List.mem_cons.1 hi with rfl | hi
            · have := hNNf.1
              omega
            · rw [(hOld i (hWf.mem_lt i (hBsub i hi))).1]
              have := hWf.h_le i (hBsub i hi)
              omega
        · intro i hi
          rcases List.mem_append.1 hi with hi | hi
          · rw [(hOld i (hWf.mem_lt i (hAsub i hi))).2.2.2, (hOld i (hWf.mem_lt i (hAsub i hi))).1]
            exact hWf.next_len i (hAsub i hi)
          · rcases List.mem_cons.1 hi with rfl | hi
            · rw [hNNf.2.2.2, hNNf.1]
            · rw [(hOld i (hWf.mem_lt i (hBsub i hi))).2.2.2, (hOld i (hWf.mem_lt i (hBsub i hi))).1]
              exact hWf.next_len i (hBsub i hi)
        · refine sorted_insert_middle ?_ hNNf.2.1 hAkey hBkey ?_
          · intro i hi
            rcases hi with hi | hi
            · exact (hOld i (hWf.mem_lt i (hAsub i hi))).2.1
            · exact (hOld i (hWf.mem_lt i (hBsub i hi))).2.1
          · rw [← hLAB]
            exact hWf.sorted
        · intro lvl hlvl
          have hlvlNH : lvl < NH := by
            rw [← hCfgf.1]
            exact hlvl
          show Seg aF lvl (nextAt aF (st.arena.length + 1) lvl)
            (levelChain aF (A ++ st.arena.length :: B) lvl) none
          rw [levelChain_middle]
          have hchAe : levelChain aF A lvl = levelChain st.arena A lvl :=
            levelChain_congr (fun i hi => (hOld i (hWf.mem_lt i (hAsub i hi))).1)
          have hchBe : levelChain aF B lvl = levelChain st.arena B lvl :=
            levelChain_congr (fun i hi => (hOld i (hWf.mem_lt i (hBsub i hi))).1)
          rw [hchAe, hchBe, hNNf.1, if_pos hlvlNH]
          by_cases hlhh : lvl < headH st
          · refine Seg_insert_middle a2 aF lvl (st.arena.length + 1) st.arena.length
              (levelChain st.arena A lvl) (levelChain st.arena B lvl) ?_ ?_ ?_ ?_ ?_ ?_
            · rw [List.nodup_cons]
              refine ⟨?_, ?_⟩
              · intro hmem
                rw [← levelChain_append, ← hLAB] at hmem
                have := hWf.mem_lt _ (mem_levelChain.1 hmem).1
                omega
              · exact (List.nodup_cons.1 (hchainNodup lvl)).2
            · intro hmem
              rcases List.mem_cons.1 hmem with he | hmem
              · omega
              · rw [← levelChain_append, ← hLAB] at hmem
                have := hWf.mem_lt _ (mem_levelChain.1 hmem).1
                omega
            · have hstart : nextAt a2 (st.arena.length + 1) lvl
                  = nextAt st.arena st.headIdx lvl := by
                rw [hnext_cfg lvl hlvlNH, if_pos hlhh]
              rw [hstart]
              refine Seg_congr ?_ (hchainsAB lvl hlhh).2
              intro i hi
              rw [← levelChain_append, ← hLAB] at hi
              show nextAt a2 i lvl = nextAt st.arena i lvl
              unfold nextAt
              rw [hnode_old i (hWf.mem_lt _ (mem_levelChain.1 hi).1)]
            · have hthis := hsppl lvl hlhh
              rw [hpsA lvl hlhh] at hthis
              exact hthis
            · have hthis := hspnn lvl hlhh
              rw [hpsA lvl hlhh] at hthis
              exact hthis
            · intro x hx1 hx2
              refine hspoth lvl x hlhh hx2 ?_
              rw [hpsA lvl hlhh]
              exact hx1
          · have hAnil : levelChain st.arena A lvl = [] := by
              rw [List.eq_nil_iff_forall_not_mem]
              intro i hi
              have h1 := mem_levelChain.1 hi
              have := hWf.h_le i (hAsub i h1.1)
              omega
            have hBnil : levelChain st.arena B lvl = [] := by
              rw [List.eq_nil_iff_forall_not_mem]
              intro i hi
              have h1 := mem_levelChain.1 hi
              have := hWf.h_le i (hBsub i h1.1)
              omega
            rw [hAnil, hBnil]
            have h1 : nextAt aF (st.arena.length + 1) lvl = some st.arena.length := by
              rw [hsphi lvl (st.arena.length + 1) (le_of_not_lt hlhh),
                hnext_cfg lvl hlvlNH, if_neg hlhh]
            have h2 : nextAt aF st.arena.length lvl = none := by
              rw [hsphi lvl st.arena.length (le_of_not_lt hlhh)]
              exact hnext_nn lvl
            exact ⟨h1, h2⟩
        · show st.count + 1 = (A ++ st.arena.length :: B).length
          rw [List.length_append, List.length_cons, hWf.count_eq, hLAB, List.length_append]
          omega
      case refine_2 =>
        refine entries_insert_middle ?_ hNNf.2.1 hNNf.2.2.1
        intro i hi
        rcases hi with hi | hi
        · exact ⟨(hOld i (hWf.mem_lt i (hAsub i hi))).2.1,
            (hOld i (hWf.mem_lt i (hAsub i hi))).2.2.1⟩
        · exact ⟨(hOld i (hWf.mem_lt i (hBsub i hi))).2.1,
            (hOld i (hWf.mem_lt i (hBsub i hi))).2.2.1⟩
      case refine_3 =>
        intro _
        constructor
        · intro hL2
          exact absurd hL2 (by simp)
        · intro _
          show levelChain aF (A ++ st.arena.length :: B) (hAt aF (st.arena.length + 1) - 1) ≠ []
          rw [hCfgf.1]
          refine List.ne_nil_of_mem (a := st.arena.length) (mem_levelChain.2 ⟨?_, ?_⟩)
          · exact List.mem_append.2 (Or.inr (List.mem_cons_self _ _))
          · have := hNNf.1
            omega
    case neg =>
      simp only [if_neg hgrow]
      have hNHle : SKIPLIST_GEN_HEIGHT (g st.rngIdx) ≤ headH st := by omega
      have hNH1 : 1 ≤ SKIPLIST_GEN_HEIGHT (g st.rngIdx) := SKIPLIST_GEN_HEIGHT_pos _
      have hmin : SKIPLIST_GEN_HEIGHT (g st.rngIdx) ⊓ headH st
          = SKIPLIST_GEN_HEIGHT (g st.rngIdx) := min_eq_left hNHle
      simp only [hmin]
      have hnnb : nodeAt (st.arena ++
          [⟨SKIPLIST_GEN_HEIGHT (g st.rngIdx), k, v,
            List.replicate (SKIPLIST_GEN_HEIGHT (g st.rngIdx)) none⟩]) st.arena.length
          = ⟨SKIPLIST_GEN_HEIGHT (g st.rngIdx), k, v,
            List.replicate (SKIPLIST_GEN_HEIGHT (g st.rngIdx)) none⟩ := by
        rw [nodeAt_append_right rfl (by simp)]
        rfl
      obtain ⟨hsplen, hspfld, hsphi, hspoth, hspnn, hsppl⟩ :=
        splice_facts (st.arena ++
            [⟨SKIPLIST_GEN_HEIGHT (g st.rngIdx), k, v,
              List.replicate (SKIPLIST_GEN_HEIGHT (g st.rngIdx)) none⟩])
          (prevSpecList st.arena st.headIdx A (headH st - 1)) st.arena.length
          (SKIPLIST_GEN_HEIGHT (g st.rngIdx))
          (by simp)
          (fun i hi => by
            rw [hgetD i (by omega), List.length_append]
            have := prevSpec_lt hWf hAsub i
            simp
            omega)
          (fun i hi => by
            rw [hgetD i (by omega)]
            have := prevSpec_lt hWf hAsub i
            omega)
          (by rw [hnnb]; simp)
          (fun i hi => by
            rw [hgetD i (by omega), nodeAt_append (prevSpec_lt hWf hAsub i)]
            exact prevSpec_nextlen hWf hAsub (by omega))
      set NH := SKIPLIST_GEN_HEIGHT (g st.rngIdx) with hNHdef
      set nnN : Node := ⟨NH, k, v, List.replicate NH none⟩ with hnnNdef
      set b := st.arena ++ [nnN] with hbdef
      set aF := splice b (prevSpecList st.arena st.headIdx A (headH st - 1)) st.arena.length NH
        with haFdef
      have hOld : ∀ x, x < st.arena.length →
          hAt aF x = hAt st.arena x ∧ keyAt aF x = keyAt st.arena x ∧
          valAt aF x = valAt st.arena x ∧
          (nodeAt aF x).next.length = (nodeAt st.arena x).next.length := by
        intro x hx
        obtain ⟨f1, f2, f3, f4⟩ := hspfld x
        refine ⟨?_, ?_, ?_, ?_⟩
        · rw [f1]; unfold hAt; rw [nodeAt_append hx]
        · rw [f2]; unfold keyAt; rw [nodeAt_append hx]
        · rw [f3]; unfold valAt; rw [nodeAt_append hx]
        · rw [f4, nodeAt_append hx]
      have hNNf : hAt aF st.arena.length = NH ∧ keyAt aF st.arena.length = k ∧
          valAt aF st.arena.length = v ∧
          (nodeAt aF st.arena.length).next.length = NH := by
        obtain ⟨f1, f2, f3, f4⟩ := hspfld st.arena.length
        refine ⟨?_, ?_, ?_, ?_⟩
        · rw [f1]; unfold hAt; rw [hnnb]
        · rw [f2]; unfold keyAt; rw [hnnb]
        · rw [f3]; unfold valAt; rw [hnnb]
        · rw [f4, hnnb]; simp
      have hlenF : aF.length = st.arena.length + 1 := by rw [hsplen, hbdef]; simp
      have hheadF : hAt aF st.headIdx = headH st := (hOld st.headIdx hWf.head_lt).1
      refine ⟨_, _, rfl, ?_, ?_, rfl, rfl, ?_⟩
      case refine_1 =>
        have hlvl2 : ∀ lvl, lvl < headH st → lvl < headH st := fun _ h => h
        refine ⟨?_, ?_, ?_, ?_, ?_, ?_, ?_, ?_, ?_, ?_, ?_, ?_⟩
        · show st.headIdx < aF.length
          rw [hlenF]
          have := hWf.head_lt
          omega
        · show 1 ≤ hAt aF st.headIdx
          rw [hheadF]
          exact hh1
        · show (nodeAt aF st.headIdx).next.length = hAt aF st.headIdx
          rw [hheadF, (hOld st.headIdx hWf.head_lt).2.2.2]
          exact hWf.head_len
        · intro i hi
          show i < aF.length
          rw [hlenF]
          rcases List.mem_append.1 hi with hi | hi
          · have := hWf.mem_lt i (hAsub i hi); omega
          · rcases List.mem_cons.1 hi with rfl | hi
            · omega
            · have := hWf.mem_lt i (hBsub i hi); omega
        · intro i hi
          rcases List.mem_append.1 hi with hi | hi
          · exact hWf.ne_head i (hAsub i hi)
          · rcases List.mem_cons.1 hi with rfl | hi
            · have := hWf.head_lt
              show st.arena.length ≠ st.headIdx
              omega
            · exact hWf.ne_head i (hBsub i hi)
        · exact hnodupL2
        · intro i hi
          rcases List.mem_append.1 hi with hi | hi
          · rw [(hOld i (hWf.mem_lt i (hAsub i hi))).1]
            exact hWf.h_pos i (hAsub i hi)
          · rcases List.mem_cons.1 hi with rfl | hi
            · rw [hNNf.1]
              exact hNH1
            · rw [(hOld i (hWf.mem_lt i (hBsub i hi))).1]
              exact hWf.h_pos i (hBsub i hi)
        · intro i hi
          show hAt aF i ≤ hAt aF st.headIdx
          rw [hheadF]
          rcases List.mem_append.1 hi with hi | hi
          · rw [(hOld i (hWf.mem_lt i (hAsub i hi))).1]
            exact hWf.h_le i (hAsub i hi)
          · rcases List.mem_cons.1 hi with rfl | hi
            · rw [hNNf.1]
              exact hNHle
            · rw [(hOld i (hWf.mem_lt i (hBsub i hi))).1]
              exact hWf.h_le i (hBsub i hi)
        · intro i hi
          rcases List.mem_append.1 hi with hi | hi
          · rw [(hOld i (hWf.mem_lt i (hAsub i hi))).2.2.2, (hOld i (hWf.mem_lt i (hAsub i hi))).1]
            exact hWf.next_len i (hAsub i hi)
          · rcases List.mem_cons.1 hi with rfl | hi
            · rw [hNNf.2.2.2, hNNf.1]
            · rw [(hOld i (hWf.mem_lt i (hBsub i hi))).2.2.2, (hOld i (hWf.mem_lt i (hBsub i hi))).1]
              exact hWf.next_len i (hBsub i hi)
        · refine sorted_insert_middle ?_ hNNf.2.1 hAkey hBkey ?_
          · intro i hi
            rcases hi with hi | hi
            · exact (hOld i (hWf.mem_lt i (hAsub i hi))).2.1
            · exact (hOld i (hWf.mem_lt i (hBsub i hi))).2.1
          · rw [← hLAB]
            exact hWf.sorted
        · intro lvl hlvl
          have hlvl2 : lvl < headH st := by
            rw [← hheadF]
            exact hlvl
          show Seg aF lvl (nextAt aF st.headIdx lvl)
            (levelChain aF (A ++ st.arena.length :: B) lvl) none
          rw [levelChain_middle]
          have hchAe : levelChain aF A lvl = levelChain st.arena A lvl :=
            levelChain_congr (fun i hi => (hOld i (hWf.mem_lt i (hAsub i hi))).1)
          have hchBe : levelChain aF B lvl = levelChain st.arena B lvl :=
            levelChain_congr (fun i hi => (hOld i (hWf.mem_lt i (hBsub i hi))).1)
          rw [hchAe, hchBe, hNNf.1]
          by_cases hlNH : lvl < NH
          · rw [if_pos hlNH]
            refine Seg_insert_middle b aF lvl st.headIdx st.arena.length
              (levelChain st.arena A lvl) (levelChain st.arena B lvl) (hchainNodup lvl)
              ?_ ?_ ?_ ?_ ?_
            · intro hmem
              rcases List.mem_cons.1 hmem with he | hmem
              · have := hWf.head_lt
                omega
              · rw [← levelChain_append, ← hLAB] at hmem
                have h1 := (mem_levelChain.1 hmem).1
                have := hWf.mem_lt _ h1
                omega
            · have hst : nextAt b st.headIdx lvl = nextAt st.arena st.headIdx lvl :=
                nextAt_append hWf.head_lt
              rw [hst]
              refine Seg_append_arena ?_ (hchainsAB lvl hlvl2).2
              intro i hi
              rw [← levelChain_append, ← hLAB] at hi
              exact hWf.mem_lt _ (mem_levelChain.1 hi).1
            · have hthis := hsppl lvl hlNH
              rw [hgetD lvl hlvl2] at hthis
              exact hthis
            · have hthis := hspnn lvl hlNH
              rw [hgetD lvl hlvl2] at hthis
              exact hthis
            · intro x hx1 hx2
              refine hspoth lvl x hlNH hx2 ?_
              rw [hgetD lvl hlvl2]
              exact hx1
          · rw [if_neg hlNH]
            have hstart : nextAt aF st.headIdx lvl = nextAt st.arena st.headIdx lvl := by
              rw [hsphi lvl st.headIdx (by omega)]
              exact nextAt_append hWf.head_lt
            rw [hstart]
            refine Seg_congr ?_ (hchainsAB lvl hlvl2).2
            intro i hi
            have hiL : i ∈ L := by
              rw [← levelChain_append, ← hLAB] at hi
              exact (mem_levelChain.1 hi).1
            rw [hsphi lvl i (by omega)]
            exact nextAt_append (hWf.mem_lt i hiL)
        · show st.count + 1 = (A ++ st.arena.length :: B).length
          rw [List.length_append, List.length_cons, hWf.count_eq, hLAB, List.length_append]
          omega
      case refine_2 =>
        refine entries_insert_middle ?_ hNNf.2.1 hNNf.2.2.1
        intro i hi
        rcases hi with hi | hi
        · exact ⟨(hOld i (hWf.mem_lt i (hAsub i hi))).2.1,
            (hOld i (hWf.mem_lt i (hAsub i hi))).2.2.1⟩
        · exact ⟨(hOld i (hWf.mem_lt i (hBsub i hi))).2.1,
            (hOld i (hWf.mem_lt i (hBsub i hi))).2.2.1⟩
      case refine_3 =>
        intro hTop
        constructor
        · intro hL2
          exact absurd hL2 (by simp)
        · intro _
          show levelChain aF (A ++ st.arena.length :: B) (hAt aF st.headIdx - 1) ≠ []
          rw [hheadF]
          by_cases hLnil : L = []
          · have hhh : headH st = 1 := hTop.1 hLnil
            rw [hhh]
            refine List.ne_nil_of_mem (a := st.arena.length) (mem_levelChain.2 ⟨?_, ?_⟩)
            · exact List.mem_append.2 (Or.inr (List.mem_cons_self _ _))
            · rw [hNNf.1]
              omega
          · obtain ⟨x, hx⟩ := List.exists_mem_of_ne_nil _ (hTop.2 hLnil)
            have hxL := (mem_levelChain.1 hx).1
            have hxh := (mem_levelChain.1 hx).2
            refine List.ne_nil_of_mem (a := x) (mem_levelChain.2 ⟨?_, ?_⟩)
            · rw [hLAB] at hxL
              rcases List.mem_append.1 hxL with h | h
              · exact List.mem_append.2 (Or.inl h)
              · exact List.mem_append.2 (Or.inr (List.mem_cons_of_mem _ h))
            · rw [(hOld x (hWf.mem_lt x hxL)).1]
              exact hxh

end Skiplist

namespace Skiplist

/-- The level-0 successor of prevs[0] is the head of the dropWhile part:
the first stored node whose key is not below k. -/
theorem next0_of_prevs {st : SLR} {L : List Nat} (hWf : Wf st L) (k : Int) :
    nextAt st.arena
        ((prevSpecList st.arena st.headIdx
          (L.takeWhile (fun i => decide (keyAt st.arena i < k))) (headH st - 1)).getD 0 0) 0
      = (L.dropWhile (fun i => decide (keyAt st.arena i < k))).head? := by
  have hLAB : L = L.takeWhile (fun i => decide (keyAt st.arena i < k))
      ++ L.dropWhile (fun i => decide (keyAt st.arena i < k)) :=
    (List.takeWhile_append_dropWhile _ _).symm
  have hBsub : ∀ i ∈ L.dropWhile (fun i => decide (keyAt st.arena i < k)), i ∈ L := by
    intro i hi; rw [hLAB]; exact List.mem_append.2 (Or.inr hi)
  have hchain : Seg st.arena 0 (some st.headIdx)
      (st.headIdx ::
        (levelChain st.arena (L.takeWhile (fun i => decide (keyAt st.arena i < k))) 0 ++
          levelChain st.arena (L.dropWhile (fun i => decide (keyAt st.arena i < k))) 0)) none := by
    refine ⟨rfl, ?_⟩
    rw [← levelChain_append, ← hLAB]
    exact hWf.chains 0 hWf.head_pos
  rw [prevSpecList_getD (by omega), prevSpec_next _ _ _ _ _ hchain,
    levelChain_zero (fun i hi => hWf.h_pos i (hBsub i hi))]

set_option maxHeartbeats 1000000

/-- Replace path of add_or_set (try_replace, key present): the value of the
first node of the equal-key run is overwritten in place and returned; the
arena changes in no other way; count, head and rngIdx are untouched. -/
theorem add_or_set_replace (g : Nat → Nat) (alloc : Nat → Bool)
    (k : Int) (v oldIn : Nat) (st : SLR) (L A B : List Nat) (j : Nat) (hWf : Wf st L)
    (hAeq : A = L.takeWhile (fun i => decide (keyAt st.arena i < k)))
    (hBeq : B = L.dropWhile (fun i => decide (keyAt st.arena i < k)))
    (hj : B.head? = some j) (hkey : keyAt st.arena j = k) :
    add_or_set g alloc true k v oldIn st
      = some (0, valAt st.arena j,
          { st with arena := st.arena.set j { nodeAt st.arena j with v := v } }) ∧
      Wf { st with arena := st.arena.set j { nodeAt st.arena j with v := v } } L ∧
      entriesOf (st.arena.set j { nodeAt st.arena j with v := v }) L
        = entriesOf st.arena A ++ (k, v) :: entriesOf st.arena B.tail := by
  have hLAB : L = A ++ B := by
    rw [hAeq, hBeq]
    exact (List.takeWhile_append_dropWhile _ _).symm
  have hjB : j ∈ B := List.mem_of_mem_head? hj
  have hjL : j ∈ L := by
    rw [hLAB]; exact List.mem_append.2 (Or.inr hjB)
  have hjlt : j < st.arena.length := hWf.mem_lt j hjL
  have hc : cmpI (keyAt st.arena j) k = 0 := cmpI_eq_iff.2 hkey
  have hnode : ∀ x, nodeAt (st.arena.set j { nodeAt st.arena j with v := v }) x
      = if x = j then { nodeAt st.arena j with v := v } else nodeAt st.arena x := by
    intro x
    by_cases hx : x = j
    · subst hx
      rw [if_pos rfl]
      exact nodeAt_set_self hjlt
    · rw [if_neg hx]
      exact nodeAt_set_ne (fun he => hx he.symm)
  have hh : ∀ x, hAt (st.arena.set j { nodeAt st.arena j with v := v }) x = hAt st.arena x := by
    intro x
    unfold hAt
    rw [hnode x]
    by_cases hx : x = j
    · rw [if_pos hx, hx]
    · rw [if_neg hx]
  have hk2 : ∀ x, keyAt (st.arena.set j { nodeAt st.arena j with v := v }) x
      = keyAt st.arena x := by
    intro x
    unfold keyAt
    rw [hnode x]
    by_cases hx : x = j
    · rw [if_pos hx, hx]
    · rw [if_neg hx]
  have hnext : ∀ x l, nextAt (st.arena.set j { nodeAt st.arena j with v := v }) x l
      = nextAt st.arena x l := by
    intro x l
    unfold nextAt
    rw [hnode x]
    by_cases hx : x = j
    · rw [if_pos hx, hx]
    · rw [if_neg hx]
  have hnlen : ∀ x, (nodeAt (st.arena.set j { nodeAt st.arena j with v := v }) x).next.length
      = (nodeAt st.arena x).next.length := by
    intro x
    rw [hnode x]
    by_cases hx : x = j
    · rw [if_pos hx, hx]
    · rw [if_neg hx]
  have hvj : valAt (st.arena.set j { nodeAt st.arena j with v := v }) j = v := by
    unfold valAt
    rw [hnode j, if_pos rfl]
  have hvne : ∀ x, x ≠ j → valAt (st.arena.set j { nodeAt st.arena j with v := v }) x
      = valAt st.arena x := by
    intro x hx
    unfold valAt
    rw [hnode x, if_neg hx]
  have hlenS : (st.arena.set j { nodeAt st.arena j with v := v }).length
      = st.arena.length := List.length_set st.arena _ _
  have hgetD : (prevSpecList st.arena st.headIdx A (headH st - 1)).getD 0 0
      = prevSpec st.arena st.headIdx A 0 := prevSpecList_getD (by omega)
  have hnext0 : nextAt st.arena (prevSpec st.arena st.headIdx A 0) 0 = B.head? := by
    have h0 := next0_of_prevs hWf k
    rw [← hAeq, ← hBeq, prevSpecList_getD (by omega)] at h0
    exact h0
  refine ⟨?_, ?_, ?_⟩
  · unfold add_or_set
    rw [init_prevs_spec hWf k, ← hAeq]
    simp only [hgetD, hnext0, hj, hc]
    rfl
  · refine ⟨?_, ?_, ?_, ?_, ?_, ?_, ?_, ?_, ?_, ?_, ?_, ?_⟩
    · show st.headIdx < (st.arena.set j { nodeAt st.arena j with v := v }).length
      rw [hlenS]
      exact hWf.head_lt
    · show 1 ≤ hAt (st.arena.set j { nodeAt st.arena j with v := v }) st.headIdx
      rw [hh]
      exact hWf.head_pos
    · show (nodeAt (st.arena.set j { nodeAt st.arena j with v := v }) st.headIdx).next.length
        = hAt (st.arena.set j { nodeAt st.arena j with v := v }) st.headIdx
      rw [hh, hnlen]
      exact hWf.head_len
    · intro i hi
      show i < (st.arena.set j { nodeAt st.arena j with v := v }).length
      rw [hlenS]
      exact hWf.mem_lt i hi
    · exact hWf.ne_head
    · exact hWf.nodup
    · intro i hi
      rw [hh]
      exact hWf.h_pos i hi
    · intro i hi
      show hAt _ i ≤ hAt _ st.headIdx
      rw [hh, hh]
      exact hWf.h_le i hi
    · intro i hi
      rw [hnlen, hh]
      exact hWf.next_len i hi
    · show (L.map (keyAt (st.arena.set j { nodeAt st.arena j with v := v }))).Sorted (· ≤ ·)
      have hkfun : keyAt (st.arena.set j { nodeAt st.arena j with v := v })
          = keyAt st.arena := funext hk2
      rw [hkfun]
      exact hWf.sorted
    · intro lvl hlvl
      have hlvl2 : lvl < headH st := by
        have hx := hh st.headIdx
        show lvl < headH st
        unfold headH
        unfold headH at hlvl
        rw [← hx]
        exact hlvl
      show Seg (st.arena.set j { nodeAt st.arena j with v := v }) lvl
        (nextAt (st.arena.set j { nodeAt st.arena j with v := v }) st.headIdx lvl)
        (levelChain (st.arena.set j { nodeAt st.arena j with v := v }) L lvl) none
      rw [hnext, levelChain_congr (fun i _ => hh i)]
      exact Seg_congr (fun i _ => hnext i lvl) (hWf.chains lvl hlvl2)
    · exact hWf.count_eq
  · have hBtail : B = j :: B.tail := by
      cases hB : B with
      | nil => rw [hB] at hj; exact Option.noConfusion hj
      | cons x t =>
        rw [hB] at hj
        cases hj
        rfl
    have hnodup : L.Nodup := hWf.nodup
    rw [hLAB] at hnodup
    have hjA : j ∉ A := by
      intro hmem
      exact (List.disjoint_of_nodup_append hnodup) hmem hjB
    have hjT : j ∉ B.tail := by
      have hBnd : B.Nodup := hnodup.of_append_right
      rw [hBtail] at hBnd
      exact (List.nodup_cons.1 hBnd).1
    unfold entriesOf
    rw [hLAB, hBtail, List.map_append, List.map_cons]
    congr 1
    · refine List.map_congr_left ?_
      intro i hi
      have hij : i ≠ j := fun he => hjA (he ▸ hi)
      rw [hk2 i, hvne i hij]
    · congr 1
      · rw [hk2 j, hkey, hvj]
      · refine List.map_congr_left ?_
        intro i hi
        have hij : i ≠ j := fun he => hjT (he ▸ hi)
        rw [hk2 i, hvne i hij]

end Skiplist

namespace Skiplist

/-- The head's level-0 successor is the first stored node. -/
theorem head_next0 {st : SLR} {L : List Nat} (hWf : Wf st L) :
    nextAt st.arena st.headIdx 0 = L.head? := by
  have hc := hWf.chains 0 hWf.head_pos
  rw [levelChain_zero hWf.h_pos] at hc
  cases L with
  | nil => exact hc
  | cons x t => exact hc.1

/-- Pointwise effect of the unlink loop of skiplist_pop_first:
DO(height, head->next[i] = first->next[i]). -/
theorem pop_first_fold_facts (a : List Node) (hd j : Nat) (m : Nat)
    (hhd : hd < a.length) (hne : j ≠ hd)
    (hlen : m ≤ (nodeAt a hd).next.length) :
    ((List.range m).foldl (fun acc i => updNext acc hd i (nextAt acc j i)) a).length
        = a.length ∧
    (∀ x, hAt ((List.range m).foldl (fun acc i => updNext acc hd i (nextAt acc j i)) a) x
          = hAt a x ∧
        keyAt ((List.range m).foldl (fun acc i => updNext acc hd i (nextAt acc j i)) a) x
          = keyAt a x ∧
        valAt ((List.range m).foldl (fun acc i => updNext acc hd i (nextAt acc j i)) a) x
          = valAt a x ∧
        (nodeAt ((List.range m).foldl (fun acc i => updNext acc hd i (nextAt acc j i)) a)
            x).next.length = (nodeAt a x).next.length) ∧
    (∀ l x, x ≠ hd →
      nextAt ((List.range m).foldl (fun acc i => updNext acc hd i (nextAt acc j i)) a) x l
        = nextAt a x l) ∧
    (∀ l, l < m →
      nextAt ((List.range m).foldl (fun acc i => updNext acc hd i (nextAt acc j i)) a) hd l
        = nextAt a j l) ∧
    (∀ l, m ≤ l →
      nextAt ((List.range m).foldl (fun acc i => updNext acc hd i (nextAt acc j i)) a) hd l
        = nextAt a hd l) := by
  induction m with
  | zero =>
    refine ⟨rfl, fun x => ⟨rfl, rfl, rfl, rfl⟩, fun l x _ => rfl, ?_, fun l _ => rfl⟩
    intro l h
    omega
  | succ m ih =>
    obtain ⟨ihlen, ihfld, ihoth, ihlo, ihhi⟩ := ih (by omega)
    rw [List.range_succ, List.foldl_append, List.foldl_cons, List.foldl_nil]
    have hread : nextAt ((List.range m).foldl
        (fun acc i => updNext acc hd i (nextAt acc j i)) a) j m = nextAt a j m :=
      ihoth m j hne
    rw [hread]
    refine ⟨?_, ?_, ?_, ?_, ?_⟩
    · rw [length_updNext, ihlen]
    · intro x
      rw [hAt_updNext, keyAt_updNext, valAt_updNext, nextLen_updNext]
      exact ihfld x
    · intro l x hx
      rw [nextAt_updNext_ne (Or.inl hx)]
      exact ihoth l x hx
    · intro l hl
      by_cases hlm : l = m
      · subst hlm
        rw [nextAt_updNext_self (by rw [ihlen]; exact hhd)
          (by rw [(ihfld hd).2.2.2]; omega)]
      · rw [nextAt_updNext_ne (Or.inr hlm)]
        exact ihlo l (by omega)
    · intro l hl
      rw [nextAt_updNext_ne (Or.inr (by omega))]
      exact ihhi l (by omega)

/-- skiplist_pop_first on an empty skiplist: -1, no change. -/
theorem skiplist_pop_first_empty {st : SLR} {L : List Nat} (hWf : Wf st L) (hL : L = []) :
    skiplist_pop_first st = (none, st) := by
  unfold skiplist_pop_first
  simp only [head_next0 hWf, hL]
  rfl

/-- skiplist_pop_first on a non-empty skiplist removes the first stored
node, unlinking it from every level it participates in, reports its key
and value and decrements count. -/
theorem skiplist_pop_first_spec {st : SLR} {L L2 : List Nat} {j : Nat}
    (hWf : Wf st L) (hL : L = j :: L2) :
    ∃ st2, skiplist_pop_first st = (some (keyAt st.arena j, valAt st.arena j), st2) ∧
      Wf st2 L2 ∧ st2.headIdx = st.headIdx ∧ st2.count = st.count - 1 ∧
      st2.rngIdx = st.rngIdx ∧ headH st2 = headH st ∧
      entriesOf st2.arena L2 = entriesOf st.arena L2 := by
  have hjL : j ∈ L := by rw [hL]; exact List.mem_cons_self _ _
  have hsubL2 : ∀ i ∈ L2, i ∈ L := by
    intro i hi; rw [hL]; exact List.mem_cons_of_mem _ hi
  have hne : j ≠ st.headIdx := hWf.ne_head j hjL
  obtain ⟨flen, ffld, foth, flo, fhi⟩ :=
    pop_first_fold_facts st.arena st.headIdx j (hAt st.arena j) hWf.head_lt hne
      (by rw [hWf.head_len]; exact hWf.h_le j hjL)
  refine ⟨(⟨(List.range (hAt st.arena j)).foldl
      (fun acc i => updNext acc st.headIdx i (nextAt acc j i)) st.arena,
    st.headIdx, st.count - 1, st.rngIdx⟩ : SLR), ?_, ?_, rfl, rfl, rfl, ?_, ?_⟩
  · unfold skiplist_pop_first
    simp only [head_next0 hWf, hL]
    rfl
  case refine_3 =>
    show hAt _ st.headIdx = hAt st.arena st.headIdx
    exact (ffld st.headIdx).1
  case refine_2 =>
    refine ⟨?_, ?_, ?_, ?_, ?_, ?_, ?_, ?_, ?_, ?_, ?_, ?_⟩
    · show st.headIdx < _
      rw [flen]
      exact hWf.head_lt
    · show 1 ≤ hAt _ st.headIdx
      rw [(ffld st.headIdx).1]
      exact hWf.head_pos
    · show (nodeAt _ st.headIdx).next.length = hAt _ st.headIdx
      rw [(ffld st.headIdx).1, (ffld st.headIdx).2.2.2]
      exact hWf.head_len
    · intro i hi
      show i < _
      rw [flen]
      exact hWf.mem_lt i (hsubL2 i hi)
    · intro i hi
      exact hWf.ne_head i (hsubL2 i hi)
    · have := hWf.nodup
      rw [hL] at this
      exact (List.nodup_cons.1 this).2
    · intro i hi
      rw [(ffld i).1]
      exact hWf.h_pos i (hsubL2 i hi)
    · intro i hi
      show hAt _ i ≤ hAt _ st.headIdx
      rw [(ffld i).1, (ffld st.headIdx).1]
      exact hWf.h_le i (hsubL2 i hi)
    · intro i hi
      rw [(ffld i).2.2.2, (ffld i).1]
      exact hWf.next_len i (hsubL2 i hi)
    · show (L2.map (keyAt _)).Sorted (· ≤ ·)
      have hkeq : ∀ i ∈ L2, keyAt ((List.range (hAt st.arena j)).foldl
          (fun acc i => updNext acc st.headIdx i (nextAt acc j i)) st.arena) i
          = keyAt st.arena i := fun i _ => (ffld i).2.1
      rw [List.map_congr_left hkeq]
      have hs := hWf.sorted
      rw [hL, List.map_cons] at hs
      exact hs.of_cons
    · intro lvl hlvl
      have hlvl2 : lvl < headH st := by
        show lvl < hAt st.arena st.headIdx
        rw [← (ffld st.headIdx).1]
        exact hlvl
      have hch := hWf.chains lvl hlvl2
      rw [hL] at hch
      have hcons : levelChain st.arena (j :: L2) lvl
          = if lvl < hAt st.arena j then j :: levelChain st.arena L2 lvl
            else levelChain st.arena L2 lvl := by
        unfold levelChain
        rw [List.filter_cons]
        by_cases hc : lvl < hAt st.arena j
        · rw [if_pos (by simpa using hc), if_pos hc]
        · rw [if_neg (by simpa using hc), if_neg hc]
      rw [hcons] at hch
      show Seg _ lvl (nextAt _ st.headIdx lvl) (levelChain _ L2 lvl) none
      rw [levelChain_congr (fun i _ => (ffld i).1)]
      have hcongr : ∀ i ∈ levelChain st.arena L2 lvl,
          nextAt ((List.range (hAt st.arena j)).foldl
            (fun acc i => updNext acc st.headIdx i (nextAt acc j i)) st.arena) i lvl
          = nextAt st.arena i lvl := by
        intro i hi
        exact foth lvl i (hWf.ne_head i (hsubL2 i (mem_levelChain.1 hi).1))
      by_cases hc : lvl < hAt st.arena j
      · rw [if_pos hc] at hch
        rw [flo lvl hc]
        exact Seg_congr hcongr hch.2
      · rw [if_neg hc] at hch
        rw [fhi lvl (by omega)]
        exact Seg_congr hcongr hch
    · show st.count - 1 = L2.length
      rw [hWf.count_eq, hL]
      simp
  case refine_4 =>
    unfold entriesOf
    refine List.map_congr_left ?_
    intro i hi
    rw [(ffld i).2.1, (ffld i).2.2.1]

end Skiplist

namespace Skiplist

/-- Removing the node after the last node of chA (the head hd2 when chA is
empty): if the only changed level-lvl pointer is the bypass write, the
chain loses exactly that node. -/
theorem Seg_remove_middle (aPre a3 : List Node) (lvl : Nat) (hd2 j : Nat)
    (chA chB : List Nat)
    (hnodup : (hd2 :: (chA ++ j :: chB)).Nodup)
    (hSeg : Seg aPre lvl (nextAt aPre hd2 lvl) (chA ++ j :: chB) none)
    (hw_pl : nextAt a3 (chA.getLastD hd2) lvl = nextAt aPre j lvl)
    (hunch : ∀ x, x ≠ chA.getLastD hd2 → nextAt a3 x lvl = nextAt aPre x lvl) :
    Seg a3 lvl (nextAt a3 hd2 lvl) (chA ++ chB) none := by
  have hhd_nAB : hd2 ∉ chA ++ j :: chB := (List.nodup_cons.1 hnodup).1
  have hABnd : (chA ++ j :: chB).Nodup := (List.nodup_cons.1 hnodup).2
  have hdisj : ∀ y ∈ chA, y ∉ j :: chB := by
    intro y hy hyB
    exact (List.disjoint_of_nodup_append hABnd) hy hyB
  rcases List.eq_nil_or_concat chA with hA | ⟨u, x, hA⟩
  · subst hA
    rw [List.nil_append] at hSeg hhd_nAB ⊢
    have hpl : (([] : List Nat)).getLastD hd2 = hd2 := rfl
    rw [hpl] at hw_pl hunch
    rw [hw_pl]
    refine Seg_congr ?_ hSeg.2
    intro i hi
    refine hunch i ?_
    exact fun he => hhd_nAB (he ▸ List.mem_cons_of_mem _ hi)
  · subst hA
    simp only [List.concat_eq_append] at hnodup hSeg hw_pl hunch hhd_nAB hABnd hdisj ⊢
    have hpl : ((u ++ [x])).getLastD hd2 = x := getLastD_concat u x hd2
    rw [hpl] at hw_pl hunch
    have hxu : x ∉ u := by
      have := (List.disjoint_of_nodup_append ((List.nodup_append.1 hABnd).1))
      intro hxu
      exact this hxu (List.mem_cons_self _ _)
    have hxB : x ∉ chB := by
      intro hxB
      exact hdisj x (List.mem_append.2 (Or.inr (List.mem_cons_self _ _)))
        (List.mem_cons_of_mem _ hxB)
    have hxhd : hd2 ≠ x := by
      intro he
      exact hhd_nAB (List.mem_append.2 (Or.inl (List.mem_append.2
        (Or.inr (he ▸ List.mem_cons_self _ _)))))
    rw [List.append_assoc] at hSeg
    obtain ⟨m2, hSegU, hSegX⟩ := Seg_append.1 hSeg
    obtain ⟨hm2, hSegTail⟩ := hSegX
    have hstart : nextAt a3 hd2 lvl = nextAt aPre hd2 lvl := hunch hd2 hxhd
    rw [List.append_assoc]
    refine Seg_append.2 ⟨some x, ?_, ?_⟩
    · rw [hstart, ← hm2]
      refine Seg_congr ?_ hSegU
      intro i hi
      refine hunch i ?_
      intro he
      exact hxu (he ▸ hi)
    · refine ⟨rfl, ?_⟩
      show Seg a3 lvl (nextAt a3 x lvl) chB none
      rw [hw_pl]
      refine Seg_congr ?_ hSegTail.2
      intro i hi
      refine hunch i ?_
      intro he
      exact hxB (he ▸ hi)

/-- Pointwise effect of the one-node unlink loop of delete:
DO(doomed->h, prevs[i]->next[i] = doomed->next[i]). -/
theorem delete_fold_facts (a : List Node) (pl : List Nat) (j : Nat) (m : Nat)
    (hpl_lt : ∀ i, i < m → pl.getD i 0 < a.length)
    (hpl_ne : ∀ i, i < m → pl.getD i 0 ≠ j)
    (hpl_len : ∀ i, i < m → i < (nodeAt a (pl.getD i 0)).next.length) :
    ((List.range m).foldl (fun acc i => updNext acc (pl.getD i 0) i (nextAt acc j i)) a).length
        = a.length ∧
    (∀ x, hAt ((List.range m).foldl
          (fun acc i => updNext acc (pl.getD i 0) i (nextAt acc j i)) a) x = hAt a x ∧
        keyAt ((List.range m).foldl
          (fun acc i => updNext acc (pl.getD i 0) i (nextAt acc j i)) a) x = keyAt a x ∧
        valAt ((List.range m).foldl
          (fun acc i => updNext acc (pl.getD i 0) i (nextAt acc j i)) a) x = valAt a x ∧
        (nodeAt ((List.range m).foldl
          (fun acc i => updNext acc (pl.getD i 0) i (nextAt acc j i)) a) x).next.length
          = (nodeAt a x).next.length) ∧
    (∀ l x, m ≤ l → nextAt ((List.range m).foldl
        (fun acc i => updNext acc (pl.getD i 0) i (nextAt acc j i)) a) x l = nextAt a x l) ∧
    (∀ l x, l < m → x ≠ pl.getD l 0 → nextAt ((List.range m).foldl
        (fun acc i => updNext acc (pl.getD i 0) i (nextAt acc j i)) a) x l = nextAt a x l) ∧
    (∀ l, l < m → nextAt ((List.range m).foldl
        (fun acc i => updNext acc (pl.getD i 0) i (nextAt acc j i)) a) (pl.getD l 0) l
        = nextAt a j l) := by
  induction m with
  | zero =>
    refine ⟨rfl, fun x => ⟨rfl, rfl, rfl, rfl⟩, fun l x _ => rfl, ?_, ?_⟩
    · intro l x h
      omega
    · intro l h
      omega
  | succ m ih =>
    obtain ⟨ihlen, ihfld, ihhi, ihoth, ihpl⟩ :=
      ih (fun i hi => hpl_lt i (by omega)) (fun i hi => hpl_ne i (by omega))
        (fun i hi => hpl_len i (by omega))
    rw [List.range_succ, List.foldl_append, List.foldl_cons, List.foldl_nil]
    have hread : nextAt ((List.range m).foldl
        (fun acc i => updNext acc (pl.getD i 0) i (nextAt acc j i)) a) j m = nextAt a j m :=
      ihhi m j (le_refl m)
    rw [hread]
    refine ⟨?_, ?_, ?_, ?_, ?_⟩
    · rw [length_updNext, ihlen]
    · intro x
      rw [hAt_updNext, keyAt_updNext, valAt_updNext, nextLen_updNext]
      exact ihfld x
    · intro l x hl
      rw [nextAt_updNext_ne (Or.inr (by omega))]
      exact ihhi l x (by omega)
    · intro l x hl hx
      by_cases hlm : l = m
      · subst hlm
        rw [nextAt_updNext_ne (Or.inl hx)]
        exact ihhi l x (le_refl l)
      · rw [nextAt_updNext_ne (Or.inr hlm)]
        exact ihoth l x (by omega) hx
    · intro l hl
      by_cases hlm : l = m
      · subst hlm
        rw [nextAt_updNext_self (by rw [ihlen]; exact hpl_lt l (by omega))
          (by rw [(ihfld (pl.getD l 0)).2.2.2]; exact hpl_len l (by omega))]
      · rw [nextAt_updNext_ne (Or.inr (by omega))]
        exact ihpl l (by omega)

end Skiplist

namespace Skiplist

set_option maxHeartbeats 1000000

/-- delete/delete_all when no node carries the key: NULL, no change. -/
theorem delete_notfound (has_cb : Bool) (k : Int) (st : SLR) (L : List Nat)
    (hWf : Wf st L)
    (hnf : ∀ j, (L.dropWhile (fun i => decide (keyAt st.arena i < k))).head? = some j →
      keyAt st.arena j ≠ k) :
    delete_one_or_all has_cb k st = some (0, [], st) := by
  have hget0 : (prevSpecList st.arena st.headIdx
      (L.takeWhile (fun i => decide (keyAt st.arena i < k))) (headH st - 1)).getD 0 0
      = prevSpec st.arena st.headIdx
        (L.takeWhile (fun i => decide (keyAt st.arena i < k))) 0 :=
    prevSpecList_getD (by omega)
  have hnext0 := next0_of_prevs hWf k
  rw [hget0] at hnext0
  unfold delete_one_or_all
  rw [init_prevs_spec hWf k]
  simp only [hget0, hnext0]
  cases hB : (L.dropWhile (fun i => decide (keyAt st.arena i < k))).head? with
  | none => rfl
  | some j =>
    have hne : cmpI (keyAt st.arena j) k ≠ 0 := by
      intro hc
      exact hnf j hB (cmpI_eq_iff.1 hc)
    simp only [if_neg hne]

/-- skiplist_delete when the key is present: the FIRST node of the
equal-key run in level-0 order is unlinked from every level it
participates in; its value is returned and count drops by one.  Every
other node is untouched. -/
theorem delete_one_found (k : Int) (st : SLR) (L A B B2 : List Nat) (j : Nat)
    (hWf : Wf st L)
    (hAeq : A = L.takeWhile (fun i => decide (keyAt st.arena i < k)))
    (hBeq : B = L.dropWhile (fun i => decide (keyAt st.arena i < k)))
    (hB : B = j :: B2) (hkey : keyAt st.arena j = k) :
    ∃ st2, delete_one_or_all false k st = some (valAt st.arena j, [], st2) ∧
      Wf st2 (A ++ B2) ∧ st2.headIdx = st.headIdx ∧ st2.count = st.count - 1 ∧
      st2.rngIdx = st.rngIdx ∧ headH st2 = headH st ∧
      entriesOf st2.arena (A ++ B2) = entriesOf st.arena A ++ entriesOf st.arena B2 := by
  have hLAB : L = A ++ B := by
    rw [hAeq, hBeq]
    exact (List.takeWhile_append_dropWhile _ _).symm
  subst hB
  have hAsub : ∀ i ∈ A, i ∈ L := by
    intro i hi; rw [hLAB]; exact List.mem_append.2 (Or.inl hi)
  have hjL : j ∈ L := by
    rw [hLAB]; exact List.mem_append.2 (Or.inr (List.mem_cons_self _ _))
  have hB2sub : ∀ i ∈ B2, i ∈ L := by
    intro i hi; rw [hLAB]; exact List.mem_append.2 (Or.inr (List.mem_cons_of_mem _ hi))
  have hABsub : ∀ i ∈ A ++ B2, i ∈ L := by
    intro i hi
    rcases List.mem_append.1 hi with hi | hi
    · exact hAsub i hi
    · exact hB2sub i hi
  have hndL : L.Nodup := hWf.nodup
  have hndAB : (A ++ (j :: B2)).Nodup := by rw [← hLAB]; exact hndL
  have hjA : j ∉ A := by
    intro hmem
    exact (List.disjoint_of_nodup_append hndAB) hmem (List.mem_cons_self _ _)
  have hndAB2 : (A ++ B2).Nodup :=
    hndAB.sublist (List.Sublist.append_left (List.sublist_cons_self j B2) A)
  have hh1 : 1 ≤ headH st := hWf.head_pos
  have hm : hAt st.arena j ≤ headH st := hWf.h_le j hjL
  have hgetD : ∀ lvl, lvl < headH st →
      (prevSpecList st.arena st.headIdx A (headH st - 1)).getD lvl 0
        = prevSpec st.arena st.headIdx A lvl := by
    intro lvl hlvl
    exact prevSpecList_getD (by omega)
  have hnext0 : nextAt st.arena (prevSpec st.arena st.headIdx A 0) 0
      = some j := by
    have h0 := next0_of_prevs hWf k
    rw [← hAeq, ← hBeq, prevSpecList_getD (by omega)] at h0
    exact h0
  have hc : cmpI (keyAt st.arena j) k = 0 := cmpI_eq_iff.2 hkey
  have hpl_ne : ∀ i, i < hAt st.arena j →
      (prevSpecList st.arena st.headIdx A (headH st - 1)).getD i 0 ≠ j := by
    intro i hi
    rw [hgetD i (by omega)]
    rcases prevSpec_cases st.arena st.headIdx A i with h | h
    · rw [h]
      exact fun he => hWf.ne_head j hjL he.symm
    · intro he
      exact hjA (he ▸ (mem_levelChain.1 h).1)
  obtain ⟨flen, ffld, fhi, foth, fpl⟩ :=
    delete_fold_facts st.arena (prevSpecList st.arena st.headIdx A (headH st - 1)) j
      (hAt st.arena j)
      (fun i hi => by
        rw [hgetD i (by omega)]
        exact prevSpec_lt hWf hAsub i)
      hpl_ne
      (fun i hi => by
        rw [hgetD i (by omega)]
        exact prevSpec_nextlen hWf hAsub (by omega))
  have hchains2 : ∀ lvl, lvl < headH st →
      Seg st.arena lvl (nextAt st.arena st.headIdx lvl)
        (levelChain st.arena A lvl ++ levelChain st.arena (j :: B2) lvl) none := by
    intro lvl hlvl
    rw [← levelChain_append, ← hLAB]
    exact hWf.chains lvl hlvl
  refine ⟨(⟨(List.range (hAt st.arena j)).foldl
      (fun acc i => updNext acc
        ((prevSpecList st.arena st.headIdx A (headH st - 1)).getD i 0) i
        (nextAt acc j i)) st.arena,
    st.headIdx, st.count - 1, st.rngIdx⟩ : SLR), ?_, ?_, rfl, rfl, rfl, ?_, ?_⟩
  · unfold delete_one_or_all
    rw [init_prevs_spec hWf k, ← hAeq]
    simp only [hgetD 0 hh1, hnext0, hc]
    rfl
  case refine_3 =>
    show hAt _ st.headIdx = hAt st.arena st.headIdx
    exact (ffld st.headIdx).1
  case refine_2 =>
    refine ⟨?_, ?_, ?_, ?_, ?_, ?_, ?_, ?_, ?_, ?_, ?_, ?_⟩
    · show st.headIdx < _
      rw [flen]
      exact hWf.head_lt
    · show 1 ≤ hAt _ st.headIdx
      rw [(ffld st.headIdx).1]
      exact hh1
    · show (nodeAt _ st.headIdx).next.length = hAt _ st.headIdx
      rw [(ffld st.headIdx).1, (ffld st.headIdx).2.2.2]
      exact hWf.head_len
    · intro i hi
      show i < _
      rw [flen]
      exact hWf.mem_lt i (hABsub i hi)
    · intro i hi
      exact hWf.ne_head i (hABsub i hi)
    · exact hndAB2
    · intro i hi
      rw [(ffld i).1]
      exact hWf.h_pos i (hABsub i hi)
    · intro i hi
      show hAt _ i ≤ hAt _ st.headIdx
      rw [(ffld i).1, (ffld st.headIdx).1]
      exact hWf.h_le i (hABsub i hi)
    · intro i hi
      rw [(ffld i).2.2.2, (ffld i).1]
      exact hWf.next_len i (hABsub i hi)
    · show ((A ++ B2).map (keyAt _)).Sorted (· ≤ ·)
      have hkeq : ∀ i ∈ A ++ B2, keyAt ((List.range (hAt st.arena j)).foldl
          (fun acc i => updNext acc
            ((prevSpecList st.arena st.headIdx A (headH st - 1)).getD i 0) i
            (nextAt acc j i)) st.arena) i = keyAt st.arena i := fun i _ => (ffld i).2.1
      rw [List.map_congr_left hkeq]
      refine hWf.sorted.sublist ?_
      refine List.Sublist.map _ ?_
      rw [hLAB]
      exact List.Sublist.append_left (List.sublist_cons_self j B2) A
    · intro lvl hlvl
      have hlvl2 : lvl < headH st := by
        show lvl < hAt st.arena st.headIdx
        rw [← (ffld st.headIdx).1]
        exact hlvl
      have hch := hchains2 lvl hlvl2
      have hcons : levelChain st.arena (j :: B2) lvl
          = if lvl < hAt st.arena j then j :: levelChain st.arena B2 lvl
            else levelChain st.arena B2 lvl := by
        unfold levelChain
        rw [List.filter_cons]
        by_cases hcnd : lvl < hAt st.arena j
        · rw [if_pos (by simpa using hcnd), if_pos hcnd]
        · rw [if_neg (by simpa using hcnd), if_neg hcnd]
      show Seg _ lvl (nextAt _ st.headIdx lvl) (levelChain _ (A ++ B2) lvl) none
      rw [levelChain_congr (fun i _ => (ffld i).1), levelChain_append]
      by_cases hlt : lvl < hAt st.arena j
      · rw [hcons, if_pos hlt] at hch
        have hnd2 : (st.headIdx :: (levelChain st.arena A lvl
            ++ j :: levelChain st.arena B2 lvl)).Nodup := by
          have h0 := chain_nodup hWf L (List.Sublist.refl L) lvl
          rw [hLAB, levelChain_append, hcons, if_pos hlt] at h0
          exact h0
        refine Seg_remove_middle st.arena _ lvl st.headIdx j
          (levelChain st.arena A lvl) (levelChain st.arena B2 lvl) hnd2 hch ?_ ?_
        · have h5 := fpl lvl hlt
          rw [hgetD lvl hlvl2] at h5
          exact h5
        · intro x hx
          refine foth lvl x hlt ?_
          rw [hgetD lvl hlvl2]
          exact hx
      · rw [hcons, if_neg hlt] at hch
        rw [fhi lvl st.headIdx (by omega)]
        exact Seg_congr (fun i _ => fhi lvl i (by omega)) hch
    · show st.count - 1 = (A ++ B2).length
      rw [hWf.count_eq, hLAB]
      simp only [List.length_append, List.length_cons]
      omega
  case refine_4 =>
    unfold entriesOf
    rw [List.map_append]
    congr 1
    · refine List.map_congr_left ?_
      intro i hi
      rw [(ffld i).2.1, (ffld i).2.2.1]
    · refine List.map_congr_left ?_
      intro i hi
      rw [(ffld i).2.1, (ffld i).2.2.1]

end Skiplist

namespace Skiplist

/-- A nonempty segment ends at the next pointer of its last node. -/
theorem Seg_last {a : List Node} {lvl : Nat} {c : List Nat} {p q : Ptr}
    (h : Seg a lvl p c q) (hne : c ≠ []) : q = nextAt a (c.getLastD 0) lvl := by
  induction c generalizing p with
  | nil => exact absurd rfl hne
  | cons x t ih =>
    obtain ⟨he, ht⟩ := h
    cases t with
    | nil => exact ht.symm
    | cons y u =>
      rw [List.getLastD_cons, getLastD_irrel (List.cons_ne_nil y u) x 0]
      exact ih ht (List.cons_ne_nil y u)

/-- The head of a dropWhile does not satisfy the predicate. -/
theorem head_dropWhile_not (p : Nat → Bool) (l : List Nat) :
    ∀ j, (l.dropWhile p).head? = some j → p j = false := by
  induction l with
  | nil =>
    intro j hj
    exact Option.noConfusion hj
  | cons x t ih =>
    intro j hj
    rw [List.dropWhile_cons] at hj
    by_cases hp : p x = true
    · rw [if_pos hp] at hj
      exact ih j hj
    · rw [if_neg hp] at hj
      cases hj
      exact Bool.eq_false_iff.2 hp

/-- Removing a whole nonempty run after chA (after the head hd2 when chA is
empty): if the only changed level-lvl pointer is the bypass write, the
chain loses exactly the run. -/
theorem Seg_remove_run (aPre a3 : List Node) (lvl hd2 : Nat) (chA chD chB : List Nat)
    (hDne : chD ≠ [])
    (hnodup : (hd2 :: (chA ++ (chD ++ chB))).Nodup)
    (hSeg : Seg aPre lvl (nextAt aPre hd2 lvl) (chA ++ (chD ++ chB)) none)
    (hw_pl : nextAt a3 (chA.getLastD hd2) lvl = nextAt aPre (chD.getLastD 0) lvl)
    (hunch : ∀ x, x ≠ chA.getLastD hd2 → nextAt a3 x lvl = nextAt aPre x lvl) :
    Seg a3 lvl (nextAt a3 hd2 lvl) (chA ++ chB) none := by
  have hhd_nAB : hd2 ∉ chA ++ (chD ++ chB) := (List.nodup_cons.1 hnodup).1
  have hABnd : (chA ++ (chD ++ chB)).Nodup := (List.nodup_cons.1 hnodup).2
  obtain ⟨m1, SegA, SegDB⟩ := Seg_append.1 hSeg
  obtain ⟨m2, SegD, SegB⟩ := Seg_append.1 SegDB
  have hm2 : m2 = nextAt aPre (chD.getLastD 0) lvl := Seg_last SegD hDne
  have hBsubs : ∀ i ∈ chB, i ∈ chA ++ (chD ++ chB) := by
    intro i hi
    exact List.mem_append.2 (Or.inr (List.mem_append.2 (Or.inr hi)))
  rcases List.eq_nil_or_concat chA with hA | ⟨u, x, hA⟩
  · subst hA
    rw [List.nil_append] at hhd_nAB ⊢
    have hpl : (([] : List Nat)).getLastD hd2 = hd2 := rfl
    rw [hpl] at hw_pl hunch
    rw [hw_pl, ← hm2]
    refine Seg_congr ?_ SegB
    intro i hi
    refine hunch i ?_
    intro he
    exact hhd_nAB (he ▸ List.mem_append.2 (Or.inr hi))
  · subst hA
    simp only [List.concat_eq_append] at hnodup hSeg hw_pl hunch hhd_nAB hABnd SegA hBsubs ⊢
    have hpl : ((u ++ [x])).getLastD hd2 = x := getLastD_concat u x hd2
    rw [hpl] at hw_pl hunch
    have hndx : (u ++ [x]).Nodup := (List.nodup_append.1 hABnd).1
    have hxu : x ∉ u := by
      have := List.disjoint_of_nodup_append hndx
      intro hxu
      exact this hxu (List.mem_cons_self _ _)
    have hxB : x ∉ chD ++ chB := by
      intro hxB
      exact (List.disjoint_of_nodup_append hABnd)
        (List.mem_append.2 (Or.inr (List.mem_cons_self _ _))) hxB
    have hxhd : hd2 ≠ x := by
      intro he
      exact hhd_nAB (List.mem_append.2 (Or.inl (List.mem_append.2
        (Or.inr (he ▸ List.mem_cons_self _ _)))))
    have hstart : nextAt a3 hd2 lvl = nextAt aPre hd2 lvl := hunch hd2 hxhd
    rw [List.append_assoc]
    obtain ⟨m0, SegU, SegX⟩ := Seg_append.1 SegA
    obtain ⟨hm0, hxnext⟩ := SegX
    refine Seg_append.2 ⟨some x, ?_, ?_⟩
    · rw [hstart, ← hm0]
      refine Seg_congr ?_ SegU
      intro i hi
      refine hunch i ?_
      intro he
      exact hxu (he ▸ hi)
    · refine ⟨rfl, ?_⟩
      show Seg a3 lvl (nextAt a3 x lvl) chB none
      rw [hw_pl, ← hm2]
      refine Seg_congr ?_ SegB
      intro i hi
      refine hunch i ?_
      intro he
      exact hxB (he ▸ List.mem_append.2 (Or.inr hi))

/-- Pointwise effect of the frontier update of the delete-all loop:
DO(doomed->h, nexts[i] = doomed->next[i]). -/
theorem set_fold_facts (a : List Node) (d : Nat) (nexts : List Ptr) (m : Nat) :
    ((List.range m).foldl (fun acc i => acc.set i (nextAt a d i)) nexts).length
        = nexts.length ∧
    (∀ i, m ≤ i →
      ((List.range m).foldl (fun acc i => acc.set i (nextAt a d i)) nexts).getD i none
        = nexts.getD i none) ∧
    (∀ i, i < m → i < nexts.length →
      ((List.range m).foldl (fun acc i => acc.set i (nextAt a d i)) nexts).getD i none
        = nextAt a d i) := by
  induction m with
  | zero =>
    refine ⟨rfl, fun i _ => rfl, ?_⟩
    intro i h
    omega
  | succ m ih =>
    obtain ⟨ihlen, ihhi, ihlo⟩ := ih
    rw [List.range_succ, List.foldl_append, List.foldl_cons, List.foldl_nil]
    refine ⟨?_, ?_, ?_⟩
    · rw [List.length_set, ihlen]
    · intro i hi
      rw [List.getD_eq_getElem?_getD, List.getElem?_set_ne (by omega),
        ← List.getD_eq_getElem?_getD]
      exact ihhi i (by omega)
    · intro i hi hilen
      by_cases him : i = m
      · subst him
        rw [List.getD_eq_getElem?_getD, List.getElem?_set_self (by rw [ihlen]; exact hilen)]
        rfl
      · rw [List.getD_eq_getElem?_getD, List.getElem?_set_ne (fun he => him he.symm),
          ← List.getD_eq_getElem?_getD]
        exact ihlo i (by omega) hilen

/-- Pointwise effect of the relink loop of delete-all:
DO(tdh, prevs[i]->next[i] = nexts[i]). -/
theorem relink_fold_facts (a : List Node) (pl : List Nat) (nexts : List Ptr) (m : Nat)
    (hpl_lt : ∀ i, i < m → pl.getD i 0 < a.length)
    (hpl_len : ∀ i, i < m → i < (nodeAt a (pl.getD i 0)).next.length) :
    ((List.range m).foldl
        (fun acc i => updNext acc (pl.getD i 0) i (nexts.getD i none)) a).length
        = a.length ∧
    (∀ x, hAt ((List.range m).foldl
          (fun acc i => updNext acc (pl.getD i 0) i (nexts.getD i none)) a) x = hAt a x ∧
        keyAt ((List.range m).foldl
          (fun acc i => updNext acc (pl.getD i 0) i (nexts.getD i none)) a) x = keyAt a x ∧
        valAt ((List.range m).foldl
          (fun acc i => updNext acc (pl.getD i 0) i (nexts.getD i none)) a) x = valAt a x ∧
        (nodeAt ((List.range m).foldl
          (fun acc i => updNext acc (pl.getD i 0) i (nexts.getD i none)) a) x).next.length
          = (nodeAt a x).next.length) ∧
    (∀ l x, m ≤ l → nextAt ((List.range m).foldl
        (fun acc i => updNext acc (pl.getD i 0) i (nexts.getD i none)) a) x l
        = nextAt a x l) ∧
    (∀ l x, l < m → x ≠ pl.getD l 0 → nextAt ((List.range m).foldl
        (fun acc i => updNext acc (pl.getD i 0) i (nexts.getD i none)) a) x l
        = nextAt a x l) ∧
    (∀ l, l < m → nextAt ((List.range m).foldl
        (fun acc i => updNext acc (pl.getD i 0) i (nexts.getD i none)) a) (pl.getD l 0) l
        = nexts.getD l none) := by
  induction m with
  | zero =>
    refine ⟨rfl, fun x => ⟨rfl, rfl, rfl, rfl⟩, fun l x _ => rfl, ?_, ?_⟩
    · intro l x h
      omega
    · intro l h
      omega
  | succ m ih =>
    obtain ⟨ihlen, ihfld, ihhi, ihoth, ihpl⟩ :=
      ih (fun i hi => hpl_lt i (by omega)) (fun i hi => hpl_len i (by omega))
    rw [List.range_succ, List.foldl_append, List.foldl_cons, List.foldl_nil]
    refine ⟨?_, ?_, ?_, ?_, ?_⟩
    · rw [length_updNext, ihlen]
    · intro x
      rw [hAt_updNext, keyAt_updNext, valAt_updNext, nextLen_updNext]
      exact ihfld x
    · intro l x hl
      rw [nextAt_updNext_ne (Or.inr (by omega))]
      exact ihhi l x (by omega)
    · intro l x hl hx
      by_cases hlm : l = m
      · subst hlm
        rw [nextAt_updNext_ne (Or.inl hx)]
        exact ihhi l x (le_refl l)
      · rw [nextAt_updNext_ne (Or.inr hlm)]
        exact ihoth l x (by omega) hx
    · intro l hl
      by_cases hlm : l = m
      · subst hlm
        rw [nextAt_updNext_self (by rw [ihlen]; exact hpl_lt l (by omega))
          (by rw [(ihfld (pl.getD l 0)).2.2.2]; exact hpl_len l (by omega))]
      · rw [nextAt_updNext_ne (Or.inr (by omega))]
        exact ihpl l (by omega)

end Skiplist

namespace Skiplist

set_option maxHeartbeats 1600000

/-- Loop of the delete-all branch: walking the doomed run d :: D (all keys
equal to k, followed at level 0 by B2 whose head does not match) counts
down, records the visits in order, maintains the frontier nexts and the
tallest doomed height. -/
theorem delete_all_go_spec (a : List Node) (k : Int) :
    ∀ (D : List Nat) (d : Nat) (B2 : List Nat) (fuel : Nat) (nexts : List Ptr)
      (tdh count : Nat) (visited : List (Int × Nat)),
    D.length + 1 ≤ fuel →
    Seg a 0 (some d) (d :: (D ++ B2)) none →
    keyAt a d = k →
    (∀ i ∈ D, keyAt a i = k) →
    (∀ j2, B2.head? = some j2 → keyAt a j2 ≠ k) →
    (∀ i ∈ d :: D, hAt a i ≤ nexts.length) →
    ∃ nextsF tdhF,
      delete_all_go a k fuel d nexts tdh count visited
        = some (nextsF, tdhF, count - (D.length + 1),
            visited ++ (d :: D).map (fun i => (k, valAt a i))) ∧
      nextsF.length = nexts.length ∧
      (∀ i, nextsF.getD i none
        = if levelChain a (d :: D) i = [] then nexts.getD i none
          else nextAt a ((levelChain a (d :: D) i).getLastD 0) i) ∧
      (∀ lvl, lvl < tdhF ↔ (lvl < tdh ∨ levelChain a (d :: D) lvl ≠ [])) := by
  intro D
  induction D with
  | nil =>
    intro d B2 fuel nexts tdh count visited hfuel hSeg hkd hkD hkB2 hhts
    obtain ⟨f, rfl⟩ : ∃ f, fuel = f + 1 := ⟨fuel - 1, by omega⟩
    obtain ⟨slen, shi, slo⟩ := set_fold_facts a d nexts (hAt a d)
    have hnext : nextAt a d 0 = B2.head? := by
      have h2 := hSeg.2
      rw [List.nil_append] at h2
      cases B2 with
      | nil => exact h2
      | cons x t => exact h2.1
    have hcons : ∀ lvl, levelChain a [d] lvl
        = if lvl < hAt a d then [d] else [] := by
      intro lvl
      unfold levelChain
      rw [List.filter_cons]
      by_cases hc : lvl < hAt a d
      · rw [if_pos (by simpa using hc), if_pos hc]
        rfl
      · rw [if_neg (by simpa using hc), if_neg hc]
        rfl
    have hgd : ∀ i, ((List.range (hAt a d)).foldl
          (fun acc i => acc.set i (nextAt a d i)) nexts).getD i none
        = if levelChain a [d] i = [] then nexts.getD i none
          else nextAt a ((levelChain a [d] i).getLastD 0) i := by
      intro i
      rw [hcons i]
      by_cases hc : i < hAt a d
      · rw [if_pos hc, if_neg (by simp)]
        show _ = nextAt a (([d] : List Nat).getLastD 0) i
        rw [slo i hc (lt_of_lt_of_le hc (hhts d (List.mem_cons_self _ _)))]
        rfl
      · rw [if_neg hc, if_pos rfl]
        exact shi i (by omega)
    have htd : ∀ lvl, lvl < max tdh (hAt a d) ↔
        (lvl < tdh ∨ levelChain a [d] lvl ≠ []) := by
      intro lvl
      rw [hcons lvl]
      by_cases hc : lvl < hAt a d
      · rw [if_pos hc]
        constructor
        · intro _
          exact Or.inr (by simp)
        · intro _
          omega
      · rw [if_neg hc]
        constructor
        · intro h
          exact Or.inl (by omega)
        · intro h
          rcases h with h | h
          · omega
          · exact absurd rfl h
    refine ⟨_, _, ?_, slen, hgd, htd⟩
    show delete_all_go a k (f + 1) d nexts tdh count visited = _
    simp only [delete_all_go, hnext]
    cases hB : B2.head? with
    | none => rfl
    | some j2 =>
      have hne : cmpI (keyAt a j2) k ≠ 0 := by
        intro hc
        exact hkB2 j2 hB (cmpI_eq_iff.1 hc)
      simp only [if_neg hne]
      rfl
  | cons y D2 ih =>
    intro d B2 fuel nexts tdh count visited hfuel hSeg hkd hkD hkB2 hhts
    obtain ⟨f, rfl⟩ : ∃ f, fuel = f + 1 := ⟨fuel - 1, by omega⟩
    obtain ⟨slen, shi, slo⟩ := set_fold_facts a d nexts (hAt a d)
    have hSeg2 := hSeg.2
    rw [List.cons_append] at hSeg2
    have hnext : nextAt a d 0 = some y := hSeg2.1
    have hcy : cmpI (keyAt a y) k = 0 :=
      cmpI_eq_iff.2 (hkD y (List.mem_cons_self _ _))
    obtain ⟨nextsF, tdhF, heq, hlenF, hgdF, htdF⟩ :=
      ih y B2 f ((List.range (hAt a d)).foldl (fun acc i => acc.set i (nextAt a d i)) nexts)
        (max tdh (hAt a d)) (count - 1) (visited ++ [(k, valAt a d)])
        (by simp at hfuel ⊢; omega)
        ⟨rfl, hSeg2.2⟩
        (hkD y (List.mem_cons_self _ _))
        (fun i hi => hkD i (List.mem_cons_of_mem _ hi))
        hkB2
        (fun i hi => by
          rw [slen]
          exact hhts i (List.mem_cons_of_mem _ hi))
    have hconsD : ∀ lvl, levelChain a (d :: y :: D2) lvl
        = if lvl < hAt a d then d :: levelChain a (y :: D2) lvl
          else levelChain a (y :: D2) lvl := by
      intro lvl
      unfold levelChain
      rw [List.filter_cons]
      by_cases hc : lvl < hAt a d
      · rw [if_pos (by simpa using hc), if_pos hc]
      · rw [if_neg (by simpa using hc), if_neg hc]
    refine ⟨nextsF, tdhF, ?_, by rw [hlenF, slen], ?_, ?_⟩
    · show delete_all_go a k (f + 1) d nexts tdh count visited = _
      simp only [delete_all_go, hnext, hcy, if_pos]
      rw [heq]
      have h1 : count - 1 - (D2.length + 1) = count - ((y :: D2).length + 1) := by
        simp only [List.length_cons]
        omega
      rw [h1, List.append_assoc]
      rfl
    · intro i
      rw [hgdF i, hconsD i]
      by_cases hc2 : levelChain a (y :: D2) i = []
      · rw [if_pos hc2]
        by_cases hc : i < hAt a d
        · rw [if_pos hc, if_neg (by simp), hc2]
          show _ = nextAt a (([d] : List Nat).getLastD 0) i
          rw [slo i hc (lt_of_lt_of_le hc (hhts d (List.mem_cons_self _ _)))]
          rfl
        · rw [if_neg hc, hc2, if_pos rfl]
          exact shi i (by omega)
      · rw [if_neg hc2]
        by_cases hc : i < hAt a d
        · rw [if_pos hc, if_neg (by simp)]
          congr 1
          rw [List.getLastD_cons]
          exact (getLastD_irrel hc2 d 0).symm ▸ rfl
        · rw [if_neg hc, if_neg hc2]
    · intro lvl
      rw [htdF lvl, hconsD lvl]
      by_cases hc : lvl < hAt a d
      · rw [if_pos hc]
        constructor
        · intro _
          exact Or.inr (by simp)
        · intro _
          by_cases hc2 : levelChain a (y :: D2) lvl = []
          · exact Or.inl (by omega)
          · exact Or.inr hc2
      · rw [if_neg hc]
        constructor
        · intro h
          rcases h with h | h
          · exact Or.inl (by omega)
          · exact Or.inr h
        · intro h
          rcases h with h | h
          · exact Or.inl (by omega)
          · exact Or.inr h

end Skiplist

namespace Skiplist

set_option maxHeartbeats 1600000

/-- skiplist_delete_all when the key is present: the whole equal-key run
(a contiguous block in level-0 order, headed by j) is unlinked, the
visitor sees its values in level-0 order, and count drops by the run
length.  Every other node is untouched. -/
theorem delete_all_found (k : Int) (st : SLR) (L A B2 D B3 : List Nat) (j : Nat)
    (hWf : Wf st L)
    (hAeq : A = L.takeWhile (fun i => decide (keyAt st.arena i < k)))
    (hBeq : j :: B2 = L.dropWhile (fun i => decide (keyAt st.arena i < k)))
    (hDeq : D = B2.takeWhile (fun i => decide (keyAt st.arena i = k)))
    (hB3eq : B3 = B2.dropWhile (fun i => decide (keyAt st.arena i = k)))
    (hkey : keyAt st.arena j = k) :
    ∃ st2, delete_one_or_all true k st
        = some (0, (j :: D).map (fun i => (k, valAt st.arena i)), st2) ∧
      Wf st2 (A ++ B3) ∧ st2.headIdx = st.headIdx ∧
      st2.count = st.count - (D.length + 1) ∧
      st2.rngIdx = st.rngIdx ∧ headH st2 = headH st ∧
      entriesOf st2.arena (A ++ B3) = entriesOf st.arena A ++ entriesOf st.arena B3 := by
  have hB2split : B2 = D ++ B3 := by
    rw [hDeq, hB3eq]
    exact (List.takeWhile_append_dropWhile _ _).symm
  have hLAB : L = A ++ ((j :: D) ++ B3) := by
    rw [hAeq]
    conv_lhs => rw [← List.takeWhile_append_dropWhile
      (fun i => decide (keyAt st.arena i < k)) L]
    rw [← hBeq, hB2split]
    rfl
  have hAsub : ∀ i ∈ A, i ∈ L := by
    intro i hi; rw [hLAB]; exact List.mem_append.2 (Or.inl hi)
  have hjL : j ∈ L := by
    rw [hLAB]
    exact List.mem_append.2 (Or.inr (List.mem_append.2 (Or.inl (List.mem_cons_self _ _))))
  have hDsub : ∀ i ∈ j :: D, i ∈ L := by
    intro i hi
    rw [hLAB]
    exact List.mem_append.2 (Or.inr (List.mem_append.2 (Or.inl hi)))
  have hB3sub : ∀ i ∈ B3, i ∈ L := by
    intro i hi
    rw [hLAB]
    exact List.mem_append.2 (Or.inr (List.mem_append.2 (Or.inr hi)))
  have hABsub : ∀ i ∈ A ++ B3, i ∈ L := by
    intro i hi
    rcases List.mem_append.1 hi with hi | hi
    · exact hAsub i hi
    · exact hB3sub i hi
  have hkD : ∀ i ∈ D, keyAt st.arena i = k := by
    intro i hi
    rw [hDeq] at hi
    have h2 := List.mem_takeWhile_imp hi
    simpa using h2
  have hkB3 : ∀ j2, B3.head? = some j2 → keyAt st.arena j2 ≠ k := by
    intro j2 hj2
    rw [hB3eq] at hj2
    exact of_decide_eq_false (head_dropWhile_not _ B2 j2 hj2)
  have hndL : L.Nodup := hWf.nodup
  have hndAB3 : (A ++ B3).Nodup := by
    rw [hLAB] at hndL
    exact hndL.sublist (List.Sublist.append_left (List.sublist_append_right _ _) A)
  have hh1 : 1 ≤ headH st := hWf.head_pos
  have hLlen : L.length ≤ st.arena.length := length_le_of_nodup_lt hWf.nodup hWf.mem_lt
  have hDlen : D.length + 1 ≤ L.length := by
    have : List.Sublist (j :: D) L := by
      rw [hLAB]
      refine List.Sublist.trans ?_ (List.sublist_append_right A _)
      exact (List.sublist_append_left _ _)
    have h2 := this.length_le
    simp only [List.length_cons] at h2
    omega
  have hgetD : ∀ lvl, lvl < headH st →
      (prevSpecList st.arena st.headIdx A (headH st - 1)).getD lvl 0
        = prevSpec st.arena st.headIdx A lvl := by
    intro lvl hlvl
    exact prevSpecList_getD (by omega)
  have hnext0 : nextAt st.arena (prevSpec st.arena st.headIdx A 0) 0
      = some j := by
    have h0 := next0_of_prevs hWf k
    rw [← hAeq, ← hBeq, prevSpecList_getD (by omega)] at h0
    exact h0
  have hc : cmpI (keyAt st.arena j) k = 0 := cmpI_eq_iff.2 hkey
  have hch0 : Seg st.arena 0 (nextAt st.arena st.headIdx 0) (A ++ ((j :: D) ++ B3)) none := by
    have h0 := hWf.chains 0 hh1
    rw [levelChain_zero hWf.h_pos, hLAB] at h0
    exact h0
  obtain ⟨m1, hSegA, hSegJ0⟩ := Seg_append.1 hch0
  have hSegJ : Seg st.arena 0 (some j) (j :: (D ++ B3)) none := by
    refine ⟨rfl, ?_⟩
    have h2 := hSegJ0.2
    rw [List.cons_append] at hSegJ0
    exact hSegJ0.2
  obtain ⟨nextsF, tdhF, hgo, hlenF, hgdF, htdF⟩ :=
    delete_all_go_spec st.arena k D j B3 (opFuel st)
      (List.replicate (headH st) none) 0 st.count []
      (by
        unfold opFuel
        have h2 := hWf.head_lt
        nlinarith [hDlen, hLlen])
      hSegJ hkey hkD hkB3
      (fun i hi => by
        rw [List.length_replicate]
        exact hWf.h_le i (hDsub i hi))
  have htdF2 : ∀ lvl, lvl < tdhF ↔ levelChain st.arena (j :: D) lvl ≠ [] := by
    intro lvl
    rw [htdF lvl]
    constructor
    · intro h
      rcases h with h | h
      · omega
      · exact h
    · intro h
      exact Or.inr h
  have htdFle : ∀ lvl, lvl < tdhF → lvl < headH st := by
    intro lvl hl
    obtain ⟨x, hx⟩ := List.exists_mem_of_ne_nil _ ((htdF2 lvl).1 hl)
    have h1 := mem_levelChain.1 hx
    have h2 := hWf.h_le x (hDsub x h1.1)
    omega
  obtain ⟨flen, ffld, fhi, foth, fpl⟩ :=
    relink_fold_facts st.arena (prevSpecList st.arena st.headIdx A (headH st - 1))
      nextsF tdhF
      (fun i hi => by
        rw [hgetD i (htdFle i hi)]
        exact prevSpec_lt hWf hAsub i)
      (fun i hi => by
        rw [hgetD i (htdFle i hi)]
        exact prevSpec_nextlen hWf hAsub (htdFle i hi))
  refine ⟨(⟨(List.range tdhF).foldl
      (fun acc i => updNext acc
        ((prevSpecList st.arena st.headIdx A (headH st - 1)).getD i 0) i
        (nextsF.getD i none)) st.arena,
    st.headIdx, st.count - (D.length + 1), st.rngIdx⟩ : SLR), ?_, ?_, rfl, rfl, rfl, ?_, ?_⟩
  · unfold delete_one_or_all
    rw [init_prevs_spec hWf k, ← hAeq]
    simp only [hgetD 0 hh1, hnext0, hc, hgo]
    rfl
  case refine_3 =>
    show hAt _ st.headIdx = hAt st.arena st.headIdx
    exact (ffld st.headIdx).1
  case refine_2 =>
    refine ⟨?_, ?_, ?_, ?_, ?_, ?_, ?_, ?_, ?_, ?_, ?_, ?_⟩
    · show st.headIdx < _
      rw [flen]
      exact hWf.head_lt
    · show 1 ≤ hAt _ st.headIdx
      rw [(ffld st.headIdx).1]
      exact hh1
    · show (nodeAt _ st.headIdx).next.length = hAt _ st.headIdx
      rw [(ffld st.headIdx).1, (ffld st.headIdx).2.2.2]
      exact hWf.head_len
    · intro i hi
      show i < _
      rw [flen]
      exact hWf.mem_lt i (hABsub i hi)
    · intro i hi
      exact hWf.ne_head i (hABsub i hi)
    · exact hndAB3
    · intro i hi
      rw [(ffld i).1]
      exact hWf.h_pos i (hABsub i hi)
    · intro i hi
      show hAt _ i ≤ hAt _ st.headIdx
      rw [(ffld i).1, (ffld st.headIdx).1]
      exact hWf.h_le i (hABsub i hi)
    · intro i hi
      rw [(ffld i).2.2.2, (ffld i).1]
      exact hWf.next_len i (hABsub i hi)
    · show ((A ++ B3).map (keyAt _)).Sorted (· ≤ ·)
      have hkeq : ∀ i ∈ A ++ B3, keyAt ((List.range tdhF).foldl
          (fun acc i => updNext acc
            ((prevSpecList st.arena st.headIdx A (headH st - 1)).getD i 0) i
            (nextsF.getD i none)) st.arena) i = keyAt st.arena i := fun i _ => (ffld i).2.1
      rw [List.map_congr_left hkeq]
      refine hWf.sorted.sublist ?_
      refine List.Sublist.map _ ?_
      rw [hLAB]
      exact List.Sublist.append_left (List.sublist_append_right _ _) A
    · intro lvl hlvl
      have hlvl2 : lvl < headH st := by
        show lvl < hAt st.arena st.headIdx
        rw [← (ffld st.headIdx).1]
        exact hlvl
      have hch : Seg st.arena lvl (nextAt st.arena st.headIdx lvl)
          (levelChain st.arena A lvl ++
            (levelChain st.arena (j :: D) lvl ++ levelChain st.arena B3 lvl)) none := by
        have h0 := hWf.chains lvl hlvl2
        rw [hLAB, levelChain_append, levelChain_append] at h0
        exact h0
      show Seg _ lvl (nextAt _ st.headIdx lvl) (levelChain _ (A ++ B3) lvl) none
      rw [levelChain_congr (fun i _ => (ffld i).1), levelChain_append]
      by_cases hDne : levelChain st.arena (j :: D) lvl = []
      · rw [hDne, List.nil_append] at hch
        have hge : tdhF ≤ lvl := by
          by_contra hcon
          exact absurd hDne ((htdF2 lvl).1 (by omega))
        rw [fhi lvl st.headIdx hge]
        exact Seg_congr (fun i _ => fhi lvl i hge) hch
      · have hlt : lvl < tdhF := (htdF2 lvl).2 hDne
        have hnd2 : (st.headIdx :: (levelChain st.arena A lvl ++
            (levelChain st.arena (j :: D) lvl ++ levelChain st.arena B3 lvl))).Nodup := by
          have h0 := chain_nodup hWf L (List.Sublist.refl L) lvl
          rw [hLAB, levelChain_append, levelChain_append] at h0
          exact h0
        refine Seg_remove_run st.arena _ lvl st.headIdx
          (levelChain st.arena A lvl) (levelChain st.arena (j :: D) lvl)
          (levelChain st.arena B3 lvl) hDne hnd2 hch ?_ ?_
        · have h5 := fpl lvl hlt
          rw [hgetD lvl hlvl2, hgdF lvl, if_neg hDne] at h5
          exact h5
        · intro x hx
          refine foth lvl x hlt ?_
          rw [hgetD lvl hlvl2]
          exact hx
    · show st.count - (D.length + 1) = (A ++ B3).length
      rw [hWf.count_eq, hLAB]
      simp only [List.length_append, List.length_cons]
      omega
  case refine_4 =>
    unfold entriesOf
    rw [List.map_append]
    congr 1
    · refine List.map_congr_left ?_
      intro i hi
      rw [(ffld i).2.1, (ffld i).2.2.1]
    · refine List.map_congr_left ?_
      intro i hi
      rw [(ffld i).2.1, (ffld i).2.2.1]

end Skiplist

namespace Skiplist

/-- A two-element sublist splits its carrier at the first element with the
second appearing later. -/
theorem sublist_pair_split {v w : Nat} {l : List Nat}
    (h : List.Sublist [v, w] l) : ∃ s r, l = s ++ v :: r ∧ w ∈ r := by
  induction l with
  | nil => cases h
  | cons x t ih =>
    cases h with
    | cons _ h2 =>
      obtain ⟨s, r, hsr, hw⟩ := ih h2
      exact ⟨x :: s, r, by rw [hsr]; rfl, hw⟩
    | cons₂ _ h2 =>
      refine ⟨[], t, rfl, ?_⟩
      exact h2.subset (List.mem_cons_self _ _)

/-- The chain one level up is the filter of the chain below. -/
theorem levelChain_filter_succ (a : List Node) (M : List Nat) (l : Nat) :
    levelChain a M (l + 1)
      = (levelChain a M l).filter (fun i => decide (l + 1 < hAt a i)) := by
  unfold levelChain
  rw [List.filter_filter]
  refine (List.filter_congr ?_).symm
  intro i hi
  by_cases hc : l + 1 < hAt a i
  · have h2 : l < hAt a i := by omega
    simp [hc, h2]
  · simp [hc]

/-- The recorded pop_last predecessor is the head or a chain node. -/
theorem popPrevSpec_cases (a : List Node) (hd : Nat) (M : List Nat) (lvl : Nat) :
    popPrevSpec a hd M lvl = hd ∨ popPrevSpec a hd M lvl ∈ levelChain a M lvl := by
  unfold popPrevSpec
  cases hch : levelChain a M lvl with
  | nil => exact Or.inl rfl
  | cons x t =>
    have hdl : (hd :: x :: t).dropLast = hd :: (x :: t).dropLast := rfl
    rw [hdl, List.getLastD_cons]
    cases hu : (x :: t).dropLast with
    | nil => exact Or.inl rfl
    | cons y s =>
      right
      have hmem : (y :: s).getLastD hd ∈ (x :: t).dropLast := by
        rw [hu]
        exact getLastD_mem (List.cons_ne_nil y s)
      exact (List.dropLast_sublist (x :: t)).subset hmem

theorem popPrevSpecList_getD {a : List Node} {hd : Nat} {M : List Nat} {m i : Nat}
    (h : i ≤ m) :
    (popPrevSpecList a hd M m).getD i 0 = popPrevSpec a hd M i := by
  unfold popPrevSpecList
  rw [List.getD_eq_getElem?_getD, List.getElem?_map, List.getElem?_range (by omega)]
  rfl

end Skiplist

namespace Skiplist

set_option maxHeartbeats 1600000

/-- One level of the pop_last walk: from any entry point at or before the
second-to-last chain position, the walker stops at the node from which
the level's last node can be skipped, records it and descends. -/
theorem pop_last_go_level (a : List Node) (hd : Nat) (M : List Nat) (lvl : Nat)
    (hchain : Seg a lvl (some hd) (hd :: levelChain a M lvl) none) :
    ∀ rem pre cur fuel acc,
      hd :: levelChain a M lvl = pre ++ cur :: rem →
      (rem = [] → levelChain a M lvl = []) →
      rem.length + 1 ≤ fuel →
      pop_last_go a fuel cur lvl acc =
        if lvl = 0 then some (popPrevSpec a hd M lvl :: acc)
        else pop_last_go a (fuel - 1 - (rem.length - 1)) (popPrevSpec a hd M lvl) (lvl - 1)
          (popPrevSpec a hd M lvl :: acc) := by
  intro rem
  induction rem with
  | nil =>
    intro pre cur fuel acc hsplit hemp hfuel
    obtain ⟨f, rfl⟩ : ∃ f, fuel = f + 1 := ⟨fuel - 1, by omega⟩
    have hch : levelChain a M lvl = [] := hemp rfl
    rw [hch] at hsplit hchain
    have hcur : hd = cur := by
      cases pre with
      | nil =>
        simp only [List.nil_append, List.cons.injEq] at hsplit
        exact hsplit.1
      | cons p pre2 =>
        have hlen := congrArg List.length hsplit
        simp at hlen
    subst hcur
    have hps : popPrevSpec a hd M lvl = hd := by
      unfold popPrevSpec
      rw [hch]
      rfl
    have hnone : nextAt a hd lvl = none := hchain.2
    simp only [pop_last_go, hnone, hps]
    have harith : f + 1 - 1 - (List.length ([] : List Nat) - 1) = f := by simp
    rw [harith]
  | cons r rem2 ih =>
    intro pre cur fuel acc hsplit hemp hfuel
    obtain ⟨f, rfl⟩ : ∃ f, fuel = f + 1 := ⟨fuel - 1, by omega⟩
    have hnextc : nextAt a cur lvl = some r := by
      have h0 := Seg_next_split (by rw [hsplit] at hchain; exact hchain)
      rw [h0]
      rfl
    have hsplit2 : hd :: levelChain a M lvl = (pre ++ [cur]) ++ r :: rem2 := by
      rw [hsplit]
      simp
    have hnextr : nextAt a r lvl = rem2.head? :=
      Seg_next_split (by rw [hsplit2] at hchain; exact hchain)
    cases rem2 with
    | nil =>
      have hnr : nextAt a r lvl = none := by rw [hnextr]; rfl
      have hps : popPrevSpec a hd M lvl = cur := by
        unfold popPrevSpec
        have hdl : (hd :: levelChain a M lvl).dropLast = pre ++ [cur] := by
          rw [hsplit]
          have h2 : pre ++ [cur, r] = (pre ++ [cur]) ++ [r] := by simp
          rw [h2, List.dropLast_concat]
        rw [hdl, getLastD_concat]
      simp only [pop_last_go, hnextc, hnr, hps]
      have harith : f + 1 - 1 - ((r :: ([] : List Nat)).length - 1) = f := by simp
      rw [harith]
    | cons y rem3 =>
      have hny : nextAt a r lvl = some y := by rw [hnextr]; rfl
      simp only [pop_last_go, hnextc, hny]
      rw [ih (pre ++ [cur]) r f acc hsplit2 (fun h => absurd h (List.cons_ne_nil y rem3))
        (by simp at hfuel ⊢; omega)]
      have harith : f - 1 - ((y :: rem3).length - 1)
          = f + 1 - 1 - ((r :: y :: rem3).length - 1) := by
        simp
        omega
      rw [harith]

end Skiplist

namespace Skiplist

/-- The full descending pop_last walk from any level: it returns the
per-level skip points for that level and all the levels below it. -/
theorem pop_last_go_tower (a : List Node) (hd : Nat) (M : List Nat) (H : Nat)
    (hchains : ∀ lvl, lvl < H → Seg a lvl (some hd) (hd :: levelChain a M lvl) none) :
    ∀ lvl, lvl < H →
    ∀ pre cur rem fuel acc,
      hd :: levelChain a M lvl = pre ++ cur :: rem →
      (rem = [] → levelChain a M lvl = []) →
      (lvl + 1) * (M.length + 2) ≤ fuel →
      pop_last_go a fuel cur lvl acc = some (popPrevSpecList a hd M lvl ++ acc) := by
  intro lvl
  induction lvl with
  | zero =>
    intro hH pre cur rem fuel acc hsplit hemp hfuel
    have hrem : rem.length ≤ M.length :=
      le_trans (length_split_le hsplit) (levelChain_length_le a M 0)
    rw [pop_last_go_level a hd M 0 (hchains 0 hH) rem pre cur fuel acc hsplit hemp (by omega)]
    rw [if_pos rfl]
    unfold popPrevSpecList
    simp [List.range_succ]
  | succ l ihl =>
    intro hH pre cur rem fuel acc hsplit hemp hfuel
    have hrem : rem.length ≤ M.length :=
      le_trans (length_split_le hsplit) (levelChain_length_le a M (l + 1))
    have hmul : (l + 1 + 1) * (M.length + 2) = (l + 1) * (M.length + 2) + (M.length + 2) := by
      ring
    rw [pop_last_go_level a hd M (l + 1) (hchains (l + 1) hH) rem pre cur fuel acc hsplit hemp
      (by omega)]
    rw [if_neg (by omega)]
    simp only [Nat.add_sub_cancel]
    have hlist : popPrevSpecList a hd M (l + 1) ++ acc
        = popPrevSpecList a hd M l ++ (popPrevSpec a hd M (l + 1) :: acc) := by
      unfold popPrevSpecList
      rw [List.range_succ, List.map_append]
      simp
    rw [hlist]
    rcases List.eq_nil_or_concat (levelChain a M (l + 1)) with hc1 | ⟨u1, w, hc1⟩
    · have hP : popPrevSpec a hd M (l + 1) = hd := by
        unfold popPrevSpec
        rw [hc1]
        rfl
      rw [hP]
      exact ihl (by omega) [] hd (levelChain a M l) _ _ rfl (fun h => h) (by omega)
    · rw [List.concat_eq_append] at hc1
      rcases List.eq_nil_or_concat u1 with hu1 | ⟨u, v, hu1⟩
      · subst hu1
        rw [List.nil_append] at hc1
        have hP : popPrevSpec a hd M (l + 1) = hd := by
          unfold popPrevSpec
          rw [hc1]
          rfl
        rw [hP]
        exact ihl (by omega) [] hd (levelChain a M l) _ _ rfl (fun h => h) (by omega)
      · subst hu1
        rw [List.concat_eq_append] at hc1
        have hP : popPrevSpec a hd M (l + 1) = v := by
          unfold popPrevSpec
          rw [hc1]
          have h2 : hd :: (u ++ [v] ++ [w]) = (hd :: (u ++ [v])) ++ [w] := by simp
          rw [h2, List.dropLast_concat, List.getLastD_cons, getLastD_concat]
        have hvw : List.Sublist [v, w] (levelChain a M l) := by
          have h1 : List.Sublist [v, w] (levelChain a M (l + 1)) := by
            rw [hc1, List.append_assoc]
            exact List.sublist_append_right u ([v] ++ [w])
          have h2 : List.Sublist (levelChain a M (l + 1)) (levelChain a M l) := by
            rw [levelChain_filter_succ a M l]
            exact List.filter_sublist _
          exact h1.trans h2
        obtain ⟨s2, r2, hsr, hw⟩ := sublist_pair_split hvw
        have hsplit2 : hd :: levelChain a M l = (hd :: s2) ++ v :: r2 := by
          rw [hsr]
          rfl
        have hemp2 : r2 = [] → levelChain a M l = [] := by
          intro h
          rw [h] at hw
          exact absurd hw (List.not_mem_nil w)
        rw [hP]
        exact ihl (by omega) (hd :: s2) v r2 _ _ hsplit2 hemp2 (by omega)

end Skiplist

namespace Skiplist

set_option maxHeartbeats 1600000

/-- skiplist_pop_last on an empty skiplist: -1, no change. -/
theorem skiplist_pop_last_empty {st : SLR} {L : List Nat} (hWf : Wf st L) (hL : L = []) :
    skiplist_pop_last st = some (none, st) := by
  unfold skiplist_pop_last
  rw [if_pos (by rw [hWf.count_eq, hL]; rfl)]

/-- skiplist_pop_last on a non-empty skiplist removes the last stored
node, pointing each node that could reach it directly at the sentinel,
reports its key and value and decrements count. -/
theorem skiplist_pop_last_spec {st : SLR} {L L2 : List Nat} {z : Nat}
    (hWf : Wf st L) (hL : L = L2 ++ [z]) :
    ∃ st2, skiplist_pop_last st = some (some (keyAt st.arena z, valAt st.arena z), st2) ∧
      Wf st2 L2 ∧ st2.headIdx = st.headIdx ∧ st2.count = st.count - 1 ∧
      st2.rngIdx = st.rngIdx ∧ headH st2 = headH st ∧
      entriesOf st2.arena L2 = entriesOf st.arena L2 := by
  have hzL : z ∈ L := by rw [hL]; exact List.mem_append.2 (Or.inr (List.mem_cons_self _ _))
  have hL2sub : ∀ i ∈ L2, i ∈ L := by
    intro i hi; rw [hL]; exact List.mem_append.2 (Or.inl hi)
  have hh1 : 1 ≤ headH st := hWf.head_pos
  have hm : hAt st.arena z ≤ headH st := hWf.h_le z hzL
  have hndL : L.Nodup := hWf.nodup
  have hndL2 : L2.Nodup := by
    rw [hL] at hndL
    exact (List.nodup_append.1 hndL).1
  have hLlen : L.length ≤ st.arena.length := length_le_of_nodup_lt hWf.nodup hWf.mem_lt
  have hcount : ¬ st.count = 0 := by
    rw [hWf.count_eq, hL]
    simp
  have hchains : ∀ lvl, lvl < headH st →
      Seg st.arena lvl (some st.headIdx) (st.headIdx :: levelChain st.arena L lvl) none :=
    fun lvl hlvl => ⟨rfl, hWf.chains lvl hlvl⟩
  have htower := pop_last_go_tower st.arena st.headIdx L (headH st) hchains
    (headH st - 1) (by omega) [] st.headIdx (levelChain st.arena L (headH st - 1))
    (opFuel st) [] rfl (fun h => h)
    (by
      unfold opFuel
      have h2 := hWf.head_lt
      have h3 : headH st - 1 + 1 = headH st := by omega
      rw [h3]
      calc headH st * (L.length + 2)
          ≤ headH st * (st.arena.length + 2) := Nat.mul_le_mul_left _ (by omega)
        _ ≤ (headH st + 2) * (st.arena.length + 2) := Nat.mul_le_mul_right _ (by omega)
        _ = (st.arena.length + 2) * (headH st + 2) := Nat.mul_comm _ _)
  have hchL : ∀ lvl, lvl < hAt st.arena z →
      levelChain st.arena L lvl = levelChain st.arena L2 lvl ++ [z] := by
    intro lvl hlvl
    rw [hL, levelChain_append]
    congr 1
    unfold levelChain
    rw [List.filter_cons, if_pos (by simpa using hlvl)]
    rfl
  have hchLhi : ∀ lvl, hAt st.arena z ≤ lvl →
      levelChain st.arena L lvl = levelChain st.arena L2 lvl := by
    intro lvl hlvl
    rw [hL, levelChain_append]
    have h2 : levelChain st.arena [z] lvl = [] := by
      unfold levelChain
      rw [List.filter_cons, if_neg (by simp; omega)]
      rfl
    rw [h2, List.append_nil]
  have hpsA : ∀ lvl, lvl < hAt st.arena z →
      popPrevSpec st.arena st.headIdx L lvl
        = (levelChain st.arena L2 lvl).getLastD st.headIdx := by
    intro lvl hlvl
    unfold popPrevSpec
    rw [hchL lvl hlvl]
    have h2 : st.headIdx :: (levelChain st.arena L2 lvl ++ [z])
        = (st.headIdx :: levelChain st.arena L2 lvl) ++ [z] := rfl
    rw [h2, List.dropLast_concat, List.getLastD_cons]
  have hzlast : ∀ lvl, lvl < headH st → nextAt st.arena z lvl = none := by
    intro lvl hlvl
    by_cases hlt : lvl < hAt st.arena z
    · have hSegF := hchains lvl hlvl
      rw [hchL lvl hlt] at hSegF
      have h3 := Seg_last hSegF (List.cons_ne_nil _ _)
      have h4 : (st.headIdx :: (levelChain st.arena L2 lvl ++ [z])).getLastD 0 = z := by
        have h2 : st.headIdx :: (levelChain st.arena L2 lvl ++ [z])
            = (st.headIdx :: levelChain st.arena L2 lvl) ++ [z] := rfl
        rw [h2, getLastD_concat]
      rw [h4] at h3
      exact h3.symm
    · rw [← hWf.next_len z hzL] at hlt
      unfold nextAt
      rw [List.getD_eq_getElem?_getD, List.getElem?_eq_none (by omega)]
      rfl
  have hget0 : (popPrevSpecList st.arena st.headIdx L (headH st - 1)).getD 0 0
      = popPrevSpec st.arena st.headIdx L 0 := popPrevSpecList_getD (by omega)
  have hch0 : levelChain st.arena L 0 = L := levelChain_zero hWf.h_pos
  have hnext0 : nextAt st.arena
      ((popPrevSpecList st.arena st.headIdx L (headH st - 1)).getD 0 0) 0 = some z := by
    rw [hget0]
    have hps0 : popPrevSpec st.arena st.headIdx L 0
        = L2.getLastD st.headIdx := by
      unfold popPrevSpec
      rw [hch0, hL]
      have h2 : st.headIdx :: (L2 ++ [z]) = (st.headIdx :: L2) ++ [z] := rfl
      rw [h2, List.dropLast_concat, List.getLastD_cons]
    rw [hps0]
    have hSeg0 := hchains 0 hh1
    rw [hch0, hL] at hSeg0
    have hfull : st.headIdx :: (L2 ++ [z])
        = (st.headIdx :: L2).dropLast ++ (L2.getLastD st.headIdx) :: [z] := by
      conv_lhs => rw [show st.headIdx :: (L2 ++ [z]) = (st.headIdx :: L2) ++ [z] from rfl]
      conv_lhs => rw [cons_eq_dropLast_getLastD st.headIdx L2]
      rw [List.append_assoc]
      rfl
    rw [hfull] at hSeg0
    have h5 := Seg_next_split hSeg0
    rw [h5]
    rfl
  have hplcases : ∀ i, popPrevSpec st.arena st.headIdx L i = st.headIdx ∨
      popPrevSpec st.arena st.headIdx L i ∈ L := by
    intro i
    rcases popPrevSpec_cases st.arena st.headIdx L i with h | h
    · exact Or.inl h
    · exact Or.inr (mem_levelChain.1 h).1
  obtain ⟨flen, ffld, fhi, foth, fpl⟩ :=
    relink_fold_facts st.arena (popPrevSpecList st.arena st.headIdx L (headH st - 1))
      ([] : List Ptr) (hAt st.arena z)
      (fun i hi => by
        rw [popPrevSpecList_getD (by omega)]
        rcases hplcases i with h | h
        · rw [h]; exact hWf.head_lt
        · exact hWf.mem_lt _ h)
      (fun i hi => by
        rw [popPrevSpecList_getD (by omega)]
        rcases popPrevSpec_cases st.arena st.headIdx L i with h | h
        · rw [h, hWf.head_len]
          omega
        · rw [hWf.next_len _ (mem_levelChain.1 h).1]
          exact (mem_levelChain.1 h).2)
  have htower2 : pop_last_go st.arena (opFuel st) st.headIdx (headH st - 1) []
      = some (popPrevSpecList st.arena st.headIdx L (headH st - 1)) := by
    rw [htower, List.append_nil]
  refine ⟨(⟨(List.range (hAt st.arena z)).foldl
      (fun acc i => updNext acc
        ((popPrevSpecList st.arena st.headIdx L (headH st - 1)).getD i 0) i
        (([] : List Ptr).getD i none)) st.arena,
    st.headIdx, st.count - 1, st.rngIdx⟩ : SLR), ?_, ?_, rfl, rfl, rfl, ?_, ?_⟩
  · unfold skiplist_pop_last
    rw [if_neg hcount]
    simp only [htower2, hnext0]
    rfl
  case refine_3 =>
    show hAt _ st.headIdx = hAt st.arena st.headIdx
    exact (ffld st.headIdx).1
  case refine_2 =>
    refine ⟨?_, ?_, ?_, ?_, ?_, ?_, ?_, ?_, ?_, ?_, ?_, ?_⟩
    · show st.headIdx < _
      rw [flen]
      exact hWf.head_lt
    · show 1 ≤ hAt _ st.headIdx
      rw [(ffld st.headIdx).1]
      exact hh1
    · show (nodeAt _ st.headIdx).next.length = hAt _ st.headIdx
      rw [(ffld st.headIdx).1, (ffld st.headIdx).2.2.2]
      exact hWf.head_len
    · intro i hi
      show i < _
      rw [flen]
      exact hWf.mem_lt i (hL2sub i hi)
    · intro i hi
      exact hWf.ne_head i (hL2sub i hi)
    · exact hndL2
    · intro i hi
      rw [(ffld i).1]
      exact hWf.h_pos i (hL2sub i hi)
    · intro i hi
      show hAt _ i ≤ hAt _ st.headIdx
      rw [(ffld i).1, (ffld st.headIdx).1]
      exact hWf.h_le i (hL2sub i hi)
    · intro i hi
      rw [(ffld i).2.2.2, (ffld i).1]
      exact hWf.next_len i (hL2sub i hi)
    · show (L2.map (keyAt _)).Sorted (· ≤ ·)
      have hkeq : ∀ i ∈ L2, keyAt ((List.range (hAt st.arena z)).foldl
          (fun acc i => updNext acc
            ((popPrevSpecList st.arena st.headIdx L (headH st - 1)).getD i 0) i
            (([] : List Ptr).getD i none)) st.arena) i = keyAt st.arena i :=
        fun i _ => (ffld i).2.1
      rw [List.map_congr_left hkeq]
      refine hWf.sorted.sublist ?_
      refine List.Sublist.map _ ?_
      rw [hL]
      exact List.sublist_append_left L2 [z]
    · intro lvl hlvl
      have hlvl2 : lvl < headH st := by
        show lvl < hAt st.arena st.headIdx
        rw [← (ffld st.headIdx).1]
        exact hlvl
      show Seg _ lvl (nextAt _ st.headIdx lvl) (levelChain _ L2 lvl) none
      rw [levelChain_congr (fun i _ => (ffld i).1)]
      by_cases hlt : lvl < hAt st.arena z
      · rw [show levelChain st.arena L2 lvl
            = levelChain st.arena L2 lvl ++ ([] : List Nat) from (List.append_nil _).symm]
        have hSegIn : Seg st.arena lvl (nextAt st.arena st.headIdx lvl)
            (levelChain st.arena L2 lvl ++ ([z] ++ [])) none := by
          have h0 := hWf.chains lvl hlvl2
          rw [hchL lvl hlt] at h0
          exact h0
        have hnd2 : (st.headIdx ::
            (levelChain st.arena L2 lvl ++ ([z] ++ []))).Nodup := by
          have h0 := chain_nodup hWf L (List.Sublist.refl L) lvl
          rw [hchL lvl hlt] at h0
          exact h0
        refine Seg_remove_run st.arena _ lvl st.headIdx (levelChain st.arena L2 lvl) [z] []
          (List.cons_ne_nil _ _) hnd2 hSegIn ?_ ?_
        · have h5 := fpl lvl hlt
          rw [popPrevSpecList_getD (by omega), hpsA lvl hlt] at h5
          rw [h5]
          show ([] : List Ptr).getD lvl none = nextAt st.arena z lvl
          rw [hzlast lvl hlvl2]
          rfl
        · intro x hx
          refine foth lvl x hlt ?_
          rw [popPrevSpecList_getD (by omega), hpsA lvl hlt]
          exact hx
      · have h0 := hWf.chains lvl hlvl2
        rw [hchLhi lvl (by omega)] at h0
        rw [fhi lvl st.headIdx (by omega)]
        exact Seg_congr (fun i _ => fhi lvl i (by omega)) h0
    · show st.count - 1 = L2.length
      rw [hWf.count_eq, hL]
      simp
  case refine_4 =>
    unfold entriesOf
    refine List.map_congr_left ?_
    intro i hi
    rw [(ffld i).2.1, (ffld i).2.2.1]

end Skiplist

namespace Skiplist

/-- One level of the skiplist_last walk: from any entry point the walker
advances to the last node of the level and descends. -/
theorem last_go_level (a : List Node) (hd : Nat) (M : List Nat) (lvl : Nat)
    (hchain : Seg a lvl (some hd) (hd :: levelChain a M lvl) none) :
    ∀ rem pre cur fuel,
      hd :: levelChain a M lvl = pre ++ cur :: rem →
      rem.length + 1 ≤ fuel →
      last_go a fuel cur lvl =
        if lvl = 0 then some ((levelChain a M lvl).getLastD hd)
        else last_go a (fuel - 1 - rem.length) ((levelChain a M lvl).getLastD hd) (lvl - 1) := by
  intro rem
  induction rem with
  | nil =>
    intro pre cur fuel hsplit hfuel
    obtain ⟨f, rfl⟩ : ∃ f, fuel = f + 1 := ⟨fuel - 1, by omega⟩
    have hcur : cur = (levelChain a M lvl).getLastD hd := eq_getLastD_of_concat hsplit
    have hnone : nextAt a cur lvl = none := by
      have h0 := Seg_next_split (by rw [hsplit] at hchain; exact hchain)
      rw [h0]
      rfl
    rw [hcur] at hnone
    rw [hcur]
    simp only [last_go, hnone]
    have harith : f + 1 - 1 - List.length ([] : List Nat) = f := by simp
    rw [harith]
  | cons r rem2 ih =>
    intro pre cur fuel hsplit hfuel
    obtain ⟨f, rfl⟩ : ∃ f, fuel = f + 1 := ⟨fuel - 1, by omega⟩
    have hnextc : nextAt a cur lvl = some r := by
      have h0 := Seg_next_split (by rw [hsplit] at hchain; exact hchain)
      rw [h0]
      rfl
    have hsplit2 : hd :: levelChain a M lvl = (pre ++ [cur]) ++ r :: rem2 := by
      rw [hsplit]
      simp
    simp only [last_go, hnextc]
    rw [ih (pre ++ [cur]) r f hsplit2 (by simp at hfuel ⊢; omega)]
    have harith : f - 1 - rem2.length = f + 1 - 1 - (r :: rem2).length := by
      simp
      omega
    rw [harith]

/-- The full descending skiplist_last walk: from any level it ends at the
last stored node. -/
theorem last_go_tower (a : List Node) (hd : Nat) (M : List Nat) (H : Nat)
    (hpos : ∀ i ∈ M, 1 ≤ hAt a i)
    (hchains : ∀ lvl, lvl < H → Seg a lvl (some hd) (hd :: levelChain a M lvl) none) :
    ∀ lvl, lvl < H →
    ∀ pre cur rem fuel,
      hd :: levelChain a M lvl = pre ++ cur :: rem →
      (lvl + 1) * (M.length + 2) ≤ fuel →
      last_go a fuel cur lvl = some (M.getLastD hd) := by
  intro lvl
  induction lvl with
  | zero =>
    intro hH pre cur rem fuel hsplit hfuel
    have hrem : rem.length ≤ M.length :=
      le_trans (length_split_le hsplit) (levelChain_length_le a M 0)
    rw [last_go_level a hd M 0 (hchains 0 hH) rem pre cur fuel hsplit (by omega)]
    rw [if_pos rfl, levelChain_zero hpos]
  | succ l ihl =>
    intro hH pre cur rem fuel hsplit hfuel
    have hrem : rem.length ≤ M.length :=
      le_trans (length_split_le hsplit) (levelChain_length_le a M (l + 1))
    have hmul : (l + 1 + 1) * (M.length + 2) = (l + 1) * (M.length + 2) + (M.length + 2) := by
      ring
    rw [last_go_level a hd M (l + 1) (hchains (l + 1) hH) rem pre cur fuel hsplit (by omega)]
    rw [if_neg (by omega)]
    simp only [Nat.add_sub_cancel]
    have hmem : (levelChain a M (l + 1)).getLastD hd ∈ hd :: levelChain a M l := by
      by_cases hCA : levelChain a M (l + 1) = []
      · rw [hCA]
        exact List.mem_cons_self _ _
      · have hmem0 : (levelChain a M (l + 1)).getLastD hd ∈ levelChain a M (l + 1) :=
          getLastD_mem hCA
        exact List.mem_cons_of_mem _ (levelChain_mono hmem0 (Nat.le_succ l))
    obtain ⟨s, t, hst⟩ := List.append_of_mem hmem
    exact ihl (by omega) s _ t _ hst (by omega)

end Skiplist

namespace Skiplist

/-- skiplist_last on an empty skiplist: -1. -/
theorem skiplist_last_empty {st : SLR} {L : List Nat} (hWf : Wf st L) (hL : L = []) :
    skiplist_last st = some none := by
  have hch : levelChain st.arena L (headH st - 1) = [] := by
    rw [hL]
    rfl
  have hnone : nextAt st.arena st.headIdx (headH st - 1) = none := by
    have h0 := hWf.chains (headH st - 1) (by have := hWf.head_pos; omega)
    rw [hch] at h0
    exact h0
  unfold skiplist_last
  simp only [hnone]

/-- skiplist_last on a skiplist whose top level is populated (true after
any sequence of inserts): the last stored node. -/
theorem skiplist_last_spec {st : SLR} {L L2 : List Nat} {z : Nat}
    (hWf : Wf st L) (hTop : TopOk st L) (hL : L = L2 ++ [z]) :
    skiplist_last st = some (some (keyAt st.arena z, valAt st.arena z)) := by
  have hLne : L ≠ [] := by
    rw [hL]
    simp
  have htop := hTop.2 hLne
  have hLlen : L.length ≤ st.arena.length := length_le_of_nodup_lt hWf.nodup hWf.mem_lt
  have hchains : ∀ lvl, lvl < headH st →
      Seg st.arena lvl (some st.headIdx) (st.headIdx :: levelChain st.arena L lvl) none :=
    fun lvl hlvl => ⟨rfl, hWf.chains lvl hlvl⟩
  cases hctop : levelChain st.arena L (headH st - 1) with
  | nil => exact absurd hctop htop
  | cons c0 rest =>
    have hnext : nextAt st.arena st.headIdx (headH st - 1) = some c0 := by
      have h0 := hWf.chains (headH st - 1) (by have := hWf.head_pos; omega)
      rw [hctop] at h0
      exact h0.1
    have hsplit : st.headIdx :: levelChain st.arena L (headH st - 1)
        = [st.headIdx] ++ c0 :: rest := by
      rw [hctop]
      rfl
    have hlast := last_go_tower st.arena st.headIdx L (headH st) hWf.h_pos hchains
      (headH st - 1) (by have := hWf.head_pos; omega) [st.headIdx] c0 rest (opFuel st)
      hsplit
      (by
        unfold opFuel
        have h2 := hWf.head_lt
        have h1 := hWf.head_pos
        have h3 : headH st - 1 + 1 = headH st := by omega
        rw [h3]
        calc headH st * (L.length + 2)
            ≤ headH st * (st.arena.length + 2) := Nat.mul_le_mul_left _ (by omega)
          _ ≤ (headH st + 2) * (st.arena.length + 2) := Nat.mul_le_mul_right _ (by omega)
          _ = (st.arena.length + 2) * (headH st + 2) := Nat.mul_comm _ _)
    have hlz : L.getLastD st.headIdx = z := by
      rw [hL]
      exact getLastD_concat L2 z st.headIdx
    rw [hlz] at hlast
    unfold skiplist_last
    simp only [hnext, hlast]

end Skiplist

namespace Skiplist

/-- skiplist_first on an empty skiplist: -1. -/
theorem skiplist_first_empty {st : SLR} {L : List Nat} (hWf : Wf st L) (hL : L = []) :
    skiplist_first st = none := by
  unfold skiplist_first
  rw [head_next0 hWf, hL]
  rfl

/-- skiplist_first: the first stored node's key and value. -/
theorem skiplist_first_cons {st : SLR} {L L2 : List Nat} {j : Nat}
    (hWf : Wf st L) (hL : L = j :: L2) :
    skiplist_first st = some (keyAt st.arena j, valAt st.arena j) := by
  unfold skiplist_first
  rw [head_next0 hWf, hL]
  rfl

/-- Failure frame of add/set: when either allocation fails the call
reports -1 and the structure is untouched: same installed head, same
count, and every node of the original arena (hence every forward
pointer) is exactly as before; no partial splicing happens. -/
theorem add_or_set_fail_frame (g : Nat → Nat) (alloc : Nat → Bool) (tr : Bool)
    (k : Int) (v oldIn : Nat) (st : SLR) (r : Int) (o : Nat) (st2 : SLR)
    (heq : add_or_set g alloc tr k v oldIn st = some (r, o, st2)) (hr : r = -1) :
    st2.headIdx = st.headIdx ∧ st2.count = st.count ∧
      (∀ i, i < st.arena.length → nodeAt st2.arena i = nodeAt st.arena i) := by
  have hfst : ∀ {A : Int} {B : Nat} {C : SLR},
      some (A, B, C) = some (r, o, st2) → A = r ∧ C = st2 := by
    intro A B C h
    have h2 := Option.some.inj h
    exact ⟨congrArg (fun p => p.1) h2, congrArg (fun p => p.2.2) h2⟩
  unfold add_or_set at heq
  cases hip : init_prevs st k with
  | none =>
    rw [hip] at heq
    exact Option.noConfusion heq
  | some prevs =>
    rw [hip] at heq
    dsimp only at heq
    cases hnx : nextAt st.arena (prevs.getD 0 0) 0 with
    | none =>
      rw [hnx] at heq
      cases tr with
      | false =>
        simp only [Bool.false_eq_true, if_false] at heq
        cases hna : N_alloc alloc st.arena (SKIPLIST_GEN_HEIGHT (g st.rngIdx)) k v with
        | none =>
          rw [hna] at heq
          dsimp only at heq
          obtain ⟨h1, h3⟩ := hfst heq
          rw [← h3]
          exact ⟨rfl, rfl, fun i _ => rfl⟩
        | some p =>
          obtain ⟨nnIdx, a1⟩ := p
          rw [hna] at heq
          dsimp only at heq
          unfold N_alloc at hna
          by_cases hal : alloc st.arena.length = true
          · rw [if_pos hal] at hna
            obtain ⟨hnn, ha1⟩ := Prod.mk.injEq _ _ _ _ ▸ Option.some.inj hna
            by_cases hgrow : SKIPLIST_GEN_HEIGHT (g st.rngIdx) > headH st
            · rw [if_pos hgrow] at heq
              cases hgr : grow_head alloc
                  (⟨a1, st.headIdx, st.count, st.rngIdx + 1⟩ : SLR) nnIdx with
              | none =>
                rw [hgr] at heq
                dsimp only at heq
                obtain ⟨h1, h3⟩ := hfst heq
                rw [← h3, ← ha1]
                exact ⟨rfl, rfl, fun i hi => nodeAt_append hi⟩
              | some stG =>
                rw [hgr] at heq
                dsimp only at heq
                obtain ⟨h1, h3⟩ := hfst heq
                rw [← h1] at hr
                exact absurd hr (by decide)
            · rw [if_neg hgrow] at heq
              obtain ⟨h1, h3⟩ := hfst heq
              rw [← h1] at hr
              exact absurd hr (by decide)
          · rw [if_neg hal] at hna
            exact Option.noConfusion hna
      | true =>
        simp only [if_pos rfl] at heq
        cases hna : N_alloc alloc st.arena (SKIPLIST_GEN_HEIGHT (g st.rngIdx)) k v with
        | none =>
          rw [hna] at heq
          dsimp only at heq
          obtain ⟨h1, h3⟩ := hfst heq
          rw [← h3]
          exact ⟨rfl, rfl, fun i _ => rfl⟩
        | some p =>
          obtain ⟨nnIdx, a1⟩ := p
          rw [hna] at heq
          dsimp only at heq
          unfold N_alloc at hna
          by_cases hal : alloc st.arena.length = true
          · rw [if_pos hal] at hna
            obtain ⟨hnn, ha1⟩ := Prod.mk.injEq _ _ _ _ ▸ Option.some.inj hna
            by_cases hgrow : SKIPLIST_GEN_HEIGHT (g st.rngIdx) > headH st
            · rw [if_pos hgrow] at heq
              cases hgr : grow_head alloc
                  (⟨a1, st.headIdx, st.count, st.rngIdx + 1⟩ : SLR) nnIdx with
              | none =>
                rw [hgr] at heq
                dsimp only at heq
                obtain ⟨h1, h3⟩ := hfst heq
                rw [← h3, ← ha1]
                exact ⟨rfl, rfl, fun i hi => nodeAt_append hi⟩
              | some stG =>
                rw [hgr] at heq
                dsimp only at heq
                obtain ⟨h1, h3⟩ := hfst heq
                rw [← h1] at hr
                exact absurd hr (by decide)
            · rw [if_neg hgrow] at heq
              obtain ⟨h1, h3⟩ := hfst heq
              rw [← h1] at hr
              exact absurd hr (by decide)
          · rw [if_neg hal] at hna
            exact Option.noConfusion hna
    | some j0 =>
      rw [hnx] at heq
      cases tr with
      | false =>
        simp only [Bool.false_eq_true, if_false] at heq
        cases hna : N_alloc alloc st.arena (SKIPLIST_GEN_HEIGHT (g st.rngIdx)) k v with
        | none =>
          rw [hna] at heq
          dsimp only at heq
          obtain ⟨h1, h3⟩ := hfst heq
          rw [← h3]
          exact ⟨rfl, rfl, fun i _ => rfl⟩
        | some p =>
          obtain ⟨nnIdx, a1⟩ := p
          rw [hna] at heq
          dsimp only at heq
          unfold N_alloc at hna
          by_cases hal : alloc st.arena.length = true
          · rw [if_pos hal] at hna
            obtain ⟨hnn, ha1⟩ := Prod.mk.injEq _ _ _ _ ▸ Option.some.inj hna
            by_cases hgrow : SKIPLIST_GEN_HEIGHT (g st.rngIdx) > headH st
            · rw [if_pos hgrow] at heq
              cases hgr : grow_head alloc
                  (⟨a1, st.headIdx, st.count, st.rngIdx + 1⟩ : SLR) nnIdx with
              | none =>
                rw [hgr] at heq
                dsimp only at heq
                obtain ⟨h1, h3⟩ := hfst heq
                rw [← h3, ← ha1]
                exact ⟨rfl, rfl, fun i hi => nodeAt_append hi⟩
              | some stG =>
                rw [hgr] at heq
                dsimp only at heq
                obtain ⟨h1, h3⟩ := hfst heq
                rw [← h1] at hr
                exact absurd hr (by decide)
            · rw [if_neg hgrow] at heq
              obtain ⟨h1, h3⟩ := hfst heq
              rw [← h1] at hr
              exact absurd hr (by decide)
          · rw [if_neg hal] at hna
            exact Option.noConfusion hna
      | true =>
        simp only [if_pos rfl] at heq
        by_cases hc : cmpI (keyAt st.arena j0) k = 0
        · rw [if_pos hc] at heq
          obtain ⟨h1, h3⟩ := hfst heq
          rw [← h1] at hr
          exact absurd hr (by decide)
        · rw [if_neg hc] at heq
          cases hna : N_alloc alloc st.arena (SKIPLIST_GEN_HEIGHT (g st.rngIdx)) k v with
          | none =>
            rw [hna] at heq
            dsimp only at heq
            obtain ⟨h1, h3⟩ := hfst heq
            rw [← h3]
            exact ⟨rfl, rfl, fun i _ => rfl⟩
          | some p =>
            obtain ⟨nnIdx, a1⟩ := p
            rw [hna] at heq
            dsimp only at heq
            unfold N_alloc at hna
            by_cases hal : alloc st.arena.length = true
            · rw [if_pos hal] at hna
              obtain ⟨hnn, ha1⟩ := Prod.mk.injEq _ _ _ _ ▸ Option.some.inj hna
              by_cases hgrow : SKIPLIST_GEN_HEIGHT (g st.rngIdx) > headH st
              · rw [if_pos hgrow] at heq
                cases hgr : grow_head alloc
                    (⟨a1, st.headIdx, st.count, st.rngIdx + 1⟩ : SLR) nnIdx with
                | none =>
                  rw [hgr] at heq
                  dsimp only at heq
                  obtain ⟨h1, h3⟩ := hfst heq
                  rw [← h3, ← ha1]
                  exact ⟨rfl, rfl, fun i hi => nodeAt_append hi⟩
                | some stG =>
                  rw [hgr] at heq
                  dsimp only at heq
                  obtain ⟨h1, h3⟩ := hfst heq
                  rw [← h1] at hr
                  exact absurd hr (by decide)
              · rw [if_neg hgrow] at heq
                obtain ⟨h1, h3⟩ := hfst heq
                rw [← h1] at hr
                exact absurd hr (by decide)
            · rw [if_neg hal] at hna
              exact Option.noConfusion hna

end Skiplist

namespace Skiplist

/-- The height generator's bit test at loop index bit reads bit (bit+1) of
the draw. -/
theorem and_shift_iff (r bit : Nat) :
    (r &&& (2 <<< bit) ≠ 0) ↔ r / 2 ^ (bit + 1) % 2 = 1 := by
  have h1 : (2 : Nat) <<< bit = 2 ^ (bit + 1) := by
    rw [Nat.shiftLeft_eq, pow_succ, mul_comm]
  rw [h1, Nat.and_two_pow, Nat.testBit_to_div_mod]
  by_cases hc : r / 2 ^ (bit + 1) % 2 = 1
  · simp [hc]
  · simp [hc]

theorem specConsecutiveLowBits_le (s : Nat) : specConsecutiveLowBits s ≤ s := by
  induction s using Nat.strong_induction_on with
  | _ s ih =>
    rw [specConsecutiveLowBits]
    split
    · next h =>
      have hlt : s / 2 < s := Nat.div_lt_self (by omega) (by omega)
      have h2 := ih (s / 2) hlt
      omega
    · omega

theorem gen_height_go_spec (r : Nat) :
    ∀ fuel bit h, specConsecutiveLowBits (r / 2 ^ (bit + 1)) < fuel →
      gen_height_go r fuel bit h = h + specConsecutiveLowBits (r / 2 ^ (bit + 1)) := by
  intro fuel
  induction fuel with
  | zero =>
    intro bit h hf
    omega
  | succ f ih =>
    intro bit h hf
    simp only [gen_height_go]
    by_cases hc : r &&& (2 <<< bit) ≠ 0
    · rw [if_pos hc]
      have hmod : r / 2 ^ (bit + 1) % 2 = 1 := (and_shift_iff r bit).1 hc
      have hdiv : r / 2 ^ (bit + 1) / 2 = r / 2 ^ (bit + 1 + 1) := by
        rw [Nat.div_div_eq_div_mul]
        congr 1
      have hspec : specConsecutiveLowBits (r / 2 ^ (bit + 1))
          = 1 + specConsecutiveLowBits (r / 2 ^ (bit + 1 + 1)) := by
        rw [specConsecutiveLowBits]
        rw [dif_pos hmod]
        rw [hdiv]
      rw [ih (bit + 1) (h + 1) (by omega)]
      omega
    · rw [if_neg hc]
      have hmod : ¬ r / 2 ^ (bit + 1) % 2 = 1 := fun h2 => hc ((and_shift_iff r bit).2 h2)
      have hspec : specConsecutiveLowBits (r / 2 ^ (bit + 1)) = 0 := by
        rw [specConsecutiveLowBits]
        rw [dif_neg hmod]
      omega

/-- What the height generator actually computes: one plus the number of
consecutive set bits of the draw counted from bit 1 (not bit 0), capped
at SKIPLIST_MAX_HEIGHT. -/
theorem SKIPLIST_GEN_HEIGHT_eq (r : Nat) :
    SKIPLIST_GEN_HEIGHT r
      = min (1 + specConsecutiveLowBits (r / 2)) SKIPLIST_MAX_HEIGHT := by
  have hle : specConsecutiveLowBits (r / 2 ^ (0 + 1)) ≤ r / 2 :=
    le_trans (specConsecutiveLowBits_le _) (by norm_num)
  have hgo : gen_height_go r (r + 2) 0 1 = 1 + specConsecutiveLowBits (r / 2 ^ (0 + 1)) :=
    gen_height_go_spec r (r + 2) 0 1 (by
      have h2 : r / 2 ≤ r := Nat.div_le_self r 2
      omega)
  have h21 : r / 2 ^ (0 + 1) = r / 2 := by norm_num
  rw [h21] at hgo
  show (if gen_height_go r (r + 2) 0 1 > SKIPLIST_MAX_HEIGHT then SKIPLIST_MAX_HEIGHT
    else gen_height_go r (r + 2) 0 1) = _
  rw [hgo]
  split
  · next h => omega
  · next h => omega

end Skiplist

namespace Skiplist

set_option maxHeartbeats 1000000

theorem map_h_updNext (a : List Node) (j lvl : Nat) (p : Ptr) :
    (updNext a j lvl p).map Node.h = a.map Node.h := by
  apply List.ext_getElem (by simp [updNext])
  intro i h1 h2
  simp only [List.getElem_map]
  unfold updNext
  rw [List.getElem_set]
  split
  · next he =>
    subst he
    show (nodeAt a j).h = _
    unfold nodeAt
    rw [List.getD_eq_getElem?_getD, List.getElem?_eq_getElem (by simpa [updNext] using h1)]
    rfl
  · rfl

theorem map_h_splice (b : List Node) (prevs : List Nat) (nnIdx m : Nat) :
    (splice b prevs nnIdx m).map Node.h = b.map Node.h := by
  induction m with
  | zero => rfl
  | succ m ih =>
    rw [splice_succ, map_h_updNext, map_h_updNext, ih]

theorem map_h_getD {a : List Node} {hd : Nat} (h : hd < a.length) :
    (a.map Node.h).getD hd 0 = hAt a hd := by
  unfold hAt nodeAt
  rw [List.getD_eq_getElem?_getD, List.getD_eq_getElem?_getD, List.getElem?_map,
    List.getElem?_eq_getElem h]
  rfl

/-- Skeleton effect of a successful skiplist_add: independent of the key
and value inserted. -/
theorem skiplist_add_skel (g : Nat → Nat) (alloc : Nat → Bool) (halloc : ∀ n, alloc n = true)
    (k : Int) (v : Nat) (st : SLR) (L : List Nat) (hWf : Wf st L) :
    ∃ o st2, add_or_set g alloc false k v 0 st = some (0, o, st2) ∧
      Skel st2 = addSkelStep g (Skel st) := by
  have hprevs := init_prevs_spec hWf k
  have hgetHd : (st.arena.map Node.h).getD st.headIdx 0 = headH st :=
    map_h_getD hWf.head_lt
  unfold add_or_set
  rw [hprevs]
  simp only [N_alloc, halloc, if_true]
  by_cases hgrow : SKIPLIST_GEN_HEIGHT (g st.rngIdx) > headH st
  · simp only [if_pos hgrow]
    rw [grow_head_eval alloc halloc]
    have hlen1 : (st.arena ++
        [(⟨SKIPLIST_GEN_HEIGHT (g st.rngIdx), k, v,
          List.replicate (SKIPLIST_GEN_HEIGHT (g st.rngIdx)) none⟩ : Node)]).length
        = st.arena.length + 1 := by simp
    have hq1 : hAt (st.arena ++
        [(⟨SKIPLIST_GEN_HEIGHT (g st.rngIdx), k, v,
          List.replicate (SKIPLIST_GEN_HEIGHT (g st.rngIdx)) none⟩ : Node)]) st.arena.length
        = SKIPLIST_GEN_HEIGHT (g st.rngIdx) := by
      unfold hAt
      rw [nodeAt_append_right rfl (by simp)]
      rfl
    refine ⟨_, _, rfl, ?_⟩
    unfold Skel addSkelStep heightsOf
    dsimp only
    rw [hgetHd, if_pos hgrow, map_h_splice, List.map_append, List.map_append]
    simp only [List.map_cons, List.map_nil, hq1, hlen1, List.length_map]
    rw [List.append_assoc]
    rfl
  · simp only [if_neg hgrow]
    refine ⟨_, _, rfl, ?_⟩
    unfold Skel addSkelStep heightsOf
    dsimp only
    rw [hgetHd, if_neg hgrow, map_h_splice, List.map_append]
    simp only [List.map_cons, List.map_nil]

end Skiplist

namespace Skiplist

set_option maxHeartbeats 1000000

/-- Every public mutating operation succeeds on a well-formed skiplist
(under a succeeding allocator) and leaves it well-formed. -/
theorem execOp_preserves (g : Nat → Nat) (alloc : Nat → Bool) (halloc : ∀ n, alloc n = true)
    (op : Op) (st : SLR) (L : List Nat) (hWf : Wf st L) :
    ∃ st2 L2, execOp g alloc op st = some st2 ∧ Wf st2 L2 := by
  cases op with
  | add k v =>
    obtain ⟨oldOut, stF, heq, hWf2, _⟩ :=
      add_or_set_insert g alloc false k v 0 st L
        (L.takeWhile (fun i => decide (keyAt st.arena i < k)))
        (L.dropWhile (fun i => decide (keyAt st.arena i < k)))
        hWf halloc rfl rfl (fun h => absurd h (by decide))
    refine ⟨stF, _, ?_, hWf2⟩
    show (add_or_set g alloc false k v 0 st).map (fun r => r.2.2) = some stF
    rw [heq]
    rfl
  | set k v =>
    cases hB : L.dropWhile (fun i => decide (keyAt st.arena i < k)) with
    | nil =>
      obtain ⟨oldOut, stF, heq, hWf2, _⟩ :=
        add_or_set_insert g alloc true k v 0 st L
          (L.takeWhile (fun i => decide (keyAt st.arena i < k))) [] hWf halloc rfl hB.symm
          (by
            intro _ j hj
            exact Option.noConfusion hj)
      refine ⟨stF, _, ?_, hWf2⟩
      show (add_or_set g alloc true k v 0 st).map (fun r => r.2.2) = some stF
      rw [heq]
      rfl
    | cons j B2 =>
      by_cases hkey : keyAt st.arena j = k
      · obtain ⟨heq, hWf2, _⟩ :=
          add_or_set_replace g alloc k v 0 st L
            (L.takeWhile (fun i => decide (keyAt st.arena i < k))) (j :: B2) j hWf rfl hB.symm
            rfl hkey
        refine ⟨_, L, ?_, hWf2⟩
        show (add_or_set g alloc true k v 0 st).map (fun r => r.2.2) = some _
        rw [heq]
        rfl
      · obtain ⟨oldOut, stF, heq, hWf2, _⟩ :=
          add_or_set_insert g alloc true k v 0 st L
            (L.takeWhile (fun i => decide (keyAt st.arena i < k))) (j :: B2) hWf halloc rfl
            hB.symm
            (by
              intro _ j2 hj2
              cases Option.some.inj hj2
              intro hc
              exact hkey (cmpI_eq_iff.1 hc))
        refine ⟨stF, _, ?_, hWf2⟩
        show (add_or_set g alloc true k v 0 st).map (fun r => r.2.2) = some stF
        rw [heq]
        rfl
  | del k =>
    cases hB : L.dropWhile (fun i => decide (keyAt st.arena i < k)) with
    | nil =>
      refine ⟨st, L, ?_, hWf⟩
      show (delete_one_or_all false k st).map (fun r => r.2.2) = some st
      rw [delete_notfound false k st L hWf (by rw [hB]; intro j hj; exact Option.noConfusion hj)]
      rfl
    | cons j B2 =>
      by_cases hkey : keyAt st.arena j = k
      · obtain ⟨st2, heq, hWf2, _⟩ :=
          delete_one_found k st L
            (L.takeWhile (fun i => decide (keyAt st.arena i < k))) (j :: B2) B2 j hWf rfl
            hB.symm rfl hkey
        refine ⟨st2, _, ?_, hWf2⟩
        show (delete_one_or_all false k st).map (fun r => r.2.2) = some st2
        rw [heq]
        rfl
      · refine ⟨st, L, ?_, hWf⟩
        show (delete_one_or_all false k st).map (fun r => r.2.2) = some st
        rw [delete_notfound false k st L hWf (by
          rw [hB]
          intro j2 hj2
          cases Option.some.inj hj2
          exact hkey)]
        rfl
  | delAll k =>
    cases hB : L.dropWhile (fun i => decide (keyAt st.arena i < k)) with
    | nil =>
      refine ⟨st, L, ?_, hWf⟩
      show (delete_one_or_all true k st).map (fun r => r.2.2) = some st
      rw [delete_notfound true k st L hWf (by rw [hB]; intro j hj; exact Option.noConfusion hj)]
      rfl
    | cons j B2 =>
      by_cases hkey : keyAt st.arena j = k
      · obtain ⟨st2, heq, hWf2, _⟩ :=
          delete_all_found k st L
            (L.takeWhile (fun i => decide (keyAt st.arena i < k))) B2
            (B2.takeWhile (fun i => decide (keyAt st.arena i = k)))
            (B2.dropWhile (fun i => decide (keyAt st.arena i = k))) j hWf rfl
            hB.symm rfl rfl hkey
        refine ⟨st2, _, ?_, hWf2⟩
        show (delete_one_or_all true k st).map (fun r => r.2.2) = some st2
        rw [heq]
        rfl
      · refine ⟨st, L, ?_, hWf⟩
        show (delete_one_or_all true k st).map (fun r => r.2.2) = some st
        rw [delete_notfound true k st L hWf (by
          rw [hB]
          intro j2 hj2
          cases Option.some.inj hj2
          exact hkey)]
        rfl
  | popFirst =>
    cases hL : L with
    | nil =>
      refine ⟨st, L, ?_, hWf⟩
      show some (skiplist_pop_first st).2 = some st
      rw [skiplist_pop_first_empty hWf hL]
    | cons j L2 =>
      obtain ⟨st2, heq, hWf2, _⟩ := skiplist_pop_first_spec hWf hL
      refine ⟨st2, L2, ?_, hWf2⟩
      show some (skiplist_pop_first st).2 = some st2
      rw [heq]
  | popLast =>
    rcases List.eq_nil_or_concat L with hL | ⟨L2, z, hL⟩
    · refine ⟨st, L, ?_, hWf⟩
      show (skiplist_pop_last st).map (fun r => r.2) = some st
      rw [skiplist_pop_last_empty hWf hL]
      rfl
    · rw [List.concat_eq_append] at hL
      obtain ⟨st2, heq, hWf2, _⟩ := skiplist_pop_last_spec hWf hL
      refine ⟨st2, L2, ?_, hWf2⟩
      show (skiplist_pop_last st).map (fun r => r.2) = some st2
      rw [heq]
      rfl

/-- A sequence of public mutating operations runs to completion on a
well-formed skiplist and preserves well-formedness. -/
theorem execs_preserves (g : Nat → Nat) (alloc : Nat → Bool) (halloc : ∀ n, alloc n = true) :
    ∀ (ops : List Op) (st : SLR) (L : List Nat), Wf st L →
    ∃ st2 L2, execs g alloc ops st = some st2 ∧ Wf st2 L2 := by
  intro ops
  induction ops with
  | nil =>
    intro st L hWf
    exact ⟨st, L, rfl, hWf⟩
  | cons op ops ih =>
    intro st L hWf
    obtain ⟨st1, L1, heq1, hWf1⟩ := execOp_preserves g alloc halloc op st L hWf
    obtain ⟨st2, L2, heq2, hWf2⟩ := ih st1 L1 hWf1
    refine ⟨st2, L2, ?_, hWf2⟩
    show (execOp g alloc op st).bind (execs g alloc ops) = some st2
    rw [heq1]
    exact heq2

/-- The freshly created skiplist is well-formed with no stored nodes. -/
theorem skiplist_new_wf : Wf skiplist_new [] := by decide

/-- The freshly created skiplist has its (single) top level trivially
populated. -/
theorem skiplist_new_topok : TopOk skiplist_new [] := by
  constructor
  · intro _
    rfl
  · intro h
    exact absurd rfl h

end Skiplist

namespace Skiplist

/-- Entries of a takeWhile on any key predicate. -/
theorem entriesOf_takeWhile_pred (a : List Node) (L : List Nat) (p : Int → Bool) :
    entriesOf a (L.takeWhile (fun i => p (keyAt a i)))
      = (entriesOf a L).takeWhile (fun e => p e.1) := by
  unfold entriesOf
  rw [List.takeWhile_map]
  rfl

theorem entriesOf_dropWhile_pred (a : List Node) (L : List Nat) (p : Int → Bool) :
    entriesOf a (L.dropWhile (fun i => p (keyAt a i)))
      = (entriesOf a L).dropWhile (fun e => p e.1) := by
  unfold entriesOf
  rw [List.dropWhile_map]
  rfl

/-- Entries-level effect of one successful skiplist_add. -/
theorem add_entries_step (g : Nat → Nat) (alloc : Nat → Bool) (halloc : ∀ n, alloc n = true)
    (k : Int) (v : Nat) (st : SLR) (L : List Nat) (E : List (Int × Nat))
    (hWf : Wf st L) (hTop : TopOk st L) (hE : entriesOf st.arena L = E) :
    ∃ st2 L2, execOp g alloc (Op.add k v) st = some st2 ∧ Wf st2 L2 ∧ TopOk st2 L2 ∧
      entriesOf st2.arena L2
        = E.takeWhile (fun e => decide (e.1 < k)) ++ (k, v) ::
            E.dropWhile (fun e => decide (e.1 < k)) ∧
      st2.count = st.count + 1 := by
  obtain ⟨oldOut, stF, heq, hWf2, hent, hcnt, _, hTop2⟩ :=
    add_or_set_insert g alloc false k v 0 st L
      (L.takeWhile (fun i => decide (keyAt st.arena i < k)))
      (L.dropWhile (fun i => decide (keyAt st.arena i < k)))
      hWf halloc rfl rfl (fun h => absurd h (by decide))
  refine ⟨stF, _, ?_, hWf2, hTop2 hTop, ?_, hcnt⟩
  · show (add_or_set g alloc false k v 0 st).map (fun r => r.2.2) = some stF
    rw [heq]
    rfl
  · rw [hent, entriesOf_takeWhile_pred st.arena L (fun x => decide (x < k)),
      entriesOf_dropWhile_pred st.arena L (fun x => decide (x < k)), hE]

/-- Entries-level effect of one skiplist_pop_first on a non-empty
skiplist. -/
theorem pop_first_entries_step (st : SLR) (L : List Nat) (k : Int) (v : Nat)
    (Et : List (Int × Nat)) (hWf : Wf st L)
    (hE : entriesOf st.arena L = (k, v) :: Et) :
    ∃ st2 L2, skiplist_pop_first st = (some (k, v), st2) ∧ Wf st2 L2 ∧
      entriesOf st2.arena L2 = Et ∧ st2.count = st.count - 1 := by
  cases hL : L with
  | nil =>
    rw [hL] at hE
    exact Option.noConfusion (congrArg List.head? hE)
  | cons j L2 =>
    rw [hL] at hE
    unfold entriesOf at hE
    rw [List.map_cons] at hE
    have hk : keyAt st.arena j = k := congrArg Prod.fst (List.head_eq_of_cons_eq hE)
    have hv : valAt st.arena j = v := congrArg Prod.snd (List.head_eq_of_cons_eq hE)
    have hEt : entriesOf st.arena L2 = Et := List.tail_eq_of_cons_eq hE
    obtain ⟨st2, heval, hWf2, _, hcnt, _, _, hent⟩ := skiplist_pop_first_spec hWf hL
    refine ⟨st2, L2, ?_, hWf2, ?_, hcnt⟩
    · rw [heval, hk, hv]
    · rw [hent, hEt]

/-- skiplist_first through the entries. -/
theorem first_entries {st : SLR} {L : List Nat} {k : Int} {v : Nat} {Et : List (Int × Nat)}
    (hWf : Wf st L) (hE : entriesOf st.arena L = (k, v) :: Et) :
    skiplist_first st = some (k, v) := by
  cases hL : L with
  | nil =>
    rw [hL] at hE
    exact Option.noConfusion (congrArg List.head? hE)
  | cons j L2 =>
    rw [hL] at hE
    unfold entriesOf at hE
    rw [List.map_cons] at hE
    have hk : keyAt st.arena j = k := congrArg Prod.fst (List.head_eq_of_cons_eq hE)
    have hv : valAt st.arena j = v := congrArg Prod.snd (List.head_eq_of_cons_eq hE)
    rw [skiplist_first_cons hWf hL, hk, hv]

/-- skiplist_last through the entries, on a top-populated skiplist. -/
theorem last_entries {st : SLR} {L : List Nat} {k : Int} {v : Nat} {Ei : List (Int × Nat)}
    (hWf : Wf st L) (hTop : TopOk st L) (hE : entriesOf st.arena L = Ei ++ [(k, v)]) :
    skiplist_last st = some (some (k, v)) := by
  rcases List.eq_nil_or_concat L with hL | ⟨L2, z, hL⟩
  · rw [hL] at hE
    have : ([] : List (Int × Nat)) = Ei ++ [(k, v)] := hE
    exact absurd this.symm (by simp)
  · rw [List.concat_eq_append] at hL
    have hkz : (keyAt st.arena z, valAt st.arena z) = (k, v) := by
      have h2 := congrArg List.getLast? hE
      rw [hL] at h2
      unfold entriesOf at h2
      rw [List.map_append] at h2
      rw [List.getLast?_append_of_ne_nil _ (by simp), List.getLast?_append_of_ne_nil _ (by simp)] at h2
      simp only [List.map_cons, List.map_nil] at h2
      have h3 : some (keyAt st.arena z, valAt st.arena z) = some (k, v) := by
        simpa using h2
      exact Option.some.inj h3
    rw [skiplist_last_spec hWf hTop hL]
    rw [hkz]

end Skiplist

namespace Skiplist

/-- Entries-level effect of skiplist_delete when the key is present. -/
theorem delete_one_entries_step (k : Int) (st : SLR) (L : List Nat)
    (E Et : List (Int × Nat)) (v : Nat) (hWf : Wf st L)
    (hE : entriesOf st.arena L = E)
    (hsplit : E.dropWhile (fun e => decide (e.1 < k)) = (k, v) :: Et) :
    ∃ st2 L2, skiplist_delete k st = some (v, st2) ∧ Wf st2 L2 ∧
      entriesOf st2.arena L2 = E.takeWhile (fun e => decide (e.1 < k)) ++ Et ∧
      st2.count = st.count - 1 := by
  have hEB : entriesOf st.arena (L.dropWhile (fun i => decide (keyAt st.arena i < k)))
      = (k, v) :: Et := by
    rw [entriesOf_dropWhile_pred st.arena L (fun x => decide (x < k)), hE]
    exact hsplit
  cases hB : L.dropWhile (fun i => decide (keyAt st.arena i < k)) with
  | nil =>
    rw [hB] at hEB
    exact Option.noConfusion (congrArg List.head? hEB)
  | cons j B2 =>
    rw [hB] at hEB
    unfold entriesOf at hEB
    rw [List.map_cons] at hEB
    have hk : keyAt st.arena j = k := congrArg Prod.fst (List.head_eq_of_cons_eq hEB)
    have hv : valAt st.arena j = v := congrArg Prod.snd (List.head_eq_of_cons_eq hEB)
    have hEt : entriesOf st.arena B2 = Et := List.tail_eq_of_cons_eq hEB
    obtain ⟨st2, heq, hWf2, _, hcnt, _, _, hent⟩ :=
      delete_one_found k st L (L.takeWhile (fun i => decide (keyAt st.arena i < k)))
        (j :: B2) B2 j hWf rfl hB.symm rfl hk
    refine ⟨st2, _, ?_, hWf2, ?_, hcnt⟩
    · show (delete_one_or_all false k st).map (fun r => (r.1, r.2.2)) = some (v, st2)
      rw [heq, hv]
      rfl
    · rw [hent, entriesOf_takeWhile_pred st.arena L (fun x => decide (x < k)), hE, hEt]

/-- Entries-level effect of skiplist_delete_all when the key is present:
the visitor sees the whole equal-key run in level-0 order. -/
theorem delete_all_entries_step (k : Int) (st : SLR) (L : List Nat)
    (E Et : List (Int × Nat)) (v : Nat) (hWf : Wf st L)
    (hE : entriesOf st.arena L = E)
    (hsplit : E.dropWhile (fun e => decide (e.1 < k)) = (k, v) :: Et) :
    ∃ st2 L2, skiplist_delete_all k st
        = some ((k, v) :: Et.takeWhile (fun e => decide (e.1 = k)), st2) ∧ Wf st2 L2 ∧
      entriesOf st2.arena L2
        = E.takeWhile (fun e => decide (e.1 < k)) ++
            Et.dropWhile (fun e => decide (e.1 = k)) ∧
      st2.count = st.count - ((Et.takeWhile (fun e => decide (e.1 = k))).length + 1) := by
  have hEB : entriesOf st.arena (L.dropWhile (fun i => decide (keyAt st.arena i < k)))
      = (k, v) :: Et := by
    rw [entriesOf_dropWhile_pred st.arena L (fun x => decide (x < k)), hE]
    exact hsplit
  cases hB : L.dropWhile (fun i => decide (keyAt st.arena i < k)) with
  | nil =>
    rw [hB] at hEB
    exact Option.noConfusion (congrArg List.head? hEB)
  | cons j B2 =>
    rw [hB] at hEB
    unfold entriesOf at hEB
    rw [List.map_cons] at hEB
    have hk : keyAt st.arena j = k := congrArg Prod.fst (List.head_eq_of_cons_eq hEB)
    have hv : valAt st.arena j = v := congrArg Prod.snd (List.head_eq_of_cons_eq hEB)
    have hEt : entriesOf st.arena B2 = Et := List.tail_eq_of_cons_eq hEB
    obtain ⟨st2, heq, hWf2, _, hcnt, _, _, hent⟩ :=
      delete_all_found k st L (L.takeWhile (fun i => decide (keyAt st.arena i < k)))
        B2 (B2.takeWhile (fun i => decide (keyAt st.arena i = k)))
        (B2.dropWhile (fun i => decide (keyAt st.arena i = k))) j hWf rfl hB.symm rfl rfl hk
    have hED : entriesOf st.arena (B2.takeWhile (fun i => decide (keyAt st.arena i = k)))
        = Et.takeWhile (fun e => decide (e.1 = k)) := by
      rw [entriesOf_takeWhile_pred st.arena B2 (fun x => decide (x = k)), hEt]
    have hvis : (j :: B2.takeWhile (fun i => decide (keyAt st.arena i = k))).map
        (fun i => (k, valAt st.arena i))
        = (k, v) :: Et.takeWhile (fun e => decide (e.1 = k)) := by
      rw [List.map_cons, hv, ← hED]
      unfold entriesOf
      congr 1
      refine List.map_congr_left ?_
      intro i hi
      have h2 := List.mem_takeWhile_imp hi
      have h3 : keyAt st.arena i = k := by simpa using h2
      rw [h3]
    have hlenD : (B2.takeWhile (fun i => decide (keyAt st.arena i = k))).length
        = (Et.takeWhile (fun e => decide (e.1 = k))).length := by
      rw [← hED]
      unfold entriesOf
      rw [List.length_map]
    refine ⟨st2, _, ?_, hWf2, ?_, ?_⟩
    · show (delete_one_or_all true k st).map (fun r => (r.2.1, r.2.2)) = some _
      rw [heq]
      show some _ = some _
      rw [hvis]
    · rw [hent, entriesOf_takeWhile_pred st.arena L (fun x => decide (x < k)), hE,
        entriesOf_dropWhile_pred st.arena B2 (fun x => decide (x = k)), hEt]
    · rw [hcnt, hlenD]

end Skiplist
namespace Skiplist

/-- Pairwise replay: two insert sequences of equal length, run with the same
height generator from states with equal skeletons, produce states with equal
skeletons — the tower shape never depends on the keys or values inserted. -/
theorem runAdds_skel_pair (g : Nat → Nat) (alloc : Nat → Bool) (halloc : ∀ n, alloc n = true) :
    ∀ (kvs1 kvs2 : List (Int × Nat)) (st1 st2 : SLR) (L1 L2 : List Nat),
      kvs1.length = kvs2.length → Wf st1 L1 → Wf st2 L2 → Skel st1 = Skel st2 →
      ∃ r1 r2, runAdds g alloc kvs1 st1 = some r1 ∧ runAdds g alloc kvs2 st2 = some r2 ∧
        Skel r1 = Skel r2 := by
  intro kvs1
  induction kvs1 with
  | nil =>
    intro kvs2 st1 st2 L1 L2 hlen hWf1 hWf2 hsk
    cases kvs2 with
    | nil => exact ⟨st1, st2, rfl, rfl, hsk⟩
    | cons e2 t2 => exact absurd hlen (by simp)
  | cons e1 t1 ih =>
    intro kvs2 st1 st2 L1 L2 hlen hWf1 hWf2 hsk
    cases kvs2 with
    | nil => exact absurd hlen (by simp)
    | cons e2 t2 =>
      obtain ⟨o1, s1, heq1, hsk1⟩ := skiplist_add_skel g alloc halloc e1.1 e1.2 st1 L1 hWf1
      obtain ⟨o2, s2, heq2, hsk2⟩ := skiplist_add_skel g alloc halloc e2.1 e2.2 st2 L2 hWf2
      obtain ⟨s1x, L1x, heq1x, hWf1x⟩ :=
        execOp_preserves g alloc halloc (Op.add e1.1 e1.2) st1 L1 hWf1
      obtain ⟨s2x, L2x, heq2x, hWf2x⟩ :=
        execOp_preserves g alloc halloc (Op.add e2.1 e2.2) st2 L2 hWf2
      have hx1 : s1x = s1 := by
        have h2 : (add_or_set g alloc false e1.1 e1.2 0 st1).map (fun r => r.2.2) = some s1x :=
          heq1x
        rw [heq1] at h2
        exact (Option.some.inj h2).symm
      have hx2 : s2x = s2 := by
        have h2 : (add_or_set g alloc false e2.1 e2.2 0 st2).map (fun r => r.2.2) = some s2x :=
          heq2x
        rw [heq2] at h2
        exact (Option.some.inj h2).symm
      have hWf1s : Wf s1 L1x := hx1 ▸ hWf1x
      have hWf2s : Wf s2 L2x := hx2 ▸ hWf2x
      have hskS : Skel s1 = Skel s2 := by rw [hsk1, hsk2, hsk]
      obtain ⟨r1, r2, hr1, hr2, hskr⟩ :=
        ih t2 s1 s2 L1x L2x (by simpa using hlen) hWf1s hWf2s hskS
      refine ⟨r1, r2, ?_, ?_, hskr⟩
      · show (execOp g alloc (Op.add e1.1 e1.2) st1).bind
            (execs g alloc (t1.map (fun e => Op.add e.1 e.2))) = some r1
        rw [heq1x, hx1]
        exact hr1
      · show (execOp g alloc (Op.add e2.1 e2.2) st2).bind
            (execs g alloc (t2.map (fun e => Op.add e.1 e.2))) = some r2
        rw [heq2x, hx2]
        exact hr2

/-- Claim C1: for every sequence of public mutating operations (add, set,
delete, delete_all, pop_first, pop_last) applied to a freshly created
skiplist under any height generator and a succeeding allocator, the
operations all succeed and a subsequent full iteration (skiplist_iter)
visits entries in non-decreasing key order under the comparator. -/
theorem claim_C1 (g : Nat → Nat) (alloc : Nat → Bool) (halloc : ∀ n, alloc n = true)
    (ops : List Op) :
    ∃ st2 es, execs g alloc ops skiplist_new = some st2 ∧
      skiplist_iter_list st2 = some es ∧ (es.map Prod.fst).Sorted (· ≤ ·) := by
  obtain ⟨st2, L2, heq, hWf2⟩ := execs_preserves g alloc halloc ops skiplist_new [] skiplist_new_wf
  refine ⟨st2, entriesOf st2.arena L2, heq, skiplist_iter_spec hWf2, ?_⟩
  have hmap : (entriesOf st2.arena L2).map Prod.fst = L2.map (keyAt st2.arena) := by
    unfold entriesOf
    rw [List.map_map]
    rfl
  rw [hmap]
  exact hWf2.sorted

/-- Witness for claim C1 at a concrete operation sequence. -/
theorem claim_C1_witness :
    ∃ st2 es, execs (fun _ => 0) (fun _ => true)
        [Op.add 2 5, Op.set 2 7, Op.add 9 1, Op.del 2] skiplist_new = some st2 ∧
      skiplist_iter_list st2 = some es ∧ (es.map Prod.fst).Sorted (· ≤ ·) :=
  claim_C1 (fun _ => 0) (fun _ => true) (fun _ => rfl)
    [Op.add 2 5, Op.set 2 7, Op.add 9 1, Op.del 2]

/-- Claim C2: counterexample — skiplist_clear frees every entry (a full
iteration afterwards visits nothing) and returns the number cleared, but the
source never resets sl->count in skiplist_clear, so after add(1,1) followed
by clear, skiplist_count still returns 1 while the iteration visits 0
entries: count does not equal the number of nodes a full iteration visits. -/
theorem claim_C2 :
    ((execs (fun _ => 0) (fun _ => true) [Op.add 1 1] skiplist_new).bind
        (fun st1 => (skiplist_clear st1).map
          (fun r => (r.1, skiplist_count r.2.2, skiplist_iter_list r.2.2))))
      = some (1, 1, some []) := rfl

/-- Claim C3 (amended): duplicate keys are kept in reverse insertion order
among themselves — each insert lands in front of the existing equal-key run.
After inserting (5,a), (5,b), (5,c) in that order, delete(5) removes exactly
one node, the most recently inserted c, leaving b, a reachable in that
order; delete_all(5, visitor) removes all three, invoking the visitor with
c, b, a in that order and dropping count by 3 to 0. -/
theorem claim_C3 (g : Nat → Nat) (alloc : Nat → Bool) (halloc : ∀ n, alloc n = true)
    (a b c : Nat) :
    ∃ st3, runAdds g alloc [(5, a), (5, b), (5, c)] skiplist_new = some st3 ∧
      skiplist_count st3 = 3 ∧
      (∃ st4, skiplist_delete 5 st3 = some (c, st4) ∧
        skiplist_iter_list st4 = some [(5, b), (5, a)] ∧ skiplist_count st4 = 2) ∧
      (∃ st5, skiplist_delete_all 5 st3 = some ([(5, c), (5, b), (5, a)], st5) ∧
        skiplist_iter_list st5 = some [] ∧ skiplist_count st5 = 0) := by
  obtain ⟨st1, L1, heq1, hWf1, hTop1, hent1, hcnt1⟩ :=
    add_entries_step g alloc halloc 5 a skiplist_new [] [] skiplist_new_wf skiplist_new_topok rfl
  have hE1 : entriesOf st1.arena L1 = [(5, a)] := by rw [hent1]; rfl
  obtain ⟨st2, L2, heq2, hWf2, hTop2, hent2, hcnt2⟩ :=
    add_entries_step g alloc halloc 5 b st1 L1 [(5, a)] hWf1 hTop1 hE1
  have hE2 : entriesOf st2.arena L2 = [(5, b), (5, a)] := by rw [hent2]; rfl
  obtain ⟨st3, L3, heq3, hWf3, hTop3, hent3, hcnt3⟩ :=
    add_entries_step g alloc halloc 5 c st2 L2 [(5, b), (5, a)] hWf2 hTop2 hE2
  have hE3 : entriesOf st3.arena L3 = [(5, c), (5, b), (5, a)] := by rw [hent3]; rfl
  have h0 : skiplist_new.count = 0 := rfl
  have hc3 : st3.count = 3 := by omega
  obtain ⟨st4, L4, heq4, hWf4, hent4, hcnt4⟩ :=
    delete_one_entries_step 5 st3 L3 [(5, c), (5, b), (5, a)] [(5, b), (5, a)] c hWf3 hE3 rfl
  obtain ⟨st5, L5, heq5, hWf5, hent5, hcnt5⟩ :=
    delete_all_entries_step 5 st3 L3 [(5, c), (5, b), (5, a)] [(5, b), (5, a)] c hWf3 hE3 rfl
  have hlenD : (([(5, b), (5, a)] : List (Int × Nat)).takeWhile
      (fun e => decide (e.1 = 5))).length = 2 := rfl
  refine ⟨st3, ?_, hc3, ⟨st4, heq4, ?_, by show st4.count = 2; omega⟩,
    ⟨st5, heq5, ?_, by show st5.count = 0; omega⟩⟩
  · show (execOp g alloc (Op.add 5 a) skiplist_new).bind
        (execs g alloc [Op.add 5 b, Op.add 5 c]) = some st3
    rw [heq1]
    show (execOp g alloc (Op.add 5 b) st1).bind (execs g alloc [Op.add 5 c]) = some st3
    rw [heq2]
    show (execOp g alloc (Op.add 5 c) st2).bind (execs g alloc []) = some st3
    rw [heq3]
    rfl
  · rw [skiplist_iter_spec hWf4, hent4]
    rfl
  · rw [skiplist_iter_spec hWf5, hent5]
    rfl

/-- Counterexample to the original claim C3: with values 1, 2, 3 standing for
"a", "b", "c", delete(5) after inserting (5,1), (5,2), (5,3) removes the node
holding 3 (the most recently inserted, not the first inserted 1), leaving
(5,2), (5,1) in that order, and delete_all(5) invokes the visitor with
values 3, 2, 1 — the reverse of insertion order. -/
theorem claim_C3_counterexample :
    ((runAdds (fun _ => 0) (fun _ => true) [(5, 1), (5, 2), (5, 3)] skiplist_new).bind
        (fun st3 => (skiplist_delete 5 st3).map (fun r => (r.1, skiplist_iter_list r.2))))
      = some (3, some [(5, 2), (5, 1)]) ∧
    ((runAdds (fun _ => 0) (fun _ => true) [(5, 1), (5, 2), (5, 3)] skiplist_new).bind
        (fun st3 => (skiplist_delete_all 5 st3).map (fun r => r.1)))
      = some [(5, 3), (5, 2), (5, 1)] := ⟨rfl, rfl⟩

/-- Witness for claim C3 at a concrete generator and concrete values. -/
theorem claim_C3_witness :
    ∃ st3, runAdds (fun _ => 0) (fun _ => true) [(5, 1), (5, 2), (5, 3)] skiplist_new
        = some st3 ∧
      skiplist_count st3 = 3 ∧
      (∃ st4, skiplist_delete 5 st3 = some (3, st4) ∧
        skiplist_iter_list st4 = some [(5, 2), (5, 1)] ∧ skiplist_count st4 = 2) ∧
      (∃ st5, skiplist_delete_all 5 st3 = some ([(5, 3), (5, 2), (5, 1)], st5) ∧
        skiplist_iter_list st5 = some [] ∧ skiplist_count st5 = 0) :=
  claim_C3 (fun _ => 0) (fun _ => true) (fun _ => rfl) 1 2 3

/-- Claim C4: counterexample — when a node with key k exists, set replaces in
place and returns the previous value; but in the not-found case the source
writes *old = NULL only when the level-0 successor is a real node with a
different key.  When that successor is the sentinel (empty structure, or k
greater than every stored key) *old is never written, so the caller's
incoming value (here 7) survives as the reported "previous value" even
though the entry was freshly inserted (get finds 42, count is 1). -/
theorem claim_C4 :
    ((skiplist_set (fun _ => 0) (fun _ => true) 5 42 7 skiplist_new).map
        (fun r => (r.1, r.2.1, skiplist_get r.2.2 5, skiplist_count r.2.2)))
      = some (0, 7, some 42, 1) ∧
    ((execs (fun _ => 0) (fun _ => true) [Op.add 3 30] skiplist_new).bind
        (fun st1 => (skiplist_set (fun _ => 0) (fun _ => true) 5 42 7 st1).map
          (fun r => (r.1, r.2.1))))
      = some (0, 7) ∧
    ((execs (fun _ => 0) (fun _ => true) [Op.add 9 1] skiplist_new).bind
        (fun st1 => (skiplist_set (fun _ => 0) (fun _ => true) 5 42 7 st1).map
          (fun r => (r.1, r.2.1))))
      = some (0, 0) := ⟨rfl, rfl, rfl⟩

/-- Claim C5 (amended): get returns the first matching node's value, with
NULL (0) also returned when the key is absent, and member reports whether
that value is non-NULL — so a stored NULL value is conflated with absence
and member is false for a key stored with the NULL value. -/
theorem claim_C5 (st : SLR) (L : List Nat) (k : Int) (hWf : Wf st L) :
    skiplist_get st k = some (specGetVal (entriesOf st.arena L) k) ∧
    skiplist_member st k = some (decide (specGetVal (entriesOf st.arena L) k ≠ 0)) :=
  ⟨skiplist_get_spec hWf k, skiplist_member_spec hWf k⟩

/-- Counterexample to the original claim C5: key 5 is currently stored with
the NULL (0) value — a full iteration visits (5,0) — yet member(5) returns
false and get(5) returns NULL, indistinguishable from the not-found result. -/
theorem claim_C5_counterexample :
    ((execs (fun _ => 0) (fun _ => true) [Op.add 5 0] skiplist_new).map
        (fun st => (skiplist_iter_list st, skiplist_member st 5, skiplist_get st 5)))
      = some (some [(5, 0)], some false, some 0) := rfl

/-- Witness for claim C5 on a concrete one-entry state storing (5, 0). -/
theorem claim_C5_witness :
    skiplist_get (⟨[⟨1, 0, 0, [some 1]⟩, ⟨1, 5, 0, [none]⟩], 0, 1, 0⟩ : SLR) 5
      = some (specGetVal (entriesOf
          (⟨[⟨1, 0, 0, [some 1]⟩, ⟨1, 5, 0, [none]⟩], 0, 1, 0⟩ : SLR).arena [1]) 5) ∧
    skiplist_member (⟨[⟨1, 0, 0, [some 1]⟩, ⟨1, 5, 0, [none]⟩], 0, 1, 0⟩ : SLR) 5
      = some (decide (specGetVal (entriesOf
          (⟨[⟨1, 0, 0, [some 1]⟩, ⟨1, 5, 0, [none]⟩], 0, 1, 0⟩ : SLR).arena [1]) 5 ≠ 0)) :=
  claim_C5 (⟨[⟨1, 0, 0, [some 1]⟩, ⟨1, 5, 0, [none]⟩], 0, 1, 0⟩ : SLR) [1] 5 (by decide)

/-- Claim C6: if allocation of the new node or of the replacement (taller)
head fails during add or set, the operation reports -1 and the skiplist is
left unmodified: the installed head, the count, and every pre-existing node
(hence every forward pointer) are exactly as before the call, with no
partial splicing. -/
theorem claim_C6 (g : Nat → Nat) (alloc : Nat → Bool) (tr : Bool) (k : Int) (v oldIn : Nat)
    (st : SLR) (r : Int) (o : Nat) (st2 : SLR)
    (heq : add_or_set g alloc tr k v oldIn st = some (r, o, st2)) (hr : r = -1) :
    st2.headIdx = st.headIdx ∧ st2.count = st.count ∧
      (∀ i, i < st.arena.length → nodeAt st2.arena i = nodeAt st.arena i) :=
  add_or_set_fail_frame g alloc tr k v oldIn st r o st2 heq hr

/-- Witness for claim C6: an allocator that fails on exactly the allocation
the first add performs, applied to the freshly created skiplist. -/
theorem claim_C6_witness :
    (⟨[⟨1, 0, 0, [none]⟩], 0, 0, 1⟩ : SLR).headIdx = skiplist_new.headIdx ∧
    (⟨[⟨1, 0, 0, [none]⟩], 0, 0, 1⟩ : SLR).count = skiplist_new.count ∧
    (∀ i, i < skiplist_new.arena.length →
      nodeAt (⟨[⟨1, 0, 0, [none]⟩], 0, 0, 1⟩ : SLR).arena i = nodeAt skiplist_new.arena i) :=
  claim_C6 (fun _ => 0) (fun n => decide (n ≠ 1)) false 3 4 0 skiplist_new (-1) 0
    (⟨[⟨1, 0, 0, [none]⟩], 0, 0, 1⟩ : SLR) rfl rfl

/-- Claim C7 (amended): the height generator returns one plus the number of
consecutive set low-order bits of the draw counted from bit 1 (bit 0 is
ignored: the loop condition tests r & (2 << bit)), capped at
SKIPLIST_MAX_HEIGHT — equivalently min (1 + consecutive-low-bits (r / 2))
SKIPLIST_MAX_HEIGHT — and the result always lies in [1, SKIPLIST_MAX_HEIGHT]. -/
theorem claim_C7 (r : Nat) :
    SKIPLIST_GEN_HEIGHT r = min (1 + specConsecutiveLowBits (r / 2)) SKIPLIST_MAX_HEIGHT ∧
    1 ≤ SKIPLIST_GEN_HEIGHT r ∧ SKIPLIST_GEN_HEIGHT r ≤ SKIPLIST_MAX_HEIGHT :=
  ⟨SKIPLIST_GEN_HEIGHT_eq r, SKIPLIST_GEN_HEIGHT_pos r, SKIPLIST_GEN_HEIGHT_le r⟩

/-- Counterexample to the original claim C7: the draw 1 has exactly one
consecutive set low-order bit, so the claimed formula gives
min (1 + 1) SKIPLIST_MAX_HEIGHT = 2, but the generator returns 1 — the loop
tests bits starting from bit 1, never bit 0. -/
theorem claim_C7_counterexample :
    SKIPLIST_GEN_HEIGHT 1 = 1 ∧
    min (1 + specConsecutiveLowBits 1) SKIPLIST_MAX_HEIGHT = 2 ∧
    SKIPLIST_GEN_HEIGHT 1 ≠ min (1 + specConsecutiveLowBits 1) SKIPLIST_MAX_HEIGHT := by
  have h0 : specConsecutiveLowBits 0 = 0 := by
    rw [specConsecutiveLowBits]
    norm_num
  have h1 : specConsecutiveLowBits 1 = 1 := by
    rw [specConsecutiveLowBits]
    norm_num [h0]
  refine ⟨by decide, ?_, ?_⟩
  · rw [h1]
    decide
  · rw [h1]
    decide

/-- Claim C8: under any height generator, after inserting keys 5, 3, 8, 1
(values 50, 30, 80, 10) into a freshly created skiplist, first() returns the
entry with key 1 and last() the entry with key 8; repeated pop_first()
yields keys 1, 3, 5, 8 in that order and leaves the structure empty with
count 0. -/
theorem claim_C8 (g : Nat → Nat) :
    ∃ st4 st5 st6 st7 st8,
      runAdds g (fun _ => true) [(5, 50), (3, 30), (8, 80), (1, 10)] skiplist_new
        = some st4 ∧
      skiplist_first st4 = some (1, 10) ∧
      skiplist_last st4 = some (some (8, 80)) ∧
      skiplist_pop_first st4 = (some (1, 10), st5) ∧
      skiplist_pop_first st5 = (some (3, 30), st6) ∧
      skiplist_pop_first st6 = (some (5, 50), st7) ∧
      skiplist_pop_first st7 = (some (8, 80), st8) ∧
      skiplist_count st8 = 0 ∧ skiplist_empty st8 = true ∧
      skiplist_iter_list st8 = some [] := by
  have halloc : ∀ n, (fun _ => true : Nat → Bool) n = true := fun _ => rfl
  obtain ⟨st1, L1, heq1, hWf1, hTop1, hent1, hcnt1⟩ :=
    add_entries_step g _ halloc 5 50 skiplist_new [] [] skiplist_new_wf skiplist_new_topok rfl
  have hE1 : entriesOf st1.arena L1 = [(5, 50)] := by rw [hent1]; rfl
  obtain ⟨st2, L2, heq2, hWf2, hTop2, hent2, hcnt2⟩ :=
    add_entries_step g _ halloc 3 30 st1 L1 [(5, 50)] hWf1 hTop1 hE1
  have hE2 : entriesOf st2.arena L2 = [(3, 30), (5, 50)] := by rw [hent2]; rfl
  obtain ⟨st3, L3, heq3, hWf3, hTop3, hent3, hcnt3⟩ :=
    add_entries_step g _ halloc 8 80 st2 L2 [(3, 30), (5, 50)] hWf2 hTop2 hE2
  have hE3 : entriesOf st3.arena L3 = [(3, 30), (5, 50), (8, 80)] := by rw [hent3]; rfl
  obtain ⟨st4, L4, heq4, hWf4, hTop4, hent4, hcnt4⟩ :=
    add_entries_step g _ halloc 1 10 st3 L3 [(3, 30), (5, 50), (8, 80)] hWf3 hTop3 hE3
  have hE4 : entriesOf st4.arena L4 = [(1, 10), (3, 30), (5, 50), (8, 80)] := by rw [hent4]; rfl
  obtain ⟨st5, L5, hpop1, hWf5, hE5, hcnt5⟩ :=
    pop_first_entries_step st4 L4 1 10 [(3, 30), (5, 50), (8, 80)] hWf4 hE4
  obtain ⟨st6, L6, hpop2, hWf6, hE6, hcnt6⟩ :=
    pop_first_entries_step st5 L5 3 30 [(5, 50), (8, 80)] hWf5 hE5
  obtain ⟨st7, L7, hpop3, hWf7, hE7, hcnt7⟩ :=
    pop_first_entries_step st6 L6 5 50 [(8, 80)] hWf6 hE6
  obtain ⟨st8, L8, hpop4, hWf8, hE8, hcnt8⟩ :=
    pop_first_entries_step st7 L7 8 80 [] hWf7 hE7
  have h0 : skiplist_new.count = 0 := rfl
  have hc8 : st8.count = 0 := by omega
  refine ⟨st4, st5, st6, st7, st8, ?_, ?_, ?_, hpop1, hpop2, hpop3, hpop4, hc8, ?_, ?_⟩
  · show (execOp g (fun _ => true) (Op.add 5 50) skiplist_new).bind
        (execs g (fun _ => true) [Op.add 3 30, Op.add 8 80, Op.add 1 10]) = some st4
    rw [heq1]
    show (execOp g (fun _ => true) (Op.add 3 30) st1).bind
        (execs g (fun _ => true) [Op.add 8 80, Op.add 1 10]) = some st4
    rw [heq2]
    show (execOp g (fun _ => true) (Op.add 8 80) st2).bind
        (execs g (fun _ => true) [Op.add 1 10]) = some st4
    rw [heq3]
    show (execOp g (fun _ => true) (Op.add 1 10) st3).bind
        (execs g (fun _ => true) []) = some st4
    rw [heq4]
    rfl
  · exact first_entries hWf4 hE4
  · exact last_entries hWf4 hTop4
      (show entriesOf st4.arena L4 = [(1, 10), (3, 30), (5, 50)] ++ [(8, 80)] by rw [hE4]; rfl)
  · show decide (skiplist_count st8 = 0) = true
    rw [show skiplist_count st8 = st8.count from rfl, hc8]
    rfl
  · rw [skiplist_iter_spec hWf8, hE8]

/-- Claim C9: with the allocator succeeding and the height-generator stream
fixed (as by set_seed), replaying any two insert sequences of equal length
from a freshly created skiplist produces identical per-node heights (and the
same RNG cursor), independent of the keys and values inserted. -/
theorem claim_C9 (g : Nat → Nat) (alloc : Nat → Bool) (halloc : ∀ n, alloc n = true)
    (kvs1 kvs2 : List (Int × Nat)) (hlen : kvs1.length = kvs2.length) :
    ∃ st1 st2, runAdds g alloc kvs1 skiplist_new = some st1 ∧
      runAdds g alloc kvs2 skiplist_new = some st2 ∧
      heightsOf st1 = heightsOf st2 ∧ st1.rngIdx = st2.rngIdx := by
  obtain ⟨r1, r2, h1, h2, hsk⟩ := runAdds_skel_pair g alloc halloc kvs1 kvs2
    skiplist_new skiplist_new [] [] hlen skiplist_new_wf skiplist_new_wf rfl
  exact ⟨r1, r2, h1, h2, congrArg (fun s => s.1) hsk, congrArg (fun s => s.2.2.2) hsk⟩

/-- Witness for claim C9 at two concrete one-insert sequences with different
keys and values. -/
theorem claim_C9_witness :
    ∃ st1 st2, runAdds (fun _ => 0) (fun _ => true) [(1, 2)] skiplist_new = some st1 ∧
      runAdds (fun _ => 0) (fun _ => true) [(7, 9)] skiplist_new = some st2 ∧
      heightsOf st1 = heightsOf st2 ∧ st1.rngIdx = st2.rngIdx :=
  claim_C9 (fun _ => 0) (fun _ => true) (fun _ => rfl) [(1, 2)] [(7, 9)] rfl

/-- Claim C10: when stored nodes share key k, skiplist_set(k, v) affects only
the first node j of the equal-key run in level-0 order: the whole result
state is the input state with exactly node j's value field replaced — so it
returns j's old value, never inserts, and leaves every other node's value,
every forward pointer, and the count unchanged — and well-formedness over
the same node list is preserved. -/
theorem claim_C10 (g : Nat → Nat) (alloc : Nat → Bool) (k : Int) (v oldIn : Nat)
    (st : SLR) (L A B : List Nat) (j : Nat) (hWf : Wf st L)
    (hAeq : A = L.takeWhile (fun i => decide (keyAt st.arena i < k)))
    (hBeq : B = L.dropWhile (fun i => decide (keyAt st.arena i < k)))
    (hj : B.head? = some j) (hkey : keyAt st.arena j = k) :
    skiplist_set g alloc k v oldIn st
      = some (0, valAt st.arena j,
          { st with arena := st.arena.set j { nodeAt st.arena j with v := v } }) ∧
    Wf { st with arena := st.arena.set j { nodeAt st.arena j with v := v } } L := by
  have h := add_or_set_replace g alloc k v oldIn st L A B j hWf hAeq hBeq hj hkey
  exact ⟨h.1, h.2.1⟩

/-- Witness for claim C10 on a concrete state holding the duplicate-key run
(5,11), (5,22): set(5,99) rewrites only the first run node's value. -/
theorem claim_C10_witness :
    skiplist_set (fun _ => 0) (fun _ => true) 5 99 0
        (⟨[⟨1, 0, 0, [some 1]⟩, ⟨1, 5, 11, [some 2]⟩, ⟨1, 5, 22, [none]⟩], 0, 2, 0⟩ : SLR)
      = some (0, 11,
          (⟨[⟨1, 0, 0, [some 1]⟩, ⟨1, 5, 99, [some 2]⟩, ⟨1, 5, 22, [none]⟩], 0, 2, 0⟩ : SLR)) ∧
    Wf (⟨[⟨1, 0, 0, [some 1]⟩, ⟨1, 5, 99, [some 2]⟩, ⟨1, 5, 22, [none]⟩], 0, 2, 0⟩ : SLR)
        [1, 2] :=
  claim_C10 (fun _ => 0) (fun _ => true) 5 99 0
    (⟨[⟨1, 0, 0, [some 1]⟩, ⟨1, 5, 11, [some 2]⟩, ⟨1, 5, 22, [none]⟩], 0, 2, 0⟩ : SLR)
    [1, 2] [] [1, 2] 1 (by decide) rfl rfl rfl rfl

end Skiplist
